import Mathlib

/-!
# Print server: job lifecycle, queues and command handlers

A shallow embedding of `print_server.c`, `dbllinklist.c` and the device interface
of `printer_management.c`.

* Pointers are indices: a `job_t*` is an index into `State.jobs`, a `printer_t*` an
  index into `State.printers` (printer records are never unlinked from
  `printer_list`, so the position of a record in the list identifies it), a
  `client_t*` an index into `State.clients`.  `malloc` appends a record, `free`
  leaves the record where it is.
* An intrusive circular list with anchor `h` is the list of the records linked
  between `h.next` and `h`; `list_add_tail` appends, `list_del` removes the entry.
* A thread is its program counter and its local variables.  One step of a thread
  is the code between two lock-delimited sections; `pthread_cancel` on a thread
  with asynchronous cancelability ends it at once.  A command of a client is one
  step; where a command releases a lock and goes on in a second section
  (`print_cmd_fct` between lines 214 and 217, `invoice_cmd_fct` between lines 359 and
  361), the sections are also given apart (`registry_race`, `invoice_interleaved`).
* The lock calls are taken to succeed.  The counters (`job_counter`, `client_count`,
  `page_count`, `line_count`) stay clear of overflow; `atoi` is the one of glibc, whose
  result the callers store in an `int`.
* Strings are lists of characters.  The buffer `extension` of `jobs_cmd_fct` has its
  126 bytes; the reply buffer of 10000 bytes and the allocation of the file name
  (line 234, one byte short of the terminator that `strcpy` writes) are taken to hold
  the text written to them.
* `dbllinklist.c` is embedded twice: on the list of linked entries, which is what the
  server state uses, and on the `next` and `prev` fields of the cells
  (`dbllinklist.Memory`), where the first is shown to be what the second computes.
-/

namespace PrintServer

/-! ## Data model -/

/-- Job states: the enum `status_e`. -/
inductive status_e where
  | WAITING
  | IN_PROGRESS
  | CANCELED
  | FINISHED
  | PRINTER_ERROR
  | FILE_ERROR
  deriving DecidableEq, Repr

/-- Program points of `job_worker`, one per lock-delimited section. -/
inductive pc_t where
  /-- Lines 616-625: thread created, before the test of `printer`. -/
  | START
  /-- Line 628: `pthread_mutex_lock(&printer->job_mutex)`. -/
  | LOCK
  /-- Lines 630-648: one pass of the turn loop, mutex held. -/
  | TURN
  /-- Line 643: inside `pthread_cond_wait`, mutex released. -/
  | SLEEP
  /-- Lines 652-665: the locals `line`, `aborted` and `line_count` are initialised, then `fopen`. -/
  | OPEN
  /-- Lines 666-672: read of the status before the start of printing. -/
  | CHECK
  /-- Lines 673-677: `status = IN_PROGRESS; page_count = 1`. -/
  | SET
  /-- Lines 679-680: the `while` test with `getline`. -/
  | GETLINE
  /-- Lines 681-702: the `for` test, the device probe, the page break and `print_char`. -/
  | CHAR
  /-- Lines 705-712: the poll of the status after a character. -/
  | POLL
  /-- Lines 715-733: `fclose`, `list_del` from the printer queue, broadcast, mutex unlock. -/
  | UNLINK
  /-- Lines 736-743: `status = FINISHED` unless aborted. -/
  | FINISH
  /-- The thread has returned or was cancelled. -/
  | EXITED
  deriving DecidableEq, Repr

/-- The worker thread `job->tid`: program point and the locals of `job_worker`.
`line` holds `line[i .. strlen(line))`, the characters of the current line not yet printed. -/
structure thread_t where
  pc : pc_t
  aborted : Bool
  line_count : Int
  line : List Char
  deriving DecidableEq, Repr

/-- The record `job_t`.  `fd` is the unread rest of the opened file. -/
structure job_t where
  printer : Option Nat
  client : Nat
  filename : String
  fd : List Char
  page_count : Int
  tid : thread_t
  id : Int
  status : status_e
  deriving DecidableEq, Repr

/-- The record `printer_t`.  `jobs` is the queue anchored at `printer->jobs`,
`fd` the characters handed to `print_char` for this device, `job_mutex` the
owner of the mutex when it is locked. -/
structure printer_t where
  id : Int
  jobs : List Nat
  fd : List Char
  job_mutex : Option Nat
  status : status_e
  deriving DecidableEq, Repr

/-- The record `client_t`.  `jobs` is the index anchored at `client->jobs`. -/
structure client_t where
  jobs : List Nat
  job_counter : Int
  id : Int
  quit : Int
  deriving DecidableEq, Repr

/-- The globals of print_server.c together with the heap of job and client records. -/
structure State where
  jobs : List job_t
  printers : List printer_t
  clients : List client_t
  client_list : List Nat
  client_count : Int
  deriving DecidableEq, Repr

/-- What a step observes of the world outside the process: the device probe
`printer_exists`, the file system seen by `fopen`, the result of `pthread_create`
and the text of `strerror`. -/
structure Env where
  printer_exists : Int → Bool
  fopen : String → Option (List Char)
  pthread_create : Int
  strerror : Int → String

/-- Max lines per page. -/
def lines_per_page : Int := 5

/-! ## dbllinklist.c on the list of linked entries -/

/-- `list_add_tail(new, head)`: insert `new` before the anchor. -/
def list_add_tail (e : Nat) (l : List Nat) : List Nat := l ++ [e]

/-- `list_del(entry)`: unlink the entry; an entry that is not linked stays self-linked. -/
def list_del (e : Nat) (l : List Nat) : List Nat := l.erase e

/-- `list_empty(list)`. -/
def list_empty (l : List Nat) : Bool := l.isEmpty

/-! ## libc -/

/-- `isspace` in the C locale. -/
def isspace (c : Char) : Bool :=
  c = ' ' || c = '\t' || c = '\n' || c = '\x0b' || c = '\x0c' || c = '\r'

/-- The digit loop of `atoi`. -/
def atoi_digits : List Char → Int → Int
  | [], acc => acc
  | c :: cs, acc =>
    if c.isDigit then atoi_digits cs (acc * 10 + ((c.toNat : Int) - 48)) else acc

/-- The number a numeral denotes: optional blanks, optional sign, decimal digits; 0 when
there is no digit. -/
def numeral (s : String) : Int :=
  match s.toList.dropWhile isspace with
  | '-' :: ds => - atoi_digits ds 0
  | '+' :: ds => atoi_digits ds 0
  | ds => atoi_digits ds 0

/-- `strtol(nptr, NULL, 10)` with a 64-bit `long`: the number the numeral denotes, `LONG_MIN`
or `LONG_MAX` when it lies outside the range of `long`. -/
def strtol (s : String) : Int :=
  if numeral s < -9223372036854775808 then -9223372036854775808
  else if 9223372036854775807 < numeral s then 9223372036854775807
  else numeral s

/-- The conversion of a `long` to `int`: the value modulo `2^32` in the range of `int`. -/
def long_to_int (v : Int) : Int := (v + 2147483648) % 4294967296 - 2147483648

/-- `atoi` of glibc, `(int) strtol(nptr, NULL, 10)`: the callers store the result in an
`int` (lines 194, 340, 457 and 470). -/
def atoi (s : String) : Int := long_to_int (strtol s)

/-- `strlen` applied to a buffer: the characters before the first NUL. -/
def strlen_cut (line : List Char) : List Char := line.takeWhile (fun c => c != '\x00')

/-- The split of the unread input at the first newline (kept with the line). -/
def split_line : List Char → List Char × List Char
  | [] => ([], [])
  | c :: cs =>
    if c = '\n' then ([c], cs)
    else ((c :: (split_line cs).1), (split_line cs).2)

/-- `getline`: `none` at end of file, else the next line and the rest of the file. -/
def getline (fd : List Char) : Option (List Char × List Char) :=
  match fd with
  | [] => none
  | _ :: _ => some (split_line fd)

/-- The conversion `%d` of `printf`. -/
def fmt_d (n : Int) : String := toString n


/-! ## The `double` arithmetic of the invoice -/

/-- A finite binary64 value `(-1)^neg * m * 2^e`.  The exponent range plays no part:
the values met here lie between `2^-5` and `2^27`. -/
structure double where
  neg : Bool
  m : Nat
  e : Int
  deriving DecidableEq, Repr

/-- Cost per page: the literal `0.05`, that is the binary64 value
`0x3FA999999999999A = 3602879701896397 * 2^-56`. -/
def page_price : double := ⟨false, 3602879701896397, -56⟩

/-- The integer nearest to `a / b`, ties to even. -/
def round_half_even (a b : Nat) : Nat :=
  if 2 * (a % b) < b then a / b
  else if b < 2 * (a % b) then a / b + 1
  else if (a / b) % 2 = 0 then a / b
  else a / b + 1

/-- Rounding of `m * 2^e` to 53 significant bits (round to nearest, ties to even). -/
def round53 (m : Nat) (e : Int) : Nat × Int :=
  if m.log2 + 1 ≤ 53 then (m, e)
  else (round_half_even m (2 ^ (m.log2 + 1 - 53)), e + ((m.log2 + 1 - 53 : Nat) : Int))

/-- The product `d * n` of a double and an `int` converted to double
(`page_price * job->page_count`). -/
def double_mul_int (d : double) (n : Int) : double :=
  ⟨d.neg != decide (n < 0), (round53 (d.m * n.natAbs) d.e).1, (round53 (d.m * n.natAbs) d.e).2⟩

/-- The hundredths printed by `%.2f`: the integer nearest to `100 * m * 2^e`, ties to even. -/
def hundredths (d : double) : Nat :=
  match d.e with
  | Int.ofNat k => 100 * d.m * 2 ^ k
  | Int.negSucc k => round_half_even (100 * d.m) (2 ^ (k + 1))

/-- Two decimal digits. -/
def fmt_02 (r : Nat) : String := if r < 10 then "0" ++ toString r else toString r

/-- The conversion `%.2f` of `printf`. -/
def fmt_2f (d : double) : String :=
  (if d.neg then "-" else "") ++ toString (hundredths d / 100) ++ "." ++ fmt_02 (hundredths d % 100)

/-! ## The job worker -/

/-- `print_char(prt_fd, c)`: the device receives `c`. -/
def print_char (fd : List Char) (c : Char) : List Char := fd ++ [c]

/-- `pthread_cancel(tid)` on a thread with asynchronous cancelability: the thread ends
where it is.  A mutex it holds stays locked.  The mutex that a thread cancelled inside
`pthread_cond_wait` takes again before it ends is left out: it bears on whether later
workers of the printer get their turn, not on what a step does when it is taken. -/
def pthread_cancel (t : thread_t) : thread_t := { t with pc := .EXITED }

/-- One step of `job_worker` for the job at address `j`, whose record is `job` and
whose printer record is `pr` (the case `printer != NULL`). -/
def job_worker_step (env : Env) (j : Nat) (job : job_t) (pr : printer_t) : job_t × printer_t :=
  match job.tid.pc with
  | .START => ({ job with tid := { job.tid with pc := .LOCK } }, pr)
  | .LOCK =>
    match pr.job_mutex with
    | none => ({ job with tid := { job.tid with pc := .TURN } }, { pr with job_mutex := some j })
    | some _ => (job, pr)
  | .TURN =>
    if pr.jobs.head? ≠ some j then
      if job.status = .CANCELED then ({ job with tid := { job.tid with pc := .OPEN } }, pr)
      else ({ job with tid := { job.tid with pc := .SLEEP } }, { pr with job_mutex := none })
    else ({ job with tid := { job.tid with pc := .OPEN } }, pr)
  | .SLEEP =>
    match pr.job_mutex with
    | none => ({ job with tid := { job.tid with pc := .TURN } }, { pr with job_mutex := some j })
    | some _ => (job, pr)
  | .OPEN =>
    match env.fopen job.filename with
    | none =>
      ({ job with
          status := .FILE_ERROR,
          tid := { pc := .UNLINK, aborted := true, line_count := 0, line := [] } }, pr)
    | some content =>
      ({ job with
          fd := content,
          tid := { pc := .CHECK, aborted := false, line_count := 0, line := [] } }, pr)
  | .CHECK =>
    if job.status = .CANCELED then
      ({ job with tid := { job.tid with pc := .UNLINK, aborted := true } }, pr)
    else ({ job with tid := { job.tid with pc := .SET } }, pr)
  | .SET =>
    ({ job with status := .IN_PROGRESS, page_count := 1, tid := { job.tid with pc := .GETLINE } }, pr)
  | .GETLINE =>
    if job.tid.aborted then ({ job with tid := { job.tid with pc := .UNLINK } }, pr)
    else
      match getline job.fd with
      | none => ({ job with tid := { job.tid with pc := .UNLINK } }, pr)
      | some (line, rest) =>
        ({ job with
            fd := rest,
            tid := { job.tid with
              pc := .CHAR, line_count := job.tid.line_count + 1, line := strlen_cut line } }, pr)
  | .CHAR =>
    match job.tid.line with
    | [] => ({ job with tid := { job.tid with pc := .GETLINE } }, pr)
    | c :: cs =>
      if !env.printer_exists pr.id then
        ({ job with
            status := .PRINTER_ERROR,
            tid := { job.tid with pc := .UNLINK, aborted := true } }, pr)
      else if job.tid.line_count > lines_per_page then
        ({ job with
            page_count := job.page_count + 1,
            tid := { job.tid with pc := .POLL, line_count := 1, line := cs } },
         { pr with fd := print_char (print_char pr.fd '\n') c })
      else
        ({ job with tid := { job.tid with pc := .POLL, line := cs } },
         { pr with fd := print_char pr.fd c })
  | .POLL =>
    if job.status = .CANCELED then
      ({ job with tid := { job.tid with pc := .UNLINK, aborted := true } }, pr)
    else ({ job with tid := { job.tid with pc := .CHAR } }, pr)
  | .UNLINK =>
    ({ job with tid := { job.tid with pc := .FINISH } },
     { pr with jobs := list_del j pr.jobs, job_mutex := none })
  | .FINISH =>
    if job.tid.aborted then ({ job with tid := { job.tid with pc := .EXITED } }, pr)
    else ({ job with status := .FINISHED, tid := { job.tid with pc := .EXITED } }, pr)
  | .EXITED => (job, pr)

/-- One step of the thread `job_worker(job)` in the whole state. -/
def job_worker (env : Env) (s : State) (j : Nat) : State :=
  match s.jobs[j]? with
  | none => s
  | some job =>
    if job.tid.pc = .EXITED then s
    else
      match job.printer with
      | none => { s with jobs := s.jobs.set j { job with tid := { job.tid with pc := .EXITED } } }
      | some p =>
        match s.printers[p]? with
        | none => s
        | some pr =>
          { s with
            jobs := s.jobs.set j (job_worker_step env j job pr).1,
            printers := s.printers.set p (job_worker_step env j job pr).2 }

/-- The thread `job_worker(job)` run on its own for `n` steps. -/
def run_worker (env : Env) : Nat → State → Nat → State
  | 0, s, _ => s
  | n + 1, s, j => run_worker env n (job_worker env s j) j

/-- A bound on the steps a worker past its turn loop needs to return. -/
def join_fuel (job : job_t) : Nat := 4 * (job.fd.length + job.tid.line.length) + 16

/-- `pthread_join(job->tid, _)`: the caller resumes once the worker has returned;
`none` when the worker cannot return on its own. -/
def pthread_join (env : Env) (s : State) (j : Nat) : Option State :=
  match s.jobs[j]? with
  | none => none
  | some job =>
    match (run_worker env (join_fuel job) s j).jobs[j]? with
    | none => none
    | some job' =>
      if job'.tid.pc = .EXITED then some (run_worker env (join_fuel job) s j) else none

/-! ## Commands -/

/-- `invalid_arg_count(req, argc, retval)`: the reply when the count is wrong. -/
def invalid_arg_count (req : Int) (argc : Int) : Option String :=
  if argc - 1 ≠ req then
    some ("  This command takes " ++ fmt_d req ++ " arguments. Instead received "
      ++ fmt_d (argc - 1) ++ ".\n")
  else none

/-- `init_printer(printer, printer_id)`. -/
def init_printer (printer_id : Int) : printer_t :=
  { id := printer_id, jobs := [], fd := [], job_mutex := none, status := .WAITING }

/-- The search of `printer_list` in `print_cmd_fct` (lines 202-209): the first record
with the id. -/
def find_printer (printer_id : Int) : List printer_t → Option Nat
  | [] => none
  | p :: ps =>
    if printer_id = p.id then some 0 else (find_printer printer_id ps).map (fun i => i + 1)

/-- Lines 193-227 of `print_cmd_fct`: the registry after the command, the printer of
the job and the status of the job. -/
def resolve_printer (env : Env) (printers : List printer_t) (printer_id : Int) :
    List printer_t × Option Nat × status_e :=
  if printer_id = 0 || !env.printer_exists printer_id then (printers, none, .PRINTER_ERROR)
  else
    match find_printer printer_id printers with
    | some p => (printers, some p, .WAITING)
    | none => (printers ++ [init_printer printer_id], some printers.length, .WAITING)

/-- The command `print printer_id filename`.  The file name is stored as given: line 234
allocates `strlen(args[2])` bytes and `strcpy` writes the terminator one byte past them. -/
def print_cmd_fct (env : Env) (s : State) (c : Nat) (args : List String) :
    Option (State × String) :=
  match invalid_arg_count 2 args.length with
  | some msg => some (s, msg)
  | none =>
    match s.clients[c]? with
    | none => none
    | some client =>
      let r := resolve_printer env s.printers (atoi (args.getD 1 ""))
      let j := s.jobs.length
      let job : job_t :=
        { printer := r.2.1, client := c, filename := args.getD 2 "", fd := [], page_count := 0,
          tid := { pc := .EXITED, aborted := false, line_count := 0, line := [] },
          id := client.job_counter + 1, status := r.2.2 }
      let clients1 := s.clients.set c
        { client with job_counter := client.job_counter + 1, jobs := list_add_tail j client.jobs }
      let printers1 :=
        match r.2.1 with
        | none => r.1
        | some p => r.1.modify (fun pr => { pr with jobs := list_add_tail j pr.jobs }) p
      if env.pthread_create ≠ 0 then
        some ({ s with
                jobs := s.jobs ++ [job],
                clients := clients1.modify (fun cl => { cl with jobs := list_del j cl.jobs }) c,
                printers :=
                  match r.2.1 with
                  | none => printers1
                  | some p => printers1.modify (fun pr => { pr with jobs := list_del j pr.jobs }) p },
              "  Failed to create job worker thread: " ++ env.strerror env.pthread_create ++ "\n")
      else
        some ({ s with
                jobs := s.jobs ++ [{ job with tid := { job.tid with pc := .START } }],
                clients := clients1,
                printers := printers1 },
              "  Created job no. " ++ fmt_d job.id ++ "\n")

/-- The text of a status: `get_status`. -/
def get_status : status_e → String
  | .WAITING => "waiting"
  | .IN_PROGRESS => "printing"
  | .CANCELED => "cancelled"
  | .FINISHED => "finished"
  | .PRINTER_ERROR => "printer error"
  | .FILE_ERROR => "file error"

/-- The search of the client's index for a job id (the loop shared by `status_cmd_fct`,
`invoice_cmd_fct` and `cancel_job`): the first job with the id. -/
def find_job (s : State) (index : List Nat) (job_id : Int) : Option Nat :=
  index.find? (fun j =>
    match s.jobs[j]? with
    | some job => job.id == job_id
    | none => false)

/-- The command `status job_id`. -/
def status_cmd_fct (s : State) (c : Nat) (args : List String) : Option (State × String) :=
  match invalid_arg_count 1 args.length with
  | some msg => some (s, msg)
  | none =>
    match s.clients[c]? with
    | none => none
    | some client =>
      match find_job s client.jobs (atoi (args.getD 1 "")) with
      | none => some (s, "  Job " ++ args.getD 1 "" ++ " could not be found. \n")
      | some j =>
        match s.jobs[j]? with
        | none => none
        | some job =>
          some (s, "  Job " ++ fmt_d (atoi (args.getD 1 "")) ++ " has status '"
            ++ get_status job.status ++ "'.\n")

/-- Lines 374-378 of `invoice_cmd_fct`: the total of a job. -/
def invoice_total (job : job_t) : double :=
  if job.status ≠ .FILE_ERROR ∧ job.status ≠ .PRINTER_ERROR then
    double_mul_int page_price job.page_count
  else ⟨false, 0, 0⟩

/-- Lines 379-385 of `invoice_cmd_fct`: the reply for a job; `none` when `job->printer`
is dereferenced and is NULL. -/
def invoice_reply (s : State) (job : job_t) : Option String :=
  if job.status = .PRINTER_ERROR then
    some ("  Job " ++ fmt_d job.id ++ ": status '" ++ get_status job.status ++ "', printed "
      ++ fmt_d job.page_count ++ " pages. " ++ fmt_2f (invoice_total job) ++ " total.\n")
  else
    match job.printer with
    | none => none
    | some p =>
      match s.printers[p]? with
      | none => none
      | some pr =>
        some ("  Job " ++ fmt_d job.id ++ ", printer " ++ fmt_d pr.id ++ ": status '"
          ++ get_status job.status ++ "', printed " ++ fmt_d job.page_count ++ " pages. "
          ++ fmt_2f (invoice_total job) ++ " total.\n")

/-- Lines 356-371 of `invoice_cmd_fct` when no other thread runs between the unlock of
line 359 or 369 and the call that follows: cancel the thread and unlink the job from the
printer queue when the status is WAITING or CANCELED, else join the thread.
`invoice_interleaved` has the status test and the call apart. -/
def invoice_settle (env : Env) (s : State) (j : Nat) (job : job_t) : Option State :=
  if job.status = .WAITING ∨ job.status = .CANCELED then
    match job.printer with
    | none => none
    | some p =>
      match s.printers[p]? with
      | none => none
      | some pr =>
        some { s with
          jobs := s.jobs.set j { job with tid := pthread_cancel job.tid },
          printers := s.printers.set p { pr with jobs := list_del j pr.jobs } }
  else pthread_join env s j

/-- The command `invoice job_id`. -/
def invoice_cmd_fct (env : Env) (s : State) (c : Nat) (args : List String) :
    Option (State × String) :=
  match invalid_arg_count 1 args.length with
  | some msg => some (s, msg)
  | none =>
    match s.clients[c]? with
    | none => none
    | some client =>
      match find_job s client.jobs (atoi (args.getD 1 "")) with
      | none => some (s, "  Job " ++ args.getD 1 "" ++ " could not be found. \n")
      | some j =>
        match s.jobs[j]? with
        | none => none
        | some job =>
          match invoice_settle env s j job with
          | none => none
          | some s1 =>
            match s1.jobs[j]? with
            | none => none
            | some job1 =>
              match invoice_reply s1 job1 with
              | none => none
              | some reply =>
                some ({ s1 with
                        clients := s1.clients.modify
                          (fun cl => { cl with jobs := list_del j cl.jobs }) c },
                      reply)

/-- Lines 361-366 of `invoice_cmd_fct`: `pthread_cancel(job->tid)` and the unlink of the
job from the queue of its printer. -/
def invoice_kill (s : State) (j : Nat) : Option State :=
  match s.jobs[j]? with
  | none => none
  | some job =>
    match job.printer with
    | none => none
    | some p =>
      match s.printers[p]? with
      | none => none
      | some pr =>
        some { s with
          jobs := s.jobs.set j { job with tid := pthread_cancel job.tid },
          printers := s.printers.set p { pr with jobs := list_del j pr.jobs } }

/-- The command `invoice job_id` with its sections apart: the status is read under the
read lock of lines 356-357, the lock is released (line 359 or 369), the other threads take
the steps `between`, and the command goes on with lines 361-366 or with line 370,
whichever the status it has read selects. -/
def invoice_interleaved (env : Env) (between : State → State) (s : State) (c : Nat)
    (args : List String) : Option (State × String) :=
  match invalid_arg_count 1 args.length with
  | some msg => some (s, msg)
  | none =>
    match s.clients[c]? with
    | none => none
    | some client =>
      match find_job s client.jobs (atoi (args.getD 1 "")) with
      | none => some (s, "  Job " ++ args.getD 1 "" ++ " could not be found. \n")
      | some j =>
        match s.jobs[j]? with
        | none => none
        | some job =>
          match (if job.status = .WAITING ∨ job.status = .CANCELED then invoice_kill (between s) j
                 else pthread_join env (between s) j) with
          | none => none
          | some s1 =>
            match s1.jobs[j]? with
            | none => none
            | some job1 =>
              match invoice_reply s1 job1 with
              | none => none
              | some reply =>
                some ({ s1 with
                        clients := s1.clients.modify
                          (fun cl => { cl with jobs := list_del j cl.jobs }) c },
                      reply)

/-- The function `cancel_job(job_id, client, retval)`; `none` when `job->printer` is
dereferenced and is NULL. -/
def cancel_job (s : State) (job_id : Int) (c : Nat) : Option (State × String) :=
  match s.clients[c]? with
  | none => none
  | some client =>
    match find_job s client.jobs job_id with
    | none => some (s, "  Job " ++ fmt_d job_id ++ " could not be found. \n")
    | some j =>
      match s.jobs[j]? with
      | none => none
      | some job =>
        if job.status = .IN_PROGRESS then
          some ({ s with jobs := s.jobs.set j { job with status := .CANCELED } },
                "  Job " ++ fmt_d job.id ++ " was cancelled.\n")
        else if job.status = .WAITING ∨ job.status = .CANCELED then
          match job.printer with
          | none => none
          | some p =>
            match s.printers[p]? with
            | none => none
            | some pr =>
              some ({ s with
                      jobs := s.jobs.set j
                        { job with status := .CANCELED, tid := pthread_cancel job.tid },
                      printers := s.printers.set p { pr with jobs := list_del j pr.jobs } },
                    "  Job " ++ fmt_d job.id ++ " was cancelled.\n")
        else
          some (s, "  Job " ++ fmt_d job.id ++ " has already finished or is in error state.\n")

/-- The command `cancel job_id`. -/
def cancel_cmd_fct (s : State) (c : Nat) (args : List String) : Option (State × String) :=
  match invalid_arg_count 1 args.length with
  | some msg => some (s, msg)
  | none => cancel_job s (atoi (args.getD 1 "")) c

/-- The line of `jobs_cmd_fct` for one job, when its printer has the id (lines 485-491). -/
def jobs_line (s : State) (printer_id : Int) (j : Nat) : Option String :=
  match s.jobs[j]? with
  | none => none
  | some job =>
    match job.printer with
    | none => none
    | some p =>
      match s.printers[p]?, s.clients[job.client]? with
      | some pr, some cl =>
        if pr.id = printer_id then
          some ("  Client " ++ fmt_d cl.id ++ ", job " ++ fmt_d job.id ++ ", file '"
            ++ job.filename ++ "', status '" ++ get_status job.status ++ "'\n")
        else none
      | _, _ => none

/-- The lines `jobs_cmd_fct` collects: all clients of `client_list`, all their jobs. -/
def jobs_lines (s : State) (printer_id : Int) : List String :=
  (s.client_list.flatMap (fun c =>
    match s.clients[c]? with
    | none => []
    | some cl => cl.jobs)).filterMap (jobs_line s printer_id)

/-- The command `jobs printer_id`.  Each line is written with `sprintf` to the buffer
`extension` of 126 bytes (lines 473 and 487): `none` when a line with its terminator
does not fit, so that the write runs past the buffer. -/
def jobs_cmd_fct (s : State) (args : List String) : Option (State × String) :=
  match invalid_arg_count 1 args.length with
  | some msg => some (s, msg)
  | none =>
    if (jobs_lines s (atoi (args.getD 1 ""))).any (fun l => decide (126 < l.length + 1)) then none
    else if (jobs_lines s (atoi (args.getD 1 ""))).length = 0 then
      some (s, "  Currently there are no jobs for printer " ++ args.getD 1 "" ++ ".\n")
    else some (s, String.join (jobs_lines s (atoi (args.getD 1 ""))))

/-- The loop of `quit_cmd_fct` (lines 527-563); the first argument bounds the number of
passes, each of which unlinks the first job of the index. -/
def quit_loop (env : Env) : Nat → State → Nat → String → Option (State × String)
  | 0, s, c, text =>
    match s.clients[c]? with
    | none => none
    | some client => if list_empty client.jobs then some (s, text) else none
  | n + 1, s, c, text =>
    match s.clients[c]? with
    | none => none
    | some client =>
      match client.jobs with
      | [] => some (s, text)
      | j :: _ =>
        match s.jobs[j]? with
        | none => none
        | some job =>
          match cancel_job s job.id c with
          | none => none
          | some (s1, extension) =>
            match s1.jobs[j]? with
            | none => none
            | some job1 =>
              match (if job1.status ≠ .WAITING ∧ job1.status ≠ .CANCELED then pthread_join env s1 j
                     else some s1) with
              | none => none
              | some s2 =>
                quit_loop env n
                  { s2 with
                    clients := s2.clients.modify
                      (fun cl => { cl with jobs := list_del j cl.jobs }) c }
                  c (text ++ extension)

/-- The command `quit`. -/
def quit_cmd_fct (env : Env) (s : State) (c : Nat) (args : List String) :
    Option (State × String) :=
  match invalid_arg_count 0 args.length with
  | some msg => some (s, msg)
  | none =>
    match s.clients[c]? with
    | none => none
    | some client =>
      match quit_loop env client.jobs.length s c "" with
      | none => none
      | some (s1, text) =>
        some ({ s1 with clients := s1.clients.modify (fun cl => { cl with quit := 1 }) c }, text)

/-! ## Threads of the server -/

/-- `init_client(client, con)` with `client_count` already incremented. -/
def init_client (client_count : Int) : client_t :=
  { jobs := [], job_counter := 0, id := client_count, quit := 0 }

/-- One pass of the loop of `main`: a connection is accepted, the client record is
initialised and linked at the tail of `client_list`. -/
def accept_client (s : State) : State :=
  { s with
    clients := s.clients ++ [init_client (s.client_count + 1)],
    client_list := list_add_tail s.clients.length s.client_list,
    client_count := s.client_count + 1 }

/-- The end of `client_worker` (lines 860-864): the client leaves `client_list`. -/
def client_exit (s : State) (c : Nat) : State :=
  { s with client_list := list_del c s.client_list }

/-- The command lookup of `client_worker` (lines 833-844) on the tokenised line. -/
def dispatch (env : Env) (s : State) (c : Nat) (args : List String) : Option (State × String) :=
  match args with
  | [] => none
  | verb :: _ =>
    if verb = "print" then print_cmd_fct env s c args
    else if verb = "status" then status_cmd_fct s c args
    else if verb = "invoice" then invoice_cmd_fct env s c args
    else if verb = "cancel" then cancel_cmd_fct s c args
    else if verb = "jobs" then jobs_cmd_fct s args
    else if verb = "quit" then quit_cmd_fct env s c args
    else some (s, "  '" ++ verb ++ "' is not a valid command.\n")

/-- The state after `main` has initialised the lists. -/
def init : State :=
  { jobs := [], printers := [], clients := [], client_list := [], client_count := 0 }

/-- The atomic steps of the threads of the server. -/
inductive Label where
  /-- The dispatcher accepts a connection. -/
  | accept
  /-- The handler of client `c` executes one command line. -/
  | command (env : Env) (c : Nat) (args : List String)
  /-- The handler of client `c` leaves its loop. -/
  | leave (c : Nat)
  /-- The worker of job `j` takes one step. -/
  | worker (env : Env) (j : Nat)

/-- The effect of one step; `none` when the step cannot be taken. -/
def step (s : State) : Label → Option State
  | .accept => some (accept_client s)
  | .command env c args =>
    if c ∈ s.client_list then
      match s.clients[c]? with
      | none => none
      | some client =>
        if client.quit = 0 then (dispatch env s c args).map (fun r => r.1) else none
    else none
  | .leave c => if c ∈ s.client_list then some (client_exit s c) else none
  | .worker env j => some (job_worker env s j)

/-- A run of the server: the steps of the list taken in order. -/
def run : State → List Label → Option State
  | s, [] => some s
  | s, l :: ls =>
    match step s l with
    | none => none
    | some s1 => run s1 ls

/-- The states the server can be in. -/
def Reachable (s : State) : Prop := ∃ ls, run init ls = some s

/-! ## The spec's reading of the invoice total -/

/-- The text of an amount of `h` hundredths, written with two decimals. -/
def cents_text (h : Int) : String :=
  (if h < 0 then "-" else "") ++ toString (h.natAbs / 100) ++ "." ++ fmt_02 (h.natAbs % 100)

/-! ## Concrete worlds and runs -/

/-- A world in which device 7 exists, the file `a` holds one line and the file `empty`
holds nothing. -/
def env_up : Env :=
  { printer_exists := fun n => n == 7,
    fopen := fun f => if f = "a" then some ['x', '\n'] else if f = "empty" then some [] else none,
    pthread_create := 0,
    strerror := fun _ => "Resource temporarily unavailable" }

/-- The world of `env_up` after device 7 has gone. -/
def env_down : Env := { env_up with printer_exists := fun _ => false }

/-- A client prints file `a` on device 7; the device goes away before the first character. -/
def lost_run : List Label :=
  [.accept, .command env_up 0 ["print", "7", "a"],
   .worker env_up 0, .worker env_up 0, .worker env_up 0, .worker env_up 0, .worker env_up 0,
   .worker env_up 0, .worker env_up 0, .worker env_down 0]

/-! ## Invariants of the reachable states -/

/-- Program points at which the worker has not yet set the status to IN_PROGRESS. -/
def pc_t.early : pc_t → Bool
  | .START | .LOCK | .TURN | .SLEEP | .OPEN | .CHECK | .SET => true
  | _ => false

/-- Program points between the turn loop and the start of printing. -/
def pc_t.entering : pc_t → Bool
  | .OPEN | .CHECK | .SET => true
  | _ => false

/-- What holds in every reachable state. -/
structure Inv (s : State) : Prop where
  /-- The printer of a job is a record of the registry. -/
  printer_valid : ∀ (j : Nat) (job : job_t) (p : Nat), s.jobs[j]? = some job → job.printer = some p →
    p < s.printers.length
  /-- Only a job in PRINTER_ERROR lacks a printer. -/
  no_printer : ∀ (j : Nat) (job : job_t), s.jobs[j]? = some job → job.printer = none →
    job.status = .PRINTER_ERROR
  /-- Every entry of a printer queue is a job of that printer. -/
  queue_job : ∀ (p : Nat) (pr : printer_t) (j : Nat), s.printers[p]? = some pr → j ∈ pr.jobs →
    ∃ job, s.jobs[j]? = some job ∧ job.printer = some p
  /-- Every printer queue is in the order of the job addresses. -/
  queue_sorted : ∀ (p : Nat) (pr : printer_t), s.printers[p]? = some pr → pr.jobs.Pairwise (fun a b => a < b)
  /-- Every entry of a client index is a job record. -/
  index_valid : ∀ (c : Nat) (cl : client_t) (j : Nat), s.clients[c]? = some cl → j ∈ cl.jobs → j < s.jobs.length
  /-- Every entry of the client registry is a client record. -/
  registry_valid : ∀ (c : Nat), c ∈ s.client_list → c < s.clients.length
  /-- Before the worker starts printing, the status is WAITING or CANCELED. -/
  early : ∀ (j : Nat) (job : job_t), s.jobs[j]? = some job → job.printer ≠ none → job.tid.pc.early = true →
    job.status = .WAITING ∨ job.status = .CANCELED
  /-- The worker is about to set IN_PROGRESS only while the status is WAITING. -/
  set_waiting : ∀ (j : Nat) (job : job_t), s.jobs[j]? = some job → job.printer ≠ none → job.tid.pc = .SET →
    job.status = .WAITING
  /-- A worker that left the turn loop without being cancelled is first in the queue. -/
  turn : ∀ (j : Nat) (job : job_t) (p : Nat) (pr : printer_t), s.jobs[j]? = some job → job.printer = some p →
    s.printers[p]? = some pr → job.tid.pc.entering = true → job.status ≠ .CANCELED →
    pr.jobs.head? = some j

/-- The effects of the commands `cancel`, `invoice` and `quit`, one lock-delimited
section at a time. -/
inductive Prim : State → State → Prop
  /-- One step of a worker that a command waits for in `pthread_join`. -/
  | join_step (env : Env) (s : State) (j : Nat) (job : job_t) :
    s.jobs[j]? = some job → job.status ≠ .WAITING → job.status ≠ .CANCELED →
    Prim s (job_worker env s j)
  /-- Lines 423-426 of `cancel_job`. -/
  | cancel_running (s : State) (j : Nat) (job : job_t) :
    s.jobs[j]? = some job → job.status = .IN_PROGRESS →
    Prim s { s with jobs := s.jobs.set j { job with status := .CANCELED } }
  /-- Lines 427-436 of `cancel_job`. -/
  | cancel_waiting (s : State) (j : Nat) (job : job_t) (p : Nat) (pr : printer_t) :
    s.jobs[j]? = some job → (job.status = .WAITING ∨ job.status = .CANCELED) →
    job.printer = some p → s.printers[p]? = some pr →
    Prim s { s with
      jobs := s.jobs.set j { job with status := .CANCELED, tid := pthread_cancel job.tid },
      printers := s.printers.set p { pr with jobs := list_del j pr.jobs } }
  /-- Lines 357-366 of `invoice_cmd_fct`. -/
  | settle (s : State) (j : Nat) (job : job_t) (p : Nat) (pr : printer_t) :
    s.jobs[j]? = some job → (job.status = .WAITING ∨ job.status = .CANCELED) →
    job.printer = some p → s.printers[p]? = some pr →
    Prim s { s with
      jobs := s.jobs.set j { job with tid := pthread_cancel job.tid },
      printers := s.printers.set p { pr with jobs := list_del j pr.jobs } }
  /-- Lines 388-390 of `invoice_cmd_fct` and line 558 of `quit_cmd_fct`. -/
  | unlink (s : State) (c : Nat) (j : Nat) :
    Prim s { s with
      clients := s.clients.modify (fun cl => { cl with jobs := list_del j cl.jobs }) c }
  /-- Line 573 of `quit_cmd_fct`. -/
  | quit_flag (s : State) (c : Nat) :
    Prim s { s with clients := s.clients.modify (fun cl => { cl with quit := 1 }) c }

/-- What a step keeps of the state before it: the job records stay where they are with
their printer, client and id, the printer records stay with their id, and a queue gains
no entry other than a new job. -/
structure Evolves (s s' : State) : Prop where
  jobs_kept : ∀ (j : Nat) (job : job_t), s.jobs[j]? = some job →
    ∃ job', s'.jobs[j]? = some job' ∧ job'.printer = job.printer ∧ job'.id = job.id ∧
      job'.client = job.client
  printers_kept : ∀ (p : Nat) (pr : printer_t), s.printers[p]? = some pr →
    ∃ pr', s'.printers[p]? = some pr' ∧ pr'.id = pr.id
  queue_from : ∀ (p : Nat) (pr' : printer_t) (x : Nat), s'.printers[p]? = some pr' → x ∈ pr'.jobs →
    s.jobs.length ≤ x ∨ ∃ pr, s.printers[p]? = some pr ∧ x ∈ pr.jobs

/-- A step after which no job is newly IN_PROGRESS. -/
def Quiet (s s' : State) : Prop :=
  ∀ (j : Nat) (job' : job_t), s'.jobs[j]? = some job' → job'.status = .IN_PROGRESS →
    ∃ job, s.jobs[j]? = some job ∧ job.status = .IN_PROGRESS

/-- What `print_cmd_fct` does to a list the new job is linked into: the insertion at
the tail, undone again by `list_del` when the worker thread could not be created. -/
def print_link (j : Nat) (created : Bool) (l : List Nat) : List Nat :=
  if created then list_add_tail j l else list_del j (list_add_tail j l)

/-- The job record `print_cmd_fct` allocates. -/
def print_job (env : Env) (s : State) (c : Nat) (client : client_t) (args : List String) : job_t :=
  { printer := (resolve_printer env s.printers (atoi (args.getD 1 ""))).2.1,
    client := c, filename := args.getD 2 "", fd := [], page_count := 0,
    tid := { pc := if env.pthread_create = 0 then .START else .EXITED,
             aborted := false, line_count := 0, line := [] },
    id := client.job_counter + 1,
    status := (resolve_printer env s.printers (atoi (args.getD 1 ""))).2.2 }

/-! ## The worker on its own -/

/-- The worker of job `j` run for `n` steps on its job record and its printer record. -/
def worker_steps (env : Env) (j : Nat) : Nat → job_t × printer_t → job_t × printer_t
  | 0, x => x
  | n + 1, x => worker_steps env j n (job_worker_step env j x.1 x.2)

/-- A bound on the number of steps a worker past the turn loop still takes. -/
def worker_measure (job : job_t) : Nat :=
  match job.tid.pc with
  | .EXITED => 0
  | .FINISH => 1
  | .UNLINK => 2
  | .GETLINE => 4 * job.fd.length + 3
  | .CHAR => 2 * job.tid.line.length + 1 + (4 * job.fd.length + 3)
  | .POLL => 2 * job.tid.line.length + 2 + (4 * job.fd.length + 3)
  | _ => 0

/-- A client prints file `a` on device 7 and the worker reaches IN_PROGRESS. -/
def printing_run : List Label :=
  [.accept, .command env_up 0 ["print", "7", "a"],
   .worker env_up 0, .worker env_up 0, .worker env_up 0, .worker env_up 0, .worker env_up 0,
   .worker env_up 0]

/-- The run `printing_run` followed by the command `cancel 1`. -/
def cancelled_run : List Label := printing_run ++ [.command env_up 0 ["cancel", "1"]]

/-- The run `printing_run` continued until the worker has returned. -/
def finished_run : List Label :=
  printing_run ++
    [.worker env_up 0, .worker env_up 0, .worker env_up 0, .worker env_up 0, .worker env_up 0,
     .worker env_up 0, .worker env_up 0, .worker env_up 0, .worker env_up 0]

/-- The state at the end of a run, `init` when the run cannot be taken. -/
def state_after (ls : List Label) : State := (run init ls).getD init

/-- The world of `env_up` when no further thread can be created (`EAGAIN`). -/
def env_no_thread : Env := { env_up with pthread_create := 11 }

/-! ## Counting the commands of a run -/

/-- Whether a step is a `print` command of client `c` that passes the argument-count
check. -/
def is_print_by (c : Nat) : Label → Bool
  | .command _ c' args => c' == c && args.head? == some "print" && args.length == 3
  | _ => false

/-- The number of `print` commands of client `c` in a run that pass the argument-count
check. -/
def prints_by (c : Nat) (ls : List Label) : Nat := (ls.filter (is_print_by c)).length

/-- The job counters after a run: the counter of a client is the number of its `print`
commands that passed the argument-count check, and a client that does not exist yet has
issued none. -/
structure Counted (ls : List Label) (s : State) : Prop where
  counter_eq : ∀ (c : Nat) (cl : client_t), s.clients[c]? = some cl →
    cl.job_counter = prints_by c ls
  none_yet : ∀ (c : Nat), s.clients.length ≤ c → prints_by c ls = 0

/-- A step that allocates no job and leaves the job counter of every client as it is. -/
structure Steady (s s' : State) : Prop where
  jobs_length : s'.jobs.length = s.jobs.length
  clients_length : s'.clients.length = s.clients.length
  counter_kept : ∀ (c : Nat) (cl : client_t), s.clients[c]? = some cl →
    ∃ cl', s'.clients[c]? = some cl' ∧ cl'.job_counter = cl.job_counter

/-- The job ids of a state: every job has an id between 1 and the job counter of its
client, and the ids of the jobs of one client grow with the addresses of the records,
that is in the order of creation. -/
structure IdInv (s : State) : Prop where
  id_bounds : ∀ (j : Nat) (job : job_t), s.jobs[j]? = some job →
    1 ≤ job.id ∧ ∃ cl, s.clients[job.client]? = some cl ∧ job.id ≤ cl.job_counter
  id_order : ∀ (a b : Nat) (joba jobb : job_t), s.jobs[a]? = some joba →
    s.jobs[b]? = some jobb → joba.client = jobb.client → a < b → joba.id < jobb.id

/-! ## Pagination -/

/-- The state after the first `i` steps of a run. -/
def state_at (ls : List Label) (i : Nat) : Option State := run init (ls.take i)

/-- Whether the status of job `j` is IN_PROGRESS. -/
def in_progress (s : State) (j : Nat) : Bool :=
  match s.jobs[j]? with
  | some job => decide (job.status = .IN_PROGRESS)
  | none => false

/-- Whether job `j` is linked in the queue of printer `p`. -/
def queued (s : State) (p j : Nat) : Bool :=
  match s.printers[p]? with
  | some pr => decide (j ∈ pr.jobs)
  | none => false

/-- Step `i` of the run sets the status of job `j` to IN_PROGRESS. -/
def enters_at (ls : List Label) (i j : Nat) : Bool :=
  match state_at ls i, state_at ls (i + 1) with
  | some s, some s' => decide (i < ls.length) && !in_progress s j && in_progress s' j
  | _, _ => false

/-- Step `i` of the run links job `j` into the queue of printer `p`. -/
def enqueued_at (ls : List Label) (i p j : Nat) : Bool :=
  match state_at ls i, state_at ls (i + 1) with
  | some s, some s' => decide (i < ls.length) && !queued s p j && queued s' p j
  | _, _ => false

/-- A client prints the empty file twice on device 7; the first worker runs until it has
returned, then the second worker runs until it has set IN_PROGRESS. -/
def fifo_run : List Label :=
  [.accept, .command env_up 0 ["print", "7", "empty"], .command env_up 0 ["print", "7", "empty"]]
    ++ List.replicate 9 (.worker env_up 0) ++ List.replicate 6 (.worker env_up 1)

/-- A client prints the empty file on device 7, the worker sets IN_PROGRESS, and the
client issues `cancel 1`. -/
def race_run : List Label :=
  [.accept, .command env_up 0 ["print", "7", "empty"]] ++ List.replicate 6 (.worker env_up 0)
    ++ [.command env_up 0 ["cancel", "1"]]

/-! ## The argument-count check -/

/-- The number of arguments each command requires after the verb. -/
def required_args (verb : String) : Option Int :=
  if verb = "print" then some 2
  else if verb = "status" ∨ verb = "invoice" ∨ verb = "cancel" ∨ verb = "jobs" then some 1
  else if verb = "quit" then some 0
  else none

/-- The reply to a command line with the wrong number of arguments. -/
def arg_count_reply (req : Int) (n : Int) : String :=
  "  This command takes " ++ fmt_d req ++ " arguments. Instead received " ++ fmt_d n ++ ".\n"

/-! ## dbllinklist.c on the cells of the heap -/

namespace dbllinklist

/-- The `list_head_t` cells of the heap: the fields `next` and `prev` of the cell at each
address.  Address 0 is the NULL pointer. -/
structure Memory where
  next : Nat → Nat
  prev : Nat → Nat

/-- The assignment `a->next = v`. -/
def set_next (m : Memory) (a v : Nat) : Memory :=
  { m with next := fun x => if x = a then v else m.next x }

/-- The assignment `a->prev = v`. -/
def set_prev (m : Memory) (a v : Nat) : Memory :=
  { m with prev := fun x => if x = a then v else m.prev x }

/-- `list_empty(list)`: 1 for empty, 0 for not empty. -/
def list_empty (m : Memory) (list : Nat) : Int :=
  if list ≠ 0 then (if m.next list = list ∧ m.prev list = list then 1 else 0) else 0

/-- `list_init(head)`. -/
def list_init (m : Memory) (head : Nat) : Memory :=
  if head ≠ 0 then set_prev (set_next m head head) head head else m

/-- `list_add_tail(new, head)`: insert new entry before the specified head. -/
def list_add_tail (m : Memory) (new head : Nat) : Memory :=
  if new ≠ 0 ∧ head ≠ 0 then
    let m1 := set_next m new head
    let m2 := set_prev m1 new (m1.prev head)
    let m3 := set_next m2 (m2.prev head) new
    set_prev m3 head new
  else m

/-- `list_del(entry)`: the memory after the call (the function returns `entry`). -/
def list_del (m : Memory) (entry : Nat) : Memory :=
  let m1 := set_prev m (m.next entry) (m.prev entry)
  let m2 := set_next m1 (m1.prev entry) (m1.next entry)
  let m3 := set_next m2 entry entry
  set_prev m3 entry entry

/-- The cells from `p` to `q` are linked through exactly the entries `s`, in both
directions. -/
def links (m : Memory) : Nat → List Nat → Nat → Bool
  | p, [], q => m.next p == q && m.prev q == p
  | p, x :: xs, q => m.next p == x && m.prev x == p && links m x xs q

/-- A well-formed circular list with anchor `h` holding the entries `s` in order from
`h.next`: no cell is NULL, no cell occurs twice, and the links close the circle. -/
def is_list (m : Memory) (h : Nat) (s : List Nat) : Bool :=
  decide (0 ∉ h :: s) && decide (h :: s).Nodup && links m h s h

/-- The traversal `for (ptr = head->next; ptr != head; ptr = ptr->next)` of
print_server.c, started at `ptr`; the first argument bounds the number of entries. -/
def list_entries (m : Memory) (head : Nat) : Nat → Nat → List Nat
  | 0, _ => []
  | n + 1, ptr => if ptr = head then [] else ptr :: list_entries m head n (m.next ptr)

/-- The calls that change a queue. -/
inductive list_op where
  | add_tail (e : Nat)
  | del (x : Nat)
  deriving DecidableEq, Repr

/-- The memory after a sequence of calls on the list with anchor `h`. -/
def replay (h : Nat) : Memory → List list_op → Memory
  | m, [] => m
  | m, .add_tail e :: ops => replay h (list_add_tail m e h) ops
  | m, .del x :: ops => replay h (list_del m x) ops

/-- The last cell of the chain that starts at `a` and goes through `xs`. -/
def last_of : Nat → List Nat → Nat
  | a, [] => a
  | _, x :: xs => last_of x xs

/-- The cells of the chain that starts at `a` and goes through `xs`, without the last. -/
def front : Nat → List Nat → List Nat
  | _, [] => []
  | a, x :: xs => a :: front x xs

end dbllinklist

/-- The queue after a sequence of calls, on the list of entries. -/
def queue_replay : List Nat → List dbllinklist.list_op → List Nat
  | q, [] => q
  | q, .add_tail e :: ops => queue_replay (list_add_tail e q) ops
  | q, .del x :: ops => queue_replay (list_del x q) ops

/-- The entries a sequence of calls inserts, in the order of the calls. -/
def inserted : List dbllinklist.list_op → List Nat
  | [] => []
  | .add_tail e :: ops => e :: inserted ops
  | .del _ :: ops => inserted ops

/-- A sequence of calls in which `list_add_tail` is given a detached entry (not NULL, not
the anchor `h`, not in the queue) and `list_del` a member of the queue. -/
def valid_ops (h : Nat) : List Nat → List dbllinklist.list_op → Bool
  | _, [] => true
  | q, .add_tail e :: ops =>
    decide (e ≠ 0) && decide (e ≠ h) && decide (e ∉ q) && valid_ops h (list_add_tail e q) ops
  | q, .del x :: ops => decide (x ∈ q) && valid_ops h (list_del x q) ops

/-- A memory in which every cell is linked to itself, as after `list_init`. -/
def detached_cells : dbllinklist.Memory := { next := fun x => x, prev := fun x => x }

/-! ## The characters handed to the device -/

/-- Lines 216-226 of `print_cmd_fct`, the section under the write lock of `printer_list`:
when the search of lines 199-214 (`find_printer`, under the read lock) has found no
record, a record is allocated, initialised and linked at the tail.  The result is the
registry and the printer of the job. -/
def register_printer (printers : List printer_t) (printer_id : Int) (found : Option Nat) :
    List printer_t × Nat :=
  match found with
  | some p => (printers, p)
  | none => (printers ++ [init_printer printer_id], printers.length)

/-- Two client threads execute `print` for the same device id at the same time: both
search the registry under the read lock (lines 201-214) before either of them takes the
write lock (lines 221-223).  The result is the registry and the printers of the two
jobs. -/
def registry_race (printers : List printer_t) (printer_id : Int) :
    List printer_t × Nat × Nat :=
  let found_a := find_printer printer_id printers
  let found_b := find_printer printer_id printers
  let a := register_printer printers printer_id found_a
  let b := register_printer a.1 printer_id found_b
  (b.1, a.2, b.2)

/-- The device ids of the records of the registry. -/
def registry_ids (s : State) : List Int := s.printers.map (fun pr => pr.id)

/-! ## Invariants of the job records -/

/-- Program points of the loop of lines 679-714. -/
def pc_t.printing : pc_t → Bool
  | .GETLINE | .CHAR | .POLL => true
  | _ => false

/-- What holds of every job record in every reachable state. -/
structure JobInv (job : job_t) : Prop where
  /-- The page count is not negative. -/
  pages_nonneg : 0 ≤ job.page_count
  /-- Before the worker has set IN_PROGRESS the page count is 0. -/
  early_pages : job.tid.pc.early = true → job.page_count = 0
  /-- Inside the printing loop the page count is at least 1. -/
  printing_pages : job.tid.pc.printing = true → 1 ≤ job.page_count
  /-- A job in FILE_ERROR has page count 0 and its worker has left `fopen` for the end. -/
  file_error : job.status = .FILE_ERROR →
    job.page_count = 0 ∧ job.tid.pc.early = false ∧ job.tid.pc.printing = false
  /-- The worker of a job in IN_PROGRESS is past line 674, not aborted and not at its end. -/
  running : job.status = .IN_PROGRESS →
    job.tid.aborted = false ∧ job.tid.pc.early = false ∧ job.tid.pc ≠ .EXITED
  /-- Between `fopen` and line 674 the flag `aborted` is 0. -/
  fresh_flag : job.tid.pc = .CHECK ∨ job.tid.pc = .SET → job.tid.aborted = false
  /-- A job without printer has page count 0. -/
  orphan : job.printer = none → job.page_count = 0

/-- Every job record of the state satisfies `JobInv`. -/
def Sound (s : State) : Prop := ∀ (j : Nat) (job : job_t), s.jobs[j]? = some job → JobInv job

/-! ## A waiting job -/

/-- A client prints file `a` on device 7; the worker has not yet run. -/
def waiting_run : List Label := [.accept, .command env_up 0 ["print", "7", "a"]]

/-! ## The history of a job -/

/-- Whether the status of job `j` is IN_PROGRESS in one of the states of the run. -/
def was_in_progress (ls : List Label) (j : Nat) : Bool :=
  (List.range (ls.length + 1)).any (fun i =>
    match state_at ls i with
    | some s => in_progress s j
    | none => false)

/-- A step after which no page count is newly positive. -/
def PagesKept (s s' : State) : Prop :=
  ∀ (j : Nat) (job' : job_t), s'.jobs[j]? = some job' → 0 < job'.page_count →
    ∃ job, s.jobs[j]? = some job ∧ 0 < job.page_count

/-! ## Invariants of the indexes and the queues -/

/-- The indexes of the clients: every entry of the index of a client is a job of that
client, and no job is entered twice. -/
structure Owned (s : State) : Prop where
  owner : ∀ (c : Nat) (cl : client_t) (j : Nat), s.clients[c]? = some cl → j ∈ cl.jobs →
    ∃ job, s.jobs[j]? = some job ∧ job.client = c
  index_nodup : ∀ (c : Nat) (cl : client_t), s.clients[c]? = some cl → cl.jobs.Nodup

/-- A job whose worker is past line 733 or has ended is linked in no printer queue. -/
def Unlinked (s : State) : Prop :=
  ∀ (j : Nat) (job : job_t), s.jobs[j]? = some job →
    job.tid.pc = .FINISH ∨ job.tid.pc = .EXITED →
    ∀ (p : Nat) (pr : printer_t), s.printers[p]? = some pr → j ∉ pr.jobs

/-- What a step keeps of the indexes: an index gains no entry other than a new job. -/
def IndexFrom (s s' : State) : Prop :=
  ∀ (c : Nat) (cl' : client_t) (x : Nat), s'.clients[c]? = some cl' → x ∈ cl'.jobs →
    s.jobs.length ≤ x ∨ ∃ cl, s.clients[c]? = some cl ∧ x ∈ cl.jobs

/-! ## The listing of the jobs of a printer -/

/-- The jobs of all clients of the registry, each with its client: the clients in the
order of the registry, the jobs of each client in the order of its index. -/
def registry_jobs (s : State) : List (Nat × Nat) :=
  s.client_list.flatMap (fun c =>
    match s.clients[c]? with
    | none => []
    | some cl => cl.jobs.map (fun j => (c, j)))

/-- Whether job `j` has a printer record and the id of that record is `printer_id`. -/
def on_printer (s : State) (printer_id : Int) (j : Nat) : Bool :=
  match s.jobs[j]? with
  | none => false
  | some job =>
    match job.printer with
    | none => false
    | some p =>
      match s.printers[p]? with
      | none => false
      | some pr => pr.id == printer_id

/-- The line of a listing for job `j` of client `c`: client id, job id, file name and
status. -/
def listing_line (s : State) (c j : Nat) : String :=
  match s.clients[c]?, s.jobs[j]? with
  | some cl, some job =>
    "  Client " ++ fmt_d cl.id ++ ", job " ++ fmt_d job.id ++ ", file '" ++ job.filename
      ++ "', status '" ++ get_status job.status ++ "'\n"
  | _, _ => ""

/-! ## Runs for the invoice, the empty file and the listing -/

/-- A client prints file `a` on device 7; the worker has read the status on line 668 and
stands before line 673. -/
def checked_run : List Label :=
  [.accept, .command env_up 0 ["print", "7", "a"]] ++ List.replicate 5 (.worker env_up 0)

/-- A client prints the file `empty` on device 7 and the worker leaves the turn loop. -/
def empty_run : List Label :=
  [.accept, .command env_up 0 ["print", "7", "empty"]] ++ List.replicate 3 (.worker env_up 0)

/-- A file name of 90 characters. -/
def long_name : String := String.mk (List.replicate 90 'a')

/-- A client prints a file with the name `long_name` on device 7. -/
def long_name_run : List Label := [.accept, .command env_up 0 ["print", "7", long_name]]

/-! ## A job unlinked by its worker -/

/-- The run `cancelled_run` continued until the worker has noticed the cancellation,
unlinked the job from the queue of its printer and returned. -/
def unlinked_run : List Label := cancelled_run ++ List.replicate 5 (.worker env_up 0)

/-! ## Theorems -/

/-! ### Rounding -/

theorem round_half_even_eq (a b k : Nat) (h1 : 2 * a < 2 * k * b + b)
    (h2 : 2 * k * b < 2 * a + b) : round_half_even a b = k := by
  have hb : 0 < b := by
    rcases Nat.eq_zero_or_pos b with h | h
    · subst h; omega
    · exact h
  have hdm : b * (a / b) + a % b = a := Nat.div_add_mod a b
  have hr : a % b < b := Nat.mod_lt a hb
  generalize hq : a / b = q at *
  generalize hrr : a % b = r at *
  have hqk : q ≤ k ∧ k ≤ q + 1 := by
    constructor
    · by_contra hc
      have : k + 1 ≤ q := by omega
      have : b * (k + 1) ≤ b * q := Nat.mul_le_mul_left b this
      nlinarith
    · by_contra hc
      have : q + 2 ≤ k := by omega
      have : b * (q + 2) ≤ b * k := Nat.mul_le_mul_left b this
      nlinarith
  unfold round_half_even
  rw [hq, hrr]
  rcases hqk with ⟨hq1, hq2⟩
  have hcases : q = k ∨ q + 1 = k := by omega
  rcases hcases with h | h
  · subst h
    have : 2 * r < b := by nlinarith
    simp [this]
  · subst h
    have : b < 2 * r := by nlinarith
    have h3 : ¬ 2 * r < b := by omega
    simp [this, h3]

theorem round_half_even_near (a b : Nat) (hb : 0 < b) :
    2 * (round_half_even a b * b) ≤ 2 * a + b ∧ 2 * a ≤ 2 * (round_half_even a b * b) + b := by
  have hdm : b * (a / b) + a % b = a := Nat.div_add_mod a b
  have hr : a % b < b := Nat.mod_lt a hb
  unfold round_half_even
  generalize hq : a / b = q at *
  generalize hrr : a % b = r at *
  split_ifs <;> constructor <;> nlinarith

/-- The literal `0.05` is the binary64 value nearest to one twentieth: `m * 2^-56` is
`2 * m * 2^-57` with a mantissa `2 * m` of 53 bits, and its distance to `1/20`, which is
`(20 * m - 2^56) / (20 * 2^56)`, is below half a unit `2^-58` in the last place. -/
theorem page_price_nearest :
    2 ^ 52 ≤ 2 * page_price.m ∧ 2 * page_price.m < 2 ^ 53 ∧ page_price.e = -56 ∧
      2 ^ 56 ≤ 20 * page_price.m ∧ 20 * page_price.m - 2 ^ 56 ≤ 5 := by
  decide

theorem hundredths_round53 (k : Nat) (hn : k ≤ 2 ^ 31) (sg : Bool) :
    hundredths ⟨sg, (round53 (3602879701896397 * k) (-56)).1,
      (round53 (3602879701896397 * k) (-56)).2⟩ = 5 * k := by
  simp only [round53]
  split_ifs with hbits
  · -- the product has at most 53 bits and is exact
    show round_half_even (100 * (3602879701896397 * k)) (2 ^ 56) = 5 * k
    apply round_half_even_eq
    · omega
    · omega
  · -- the product is rounded to 53 bits
    have hk0 : 3602879701896397 * k ≠ 0 := by
      intro h
      rw [h] at hbits
      simp [Nat.log2] at hbits
    have hlt : (3602879701896397 * k).log2 < 83 := by
      rw [Nat.log2_lt hk0]
      have : (2:Nat) ^ 83 = 9671406556917033397649408 := by norm_num
      omega
    generalize hL : (3602879701896397 * k).log2 = L at *
    have hsh : 1 ≤ L + 1 - 53 ∧ L + 1 - 53 ≤ 30 := by omega
    generalize hs : L + 1 - 53 = sh at *
    obtain ⟨t, ht⟩ : ∃ t, 56 = sh + (t + 1) := ⟨55 - sh, by omega⟩
    have he : (-56 : Int) + (sh : Int) = Int.negSucc t := by
      rw [Int.negSucc_eq]; omega
    simp only [hundredths, he]
    have hB : 0 < 2 ^ sh := Nat.pow_pos (by norm_num)
    have hBC : 2 ^ sh * 2 ^ (t + 1) = 2 ^ 56 := by rw [← pow_add, ← ht]
    have hBle : 2 ^ sh ≤ 2 ^ 30 := Nat.pow_le_pow_right (by norm_num) hsh.2
    obtain ⟨n1, n2⟩ := round_half_even_near (3602879701896397 * k) (2 ^ sh) hB
    generalize round_half_even (3602879701896397 * k) (2 ^ sh) = m at *
    generalize 2 ^ sh = B at *
    generalize 2 ^ (t + 1) = C at *
    apply round_half_even_eq
    · apply Nat.lt_of_mul_lt_mul_left (a := B)
      have e1 : B * (2 * (100 * m)) = 100 * (2 * (m * B)) := by ring
      have e2 : B * (2 * (5 * k) * C + C) = (10 * k + 1) * (B * C) := by ring
      rw [e1, e2, hBC]
      norm_num at hBle hn ⊢
      omega
    · apply Nat.lt_of_mul_lt_mul_left (a := B)
      have e1 : B * (2 * (100 * m) + C) = 100 * (2 * (m * B)) + B * C := by ring
      have e2 : B * (2 * (5 * k) * C) = (10 * k) * (B * C) := by ring
      rw [e1, e2, hBC]
      norm_num at hBle hn ⊢
      omega

/-- The product `page_price * n` printed with `%.2f` shows exactly `5 * n` hundredths,
for every `n` of the range of `int`. -/
theorem fmt_2f_page_price (n : Int) (hlo : -2 ^ 31 ≤ n) (hhi : n < 2 ^ 31) :
    fmt_2f (double_mul_int page_price n) = cents_text (5 * n) := by
  have hn : n.natAbs ≤ 2 ^ 31 := by omega
  have hh : hundredths (double_mul_int page_price n) = 5 * n.natAbs :=
    hundredths_round53 n.natAbs hn _
  have ha : (5 * n).natAbs = 5 * n.natAbs := by omega
  have hs : (double_mul_int page_price n).neg = decide (n < 0) := by
    simp [double_mul_int, page_price]
  unfold fmt_2f cents_text
  rw [hh, hs, ha]
  by_cases h0 : n < 0
  · have : 5 * n < 0 := by omega
    simp [h0, this]
  · have : ¬ 5 * n < 0 := by omega
    simp [h0, this]

/-! ### The command `invoice` -/

theorem invoice_cmd_fct_found (env : Env) (s s' : State) (c : Nat) (args : List String)
    (client : client_t) (j : Nat) (reply : String)
    (hargs : args.length = 2) (hc : s.clients[c]? = some client)
    (hf : find_job s client.jobs (atoi (args.getD 1 "")) = some j)
    (h : invoice_cmd_fct env s c args = some (s', reply)) :
    ∃ job s1 job1, s.jobs[j]? = some job ∧ invoice_settle env s j job = some s1 ∧
      s1.jobs[j]? = some job1 ∧ invoice_reply s1 job1 = some reply ∧
      s' = { s1 with
             clients := s1.clients.modify (fun cl => { cl with jobs := list_del j cl.jobs }) c } := by
  unfold invoice_cmd_fct at h
  simp only [invalid_arg_count, hargs, hc, hf] at h
  norm_num at h
  cases hj : s.jobs[j]? with
  | none => simp [hj] at h
  | some job =>
    simp only [hj] at h
    cases hs : invoice_settle env s j job with
    | none => simp [hs] at h
    | some s1 =>
      simp only [hs] at h
      cases hj1 : s1.jobs[j]? with
      | none => simp [hj1] at h
      | some job1 =>
        simp only [hj1] at h
        cases hr : invoice_reply s1 job1 with
        | none => simp [hr] at h
        | some r =>
          simp only [hr, Option.some.injEq, Prod.mk.injEq] at h
          obtain ⟨h1, h2⟩ := h
          subst h1 h2
          exact ⟨job, s1, job1, rfl, hs, hj1, hr, rfl⟩

/-! ### Invariants under an update of one job and its printer -/

theorem lookup_set_self {α : Type} {l : List α} {j : Nat} {a : α} (b : α) (h : l[j]? = some a) :
    (l.set j b)[j]? = some b := by
  have hlt : j < l.length := by
    by_contra hc
    rw [List.getElem?_eq_none (by omega)] at h
    cases h
  simp [List.getElem?_set, hlt]

theorem lookup_set {α : Type} {l : List α} {j k : Nat} {b x : α}
    (h : (l.set j b)[k]? = some x) : (k = j ∧ x = b) ∨ (k ≠ j ∧ l[k]? = some x) := by
  rw [List.getElem?_set] at h
  by_cases hjk : j = k
  · subst hjk
    rw [if_pos rfl] at h
    split_ifs at h
    · left; exact ⟨rfl, (Option.some.inj h).symm⟩
  · rw [if_neg hjk] at h
    right; exact ⟨fun e => hjk e.symm, h⟩

theorem lookup_lt {α : Type} {l : List α} {j : Nat} {a : α} (h : l[j]? = some a) :
    j < l.length := by
  by_contra hc
  rw [List.getElem?_eq_none (by omega)] at h
  cases h

theorem inv_update {s : State} (hI : Inv s) {j p : Nat} {job job' : job_t} {pr pr' : printer_t}
    (hj : s.jobs[j]? = some job) (hp : job.printer = some p) (hpr : s.printers[p]? = some pr)
    (H1 : job'.printer = some p)
    (H2 : pr'.jobs.Sublist pr.jobs)
    (H3 : ∀ k, k ≠ j → pr.jobs.head? = some k → pr'.jobs.head? = some k)
    (H4 : job'.tid.pc.early = true → job'.status = .WAITING ∨ job'.status = .CANCELED)
    (H5 : job'.tid.pc = .SET → job'.status = .WAITING)
    (H6 : job'.tid.pc.entering = true → job'.status ≠ .CANCELED → pr'.jobs.head? = some j) :
    Inv { s with jobs := s.jobs.set j job', printers := s.printers.set p pr' } := by
  constructor
  · -- printer_valid
    intro k jobk q hk hq
    simp only [List.length_set]
    rcases lookup_set hk with ⟨rfl, rfl⟩ | ⟨_, hk'⟩
    · rw [H1] at hq; cases hq; exact lookup_lt hpr
    · exact hI.printer_valid k jobk q hk' hq
  · -- no_printer
    intro k jobk hk hq
    rcases lookup_set hk with ⟨rfl, rfl⟩ | ⟨_, hk'⟩
    · rw [H1] at hq; cases hq
    · exact hI.no_printer k jobk hk' hq
  · -- queue_job
    intro q prq x hq hx
    simp only at hq ⊢
    rcases lookup_set hq with ⟨rfl, rfl⟩ | ⟨hne, hq'⟩
    · obtain ⟨jobx, hjx, hpx⟩ := hI.queue_job q pr x hpr (H2.subset hx)
      by_cases hxj : x = j
      · subst hxj
        exact ⟨job', lookup_set_self job' hj, H1⟩
      · exact ⟨jobx, by rw [List.getElem?_set_ne (fun e => hxj e.symm)]; exact hjx, hpx⟩
    · obtain ⟨jobx, hjx, hpx⟩ := hI.queue_job q prq x hq' hx
      by_cases hxj : x = j
      · subst hxj
        rw [hj] at hjx; cases hjx
        rw [hp] at hpx; cases hpx
        exact absurd rfl hne
      · exact ⟨jobx, by rw [List.getElem?_set_ne (fun e => hxj e.symm)]; exact hjx, hpx⟩
  · -- queue_sorted
    intro q prq hq
    rcases lookup_set hq with ⟨rfl, rfl⟩ | ⟨_, hq'⟩
    · exact (hI.queue_sorted q pr hpr).sublist H2
    · exact hI.queue_sorted q prq hq'
  · -- index_valid
    intro c cl x hc hx
    simp only [List.length_set]
    exact hI.index_valid c cl x hc hx
  · -- registry_valid
    intro c hc
    exact hI.registry_valid c hc
  · -- early
    intro k jobk hk hq he
    rcases lookup_set hk with ⟨rfl, rfl⟩ | ⟨_, hk'⟩
    · exact H4 he
    · exact hI.early k jobk hk' hq he
  · -- set_waiting
    intro k jobk hk hq he
    rcases lookup_set hk with ⟨rfl, rfl⟩ | ⟨_, hk'⟩
    · exact H5 he
    · exact hI.set_waiting k jobk hk' hq he
  · -- turn
    intro k jobk q prq hk hq hprq he hc
    rcases lookup_set hk with ⟨rfl, rfl⟩ | ⟨hkj, hk'⟩
    · rw [H1] at hq; cases hq
      rw [lookup_set_self pr' hpr] at hprq; cases hprq
      exact H6 he hc
    · rcases lookup_set hprq with ⟨rfl, rfl⟩ | ⟨_, hprq'⟩
      · exact H3 k hkj (hI.turn k jobk q pr hk' hq hpr he hc)
      · exact hI.turn k jobk q prq hk' hq hprq' he hc

/-! ### One step of the worker, seen from its job and its printer -/

theorem job_worker_step_fields (env : Env) (j : Nat) (job : job_t) (pr : printer_t) :
    (job_worker_step env j job pr).1.printer = job.printer ∧
    (job_worker_step env j job pr).1.id = job.id ∧
    (job_worker_step env j job pr).1.client = job.client ∧
    (job_worker_step env j job pr).1.filename = job.filename ∧
    (job_worker_step env j job pr).2.id = pr.id := by
  unfold job_worker_step
  repeat' split
  all_goals exact ⟨rfl, rfl, rfl, rfl, rfl⟩

theorem job_worker_step_queue (env : Env) (j : Nat) (job : job_t) (pr : printer_t) :
    (job_worker_step env j job pr).2.jobs = pr.jobs ∨
    (job.tid.pc = .UNLINK ∧ (job_worker_step env j job pr).2.jobs = list_del j pr.jobs) := by
  unfold job_worker_step
  repeat' split
  all_goals first | exact Or.inl rfl | exact Or.inr ⟨by assumption, rfl⟩

theorem job_worker_step_status (env : Env) (j : Nat) (job : job_t) (pr : printer_t) :
    (job_worker_step env j job pr).1.status = job.status ∨
    (job.tid.pc = .OPEN ∧ (job_worker_step env j job pr).1.status = .FILE_ERROR ∧
      (job_worker_step env j job pr).1.tid.pc = .UNLINK) ∨
    (job.tid.pc = .SET ∧ (job_worker_step env j job pr).1.status = .IN_PROGRESS ∧
      (job_worker_step env j job pr).1.tid.pc = .GETLINE) ∨
    (job.tid.pc = .CHAR ∧ (job_worker_step env j job pr).1.status = .PRINTER_ERROR ∧
      (job_worker_step env j job pr).1.tid.pc = .UNLINK) ∨
    (job.tid.pc = .FINISH ∧ (job_worker_step env j job pr).1.status = .FINISHED ∧
      (job_worker_step env j job pr).1.tid.pc = .EXITED) := by
  unfold job_worker_step
  repeat' split
  all_goals first
    | exact Or.inl rfl
    | exact Or.inr (Or.inl ⟨by assumption, rfl, rfl⟩)
    | exact Or.inr (Or.inr (Or.inl ⟨by assumption, rfl, rfl⟩))
    | exact Or.inr (Or.inr (Or.inr (Or.inl ⟨by assumption, rfl, rfl⟩)))
    | exact Or.inr (Or.inr (Or.inr (Or.inr ⟨by assumption, rfl, rfl⟩)))

/-- The program point after a step, by the program point before it. -/
theorem job_worker_step_pc (env : Env) (j : Nat) (job : job_t) (pr : printer_t) :
    ((job_worker_step env j job pr).1.tid.pc.early = true → job.tid.pc.early = true ∧
      (job_worker_step env j job pr).1.status = job.status) ∧
    ((job_worker_step env j job pr).1.tid.pc = .SET → job.tid.pc = .CHECK ∧
      job.status ≠ .CANCELED ∧ (job_worker_step env j job pr).1.status = job.status) ∧
    ((job_worker_step env j job pr).1.tid.pc.entering = true →
      (job_worker_step env j job pr).1.status = job.status ∧
      (job_worker_step env j job pr).2.jobs = pr.jobs ∧
      (job.tid.pc.entering = true ∨
        (job.tid.pc = .TURN ∧ (pr.jobs.head? = some j ∨ job.status = .CANCELED)))) := by
  unfold job_worker_step
  repeat' split
  all_goals simp_all [pc_t.early, pc_t.entering]

theorem set_same {α : Type} {l : List α} {i : Nat} {a : α} (h : l[i]? = some a) :
    l.set i a = l := by
  induction l generalizing i with
  | nil => rfl
  | cons x xs ih =>
    cases i with
    | zero => simp at h; simp [h]
    | succ n => simp at h; simp [ih h]

theorem head?_erase_ne {l : List Nat} {j k : Nat} (hkj : k ≠ j) (h : l.head? = some k) :
    (l.erase j).head? = some k := by
  cases l with
  | nil => cases h
  | cons x xs =>
    simp at h
    subst h
    rw [List.erase_cons]
    have : (x == j) = false := by simpa using hkj
    simp [this]

theorem inv_update_job {s : State} (hI : Inv s) {j p : Nat} {job job' : job_t} {pr : printer_t}
    (hj : s.jobs[j]? = some job) (hp : job.printer = some p) (hpr : s.printers[p]? = some pr)
    (H1 : job'.printer = some p)
    (H4 : job'.tid.pc.early = true → job'.status = .WAITING ∨ job'.status = .CANCELED)
    (H5 : job'.tid.pc = .SET → job'.status = .WAITING)
    (H6 : job'.tid.pc.entering = true → job'.status ≠ .CANCELED → pr.jobs.head? = some j) :
    Inv { s with jobs := s.jobs.set j job' } := by
  have h := inv_update hI hj hp hpr H1 (List.Sublist.refl _) (fun _ _ h => h) H4 H5 H6
  rw [set_same hpr] at h
  exact h

theorem inv_update_orphan {s : State} (hI : Inv s) {j : Nat} {job job' : job_t}
    (hj : s.jobs[j]? = some job) (hp : job.printer = none)
    (H1 : job'.printer = none) (H2 : job'.status = job.status) :
    Inv { s with jobs := s.jobs.set j job' } := by
  constructor
  · intro k jobk q hk hq
    rcases lookup_set hk with ⟨rfl, rfl⟩ | ⟨_, hk'⟩
    · rw [H1] at hq; cases hq
    · exact hI.printer_valid k jobk q hk' hq
  · intro k jobk hk hq
    rcases lookup_set hk with ⟨rfl, rfl⟩ | ⟨_, hk'⟩
    · rw [H2]; exact hI.no_printer k job hj hp
    · exact hI.no_printer k jobk hk' hq
  · intro q prq x hq hx
    obtain ⟨jobx, hjx, hpx⟩ := hI.queue_job q prq x hq hx
    by_cases hxj : x = j
    · subst hxj
      rw [hj] at hjx; cases hjx
      rw [hp] at hpx; cases hpx
    · exact ⟨jobx, by simp only; rw [List.getElem?_set_ne (fun e => hxj e.symm)]; exact hjx, hpx⟩
  · exact hI.queue_sorted
  · intro c cl x hc hx
    simp only [List.length_set]
    exact hI.index_valid c cl x hc hx
  · exact hI.registry_valid
  · intro k jobk hk hq he
    rcases lookup_set hk with ⟨rfl, rfl⟩ | ⟨_, hk'⟩
    · exact absurd H1 hq
    · exact hI.early k jobk hk' hq he
  · intro k jobk hk hq he
    rcases lookup_set hk with ⟨rfl, rfl⟩ | ⟨_, hk'⟩
    · exact absurd H1 hq
    · exact hI.set_waiting k jobk hk' hq he
  · intro k jobk q prq hk hq hprq he hc
    rcases lookup_set hk with ⟨rfl, rfl⟩ | ⟨hkj, hk'⟩
    · rw [H1] at hq; cases hq
    · exact hI.turn k jobk q prq hk' hq hprq he hc

theorem job_worker_eq {env : Env} {s : State} {j p : Nat} {job : job_t} {pr : printer_t}
    (hj : s.jobs[j]? = some job) (hpc : job.tid.pc ≠ .EXITED) (hp : job.printer = some p)
    (hpr : s.printers[p]? = some pr) :
    job_worker env s j =
      { s with
        jobs := s.jobs.set j (job_worker_step env j job pr).1,
        printers := s.printers.set p (job_worker_step env j job pr).2 } := by
  unfold job_worker
  simp [hj, hpc, hp, hpr]

/-- What one step of a worker does to the state: nothing, or the exit of a worker
without printer, or a step of `job_worker_step`. -/
theorem job_worker_cases (env : Env) (s : State) (j : Nat) :
    job_worker env s j = s ∨
    (∃ job, s.jobs[j]? = some job ∧ job.tid.pc ≠ .EXITED ∧ job.printer = none ∧
      job_worker env s j =
        { s with jobs := s.jobs.set j { job with tid := { job.tid with pc := .EXITED } } }) ∨
    (∃ job p pr, s.jobs[j]? = some job ∧ job.tid.pc ≠ .EXITED ∧ job.printer = some p ∧
      s.printers[p]? = some pr ∧
      job_worker env s j =
        { s with
          jobs := s.jobs.set j (job_worker_step env j job pr).1,
          printers := s.printers.set p (job_worker_step env j job pr).2 }) := by
  cases hj : s.jobs[j]? with
  | none => left; simp [job_worker, hj]
  | some job =>
    by_cases hpc : job.tid.pc = .EXITED
    · left; simp [job_worker, hj, hpc]
    · cases hp : job.printer with
      | none => right; left; exact ⟨job, rfl, hpc, hp, by simp [job_worker, hj, hpc, hp]⟩
      | some p =>
        cases hpr : s.printers[p]? with
        | none => left; simp [job_worker, hj, hpc, hp, hpr]
        | some pr => right; right; exact ⟨job, p, pr, rfl, hpc, hp, hpr, job_worker_eq hj hpc hp hpr⟩

theorem job_worker_step_sublist (env : Env) (j : Nat) (job : job_t) (pr : printer_t) :
    (job_worker_step env j job pr).2.jobs.Sublist pr.jobs := by
  rcases job_worker_step_queue env j job pr with h | ⟨_, h⟩
  · rw [h]
  · rw [h]; exact List.erase_sublist j pr.jobs

theorem job_worker_step_head (env : Env) (j : Nat) (job : job_t) (pr : printer_t) (k : Nat)
    (hkj : k ≠ j) (h : pr.jobs.head? = some k) :
    (job_worker_step env j job pr).2.jobs.head? = some k := by
  rcases job_worker_step_queue env j job pr with h' | ⟨_, h'⟩
  · rw [h']; exact h
  · rw [h']; exact head?_erase_ne hkj h

theorem inv_job_worker {s : State} (hI : Inv s) (env : Env) (j : Nat) :
    Inv (job_worker env s j) := by
  rcases job_worker_cases env s j with h | ⟨job, hj, _, hp, h⟩ | ⟨job, p, pr, hj, _, hp, hpr, h⟩
  · rw [h]; exact hI
  · rw [h]; exact inv_update_orphan hI hj hp hp rfl
  · rw [h]
    have hne : job.printer ≠ none := by rw [hp]; simp
    obtain ⟨hA, hB, hC⟩ := job_worker_step_pc env j job pr
    refine inv_update hI hj hp hpr ?_ (job_worker_step_sublist env j job pr)
      (job_worker_step_head env j job pr) ?_ ?_ ?_
    · rw [(job_worker_step_fields env j job pr).1]; exact hp
    · intro he
      obtain ⟨he', hs⟩ := hA he
      rw [hs]; exact hI.early j job hj hne he'
    · intro he
      obtain ⟨hc, hnc, hs⟩ := hB he
      rw [hs]
      rcases hI.early j job hj hne (by rw [hc]; rfl) with h | h
      · exact h
      · exact absurd h hnc
    · intro he hnc
      obtain ⟨hs, hq, hcase⟩ := hC he
      rw [hq]
      rw [hs] at hnc
      rcases hcase with h | ⟨_, h | h⟩
      · exact hI.turn j job p pr hj hp hpr h hnc
      · exact h
      · exact absurd h hnc

/-! ### The invariants under the effects of the commands -/

theorem lookup_some_of_lt {α : Type} {l : List α} {i : Nat} (h : i < l.length) :
    ∃ a, l[i]? = some a := ⟨l[i], List.getElem?_eq_getElem h⟩

theorem inv_printer_record {s : State} (hI : Inv s) {j p : Nat} {job : job_t}
    (hj : s.jobs[j]? = some job) (hp : job.printer = some p) :
    ∃ pr, s.printers[p]? = some pr :=
  lookup_some_of_lt (hI.printer_valid j job p hj hp)

theorem inv_has_printer {s : State} (hI : Inv s) {j : Nat} {job : job_t}
    (hj : s.jobs[j]? = some job) (hst : job.status ≠ .PRINTER_ERROR) :
    ∃ p pr, job.printer = some p ∧ s.printers[p]? = some pr := by
  cases hp : job.printer with
  | none => exact absurd (hI.no_printer j job hj hp) hst
  | some p =>
    obtain ⟨pr, hpr⟩ := inv_printer_record hI hj hp
    exact ⟨p, pr, rfl, hpr⟩

theorem inv_update_clients {s : State} (hI : Inv s) (c : Nat) (f : client_t → client_t)
    (hf : ∀ cl, (f cl).jobs ⊆ cl.jobs) :
    Inv { s with clients := s.clients.modify f c } := by
  constructor
  · exact hI.printer_valid
  · exact hI.no_printer
  · exact hI.queue_job
  · exact hI.queue_sorted
  · intro k cl x hk hx
    simp only [List.getElem?_modify] at hk
    cases hk0 : s.clients[k]? with
    | none => simp [hk0] at hk
    | some cl0 =>
      simp only [hk0, Option.map_eq_map, Option.map_some', Option.some.injEq] at hk
      apply hI.index_valid k cl0 x hk0
      by_cases hck : c = k
      · rw [if_pos hck] at hk; subst hk; exact hf cl0 hx
      · rw [if_neg hck] at hk; subst hk; exact hx
  · intro k hk
    simp only [List.length_modify]
    exact hI.registry_valid k hk
  · exact hI.early
  · exact hI.set_waiting
  · exact hI.turn

theorem evolves_refl (s : State) : Evolves s s :=
  ⟨fun _ job h => ⟨job, h, rfl, rfl, rfl⟩, fun _ pr h => ⟨pr, h, rfl⟩,
   fun _ pr' _ h hx => Or.inr ⟨pr', h, hx⟩⟩

theorem evolves_trans {s s' s'' : State} (h1 : Evolves s s') (h2 : Evolves s' s'') :
    Evolves s s'' := by
  constructor
  · intro j job hj
    obtain ⟨job', hj', e1, e2, e3⟩ := h1.jobs_kept j job hj
    obtain ⟨job'', hj'', f1, f2, f3⟩ := h2.jobs_kept j job' hj'
    exact ⟨job'', hj'', f1.trans e1, f2.trans e2, f3.trans e3⟩
  · intro p pr hp
    obtain ⟨pr', hp', e1⟩ := h1.printers_kept p pr hp
    obtain ⟨pr'', hp'', f1⟩ := h2.printers_kept p pr' hp'
    exact ⟨pr'', hp'', f1.trans e1⟩
  · intro p pr'' x hp hx
    have hlen : s.jobs.length ≤ s'.jobs.length := by
      by_contra hc
      obtain ⟨a, ha⟩ := lookup_some_of_lt (l := s.jobs) (i := s'.jobs.length) (by omega)
      obtain ⟨_, ha', _⟩ := h1.jobs_kept _ a ha
      exact absurd (lookup_lt ha') (by omega)
    rcases h2.queue_from p pr'' x hp hx with h | ⟨pr', hp', hx'⟩
    · left; omega
    · exact h1.queue_from p pr' x hp' hx'

theorem evolves_length_le {s s' : State} (h : Evolves s s') : s.jobs.length ≤ s'.jobs.length := by
  by_contra hc
  obtain ⟨a, ha⟩ := lookup_some_of_lt (l := s.jobs) (i := s'.jobs.length) (by omega)
  obtain ⟨_, ha', _⟩ := h.jobs_kept _ a ha
  exact absurd (lookup_lt ha') (by omega)

theorem quiet_refl (s : State) : Quiet s s := fun _ job' h hs => ⟨job', h, hs⟩

theorem quiet_trans {s s' s'' : State} (h1 : Quiet s s') (h2 : Quiet s' s'') : Quiet s s'' := by
  intro j job'' hj hs
  obtain ⟨job', hj', hs'⟩ := h2 j job'' hj hs
  exact h1 j job' hj' hs'

theorem evolves_update {s : State} {j p : Nat} {job job' : job_t} {pr pr' : printer_t}
    (hj : s.jobs[j]? = some job) (hpr : s.printers[p]? = some pr)
    (F1 : job'.printer = job.printer) (F2 : job'.id = job.id) (F3 : job'.client = job.client)
    (G : pr'.id = pr.id) (H2 : pr'.jobs.Sublist pr.jobs) :
    Evolves s { s with jobs := s.jobs.set j job', printers := s.printers.set p pr' } := by
  constructor
  · intro k jobk hk
    by_cases hkj : k = j
    · subst hkj
      rw [hj] at hk; cases hk
      exact ⟨job', lookup_set_self job' hj, F1, F2, F3⟩
    · exact ⟨jobk, by simp only; rw [List.getElem?_set_ne (fun e => hkj e.symm)]; exact hk,
        rfl, rfl, rfl⟩
  · intro q prq hq
    by_cases hqp : q = p
    · subst hqp
      rw [hpr] at hq; cases hq
      exact ⟨pr', lookup_set_self pr' hpr, G⟩
    · exact ⟨prq, by simp only; rw [List.getElem?_set_ne (fun e => hqp e.symm)]; exact hq, rfl⟩
  · intro q prq x hq hx
    rcases lookup_set hq with ⟨rfl, rfl⟩ | ⟨_, hq'⟩
    · exact Or.inr ⟨pr, hpr, H2.subset hx⟩
    · exact Or.inr ⟨prq, hq', hx⟩

theorem evolves_update_job {s : State} {j : Nat} {job job' : job_t}
    (hj : s.jobs[j]? = some job)
    (F1 : job'.printer = job.printer) (F2 : job'.id = job.id) (F3 : job'.client = job.client) :
    Evolves s { s with jobs := s.jobs.set j job' } := by
  constructor
  · intro k jobk hk
    by_cases hkj : k = j
    · subst hkj
      rw [hj] at hk; cases hk
      exact ⟨job', lookup_set_self job' hj, F1, F2, F3⟩
    · exact ⟨jobk, by simp only; rw [List.getElem?_set_ne (fun e => hkj e.symm)]; exact hk,
        rfl, rfl, rfl⟩
  · intro q prq hq
    exact ⟨prq, hq, rfl⟩
  · intro q prq x hq hx
    exact Or.inr ⟨prq, hq, hx⟩

theorem evolves_of_eq {s s' : State} (h1 : s'.jobs = s.jobs) (h2 : s'.printers = s.printers) :
    Evolves s s' := by
  constructor
  · intro j job hj; exact ⟨job, by rw [h1]; exact hj, rfl, rfl, rfl⟩
  · intro p pr hp; exact ⟨pr, by rw [h2]; exact hp, rfl⟩
  · intro p pr' x hp hx; rw [h2] at hp; exact Or.inr ⟨pr', hp, hx⟩

theorem quiet_of_eq {s s' : State} (h1 : s'.jobs = s.jobs) : Quiet s s' := by
  intro j job' hj hs
  rw [h1] at hj
  exact ⟨job', hj, hs⟩

theorem quiet_set_job {s s' : State} {j : Nat} {job job' : job_t}
    (hj : s.jobs[j]? = some job) (h1 : s'.jobs = s.jobs.set j job')
    (hs : job'.status = .IN_PROGRESS → job.status = .IN_PROGRESS) : Quiet s s' := by
  intro k jobk hk hst
  rw [h1] at hk
  rcases lookup_set hk with ⟨rfl, rfl⟩ | ⟨_, hk'⟩
  · exact ⟨job, hj, hs hst⟩
  · exact ⟨jobk, hk', hst⟩

theorem evolves_job_worker (env : Env) (s : State) (j : Nat) : Evolves s (job_worker env s j) := by
  rcases job_worker_cases env s j with h | ⟨job, hj, _, hp, h⟩ | ⟨job, p, pr, hj, _, hp, hpr, h⟩
  · rw [h]; exact evolves_refl s
  · rw [h]; exact evolves_update_job hj rfl rfl rfl
  · rw [h]
    obtain ⟨f1, f2, f3, _, g⟩ := job_worker_step_fields env j job pr
    exact evolves_update hj hpr f1 f2 f3 g (job_worker_step_sublist env j job pr)

/-- A step of a worker makes no job other than its own IN_PROGRESS, and its own only
from the program point SET. -/
theorem job_worker_enters (env : Env) (s : State) (j k : Nat) (job' : job_t)
    (hk : (job_worker env s j).jobs[k]? = some job') (hs : job'.status = .IN_PROGRESS) :
    (∃ job, s.jobs[k]? = some job ∧ job.status = .IN_PROGRESS) ∨
    (k = j ∧ ∃ job, s.jobs[j]? = some job ∧ job.tid.pc = .SET ∧ job.printer ≠ none) := by
  rcases job_worker_cases env s j with h | ⟨job, hj, _, hp, h⟩ | ⟨job, p, pr, hj, _, hp, hpr, h⟩
  · rw [h] at hk; exact Or.inl ⟨job', hk, hs⟩
  · rw [h] at hk
    rcases lookup_set hk with ⟨rfl, rfl⟩ | ⟨_, hk'⟩
    · exact Or.inl ⟨job, hj, hs⟩
    · exact Or.inl ⟨job', hk', hs⟩
  · rw [h] at hk
    rcases lookup_set hk with ⟨rfl, rfl⟩ | ⟨_, hk'⟩
    · rcases job_worker_step_status env k job pr with e | ⟨_, e, _⟩ | ⟨e, _, _⟩ | ⟨_, e, _⟩ | ⟨_, e, _⟩
      · exact Or.inl ⟨job, hj, e ▸ hs⟩
      · rw [e] at hs; cases hs
      · exact Or.inr ⟨rfl, job, hj, e, by rw [hp]; simp⟩
      · rw [e] at hs; cases hs
      · rw [e] at hs; cases hs
    · exact Or.inl ⟨job', hk', hs⟩

theorem prim_inv {s s' : State} (hI : Inv s) (h : Prim s s') : Inv s' := by
  cases h with
  | join_step env _ j job hj h1 h2 => exact inv_job_worker hI env j
  | cancel_running _ j job hj hst =>
    obtain ⟨p, pr, hp, hpr⟩ := inv_has_printer hI hj (by rw [hst]; decide)
    have hne : job.printer ≠ none := by rw [hp]; simp
    have hearly : job.tid.pc.early = false := by
      by_contra hc
      rcases hI.early j job hj hne (by simpa using hc) with h | h <;> rw [hst] at h <;> cases h
    refine inv_update_job hI hj hp hpr hp (fun _ => Or.inr rfl) ?_ (fun _ hc => absurd rfl hc)
    intro hpc
    change job.tid.pc = .SET at hpc
    rw [hpc] at hearly
    cases hearly
  | cancel_waiting _ j job p pr hj hst hp hpr =>
    refine inv_update hI hj hp hpr hp (List.erase_sublist j pr.jobs)
      (fun k hkj h => head?_erase_ne hkj h) (fun h => ?_) (fun h => ?_) (fun h => ?_)
    · cases h
    · cases h
    · cases h
  | settle _ j job p pr hj hst hp hpr =>
    refine inv_update hI hj hp hpr hp (List.erase_sublist j pr.jobs)
      (fun k hkj h => head?_erase_ne hkj h) (fun h => ?_) (fun h => ?_) (fun h => ?_)
    · cases h
    · cases h
    · cases h
  | unlink _ c j =>
    exact inv_update_clients hI c _ (fun cl => (List.erase_sublist j cl.jobs).subset)
  | quit_flag _ c =>
    exact inv_update_clients hI c _ (fun cl => List.Subset.refl _)

theorem prim_evolves {s s' : State} (h : Prim s s') : Evolves s s' := by
  cases h with
  | join_step env _ j job hj h1 h2 => exact evolves_job_worker env s j
  | cancel_running _ j job hj hst => exact evolves_update_job hj rfl rfl rfl
  | cancel_waiting _ j job p pr hj hst hp hpr =>
    exact evolves_update hj hpr rfl rfl rfl rfl (List.erase_sublist j pr.jobs)
  | settle _ j job p pr hj hst hp hpr =>
    exact evolves_update hj hpr rfl rfl rfl rfl (List.erase_sublist j pr.jobs)
  | unlink _ c j => exact evolves_of_eq rfl rfl
  | quit_flag _ c => exact evolves_of_eq rfl rfl

theorem prim_quiet {s s' : State} (hI : Inv s) (h : Prim s s') : Quiet s s' := by
  cases h with
  | join_step env _ j job hj h1 h2 =>
    intro k job' hk hs
    rcases job_worker_enters env s j k job' hk hs with h | ⟨_, job0, hj0, hpc, hne⟩
    · exact h
    · rw [hj] at hj0; cases hj0
      exact absurd (hI.set_waiting j job hj hne hpc) h1
  | cancel_running _ j job hj hst =>
    exact quiet_set_job hj rfl (fun h => by cases h)
  | cancel_waiting _ j job p pr hj hst hp hpr =>
    exact quiet_set_job hj rfl (fun h => by cases h)
  | settle _ j job p pr hj hst hp hpr =>
    exact quiet_set_job hj rfl (fun h => h)
  | unlink _ c j => exact quiet_of_eq rfl
  | quit_flag _ c => exact quiet_of_eq rfl

/-! ### The commands as sequences of effects -/

open Relation

/-- A worker never sets the status to WAITING or CANCELED. -/
theorem job_worker_own_status (env : Env) (s : State) (j : Nat) (job : job_t)
    (hj : s.jobs[j]? = some job) :
    ∃ job', (job_worker env s j).jobs[j]? = some job' ∧
      (job'.status = job.status ∨
        (job'.status ≠ .WAITING ∧ job'.status ≠ .CANCELED)) := by
  rcases job_worker_cases env s j with h | ⟨job0, hj0, _, hp, h⟩ |
      ⟨job0, p, pr, hj0, _, hp, hpr, h⟩
  · rw [h]; exact ⟨job, hj, Or.inl rfl⟩
  · rw [hj] at hj0; cases hj0
    rw [h]; exact ⟨_, lookup_set_self _ hj, Or.inl rfl⟩
  · rw [hj] at hj0; cases hj0
    rw [h]
    refine ⟨_, lookup_set_self _ hj, ?_⟩
    rcases job_worker_step_status env j job pr with e | ⟨_, e, _⟩ | ⟨_, e, _⟩ | ⟨_, e, _⟩ | ⟨_, e, _⟩
    · exact Or.inl e
    all_goals right; rw [e]; exact ⟨by decide, by decide⟩

theorem run_worker_chain (env : Env) (j : Nat) :
    ∀ (n : Nat) (s : State) (job : job_t), s.jobs[j]? = some job → job.status ≠ .WAITING →
      job.status ≠ .CANCELED → ReflTransGen Prim s (run_worker env n s j)
  | 0, s, _, _, _, _ => ReflTransGen.refl
  | n + 1, s, job, hj, h1, h2 => by
    obtain ⟨job', hj', hs⟩ := job_worker_own_status env s j job hj
    have h1' : job'.status ≠ .WAITING := by
      rcases hs with e | e
      · rw [e]; exact h1
      · exact e.1
    have h2' : job'.status ≠ .CANCELED := by
      rcases hs with e | e
      · rw [e]; exact h2
      · exact e.2
    exact ReflTransGen.head (Prim.join_step env s j job hj h1 h2)
      (run_worker_chain env j n _ job' hj' h1' h2')

theorem pthread_join_chain {env : Env} {s s' : State} {j : Nat} {job : job_t}
    (hj : s.jobs[j]? = some job) (h1 : job.status ≠ .WAITING) (h2 : job.status ≠ .CANCELED)
    (h : pthread_join env s j = some s') : ReflTransGen Prim s s' := by
  unfold pthread_join at h
  simp only [hj] at h
  split at h
  · cases h
  · split_ifs at h
    cases h
    exact run_worker_chain env j _ s job hj h1 h2

theorem cancel_job_chain {s s' : State} {job_id : Int} {c : Nat} {r : String}
    (h : cancel_job s job_id c = some (s', r)) : ReflTransGen Prim s s' := by
  unfold cancel_job at h
  repeat' split at h
  all_goals
    cases h <;> first
      | exact ReflTransGen.refl
      | exact ReflTransGen.single (Prim.cancel_running _ _ _ (by assumption) (by assumption))
      | exact ReflTransGen.single
          (Prim.cancel_waiting _ _ _ _ _ (by assumption) (by assumption) (by assumption)
            (by assumption))

theorem invoice_settle_chain {env : Env} {s s' : State} {j : Nat} {job : job_t}
    (hj : s.jobs[j]? = some job) (h : invoice_settle env s j job = some s') :
    ReflTransGen Prim s s' := by
  unfold invoice_settle at h
  split_ifs at h with hst
  · repeat' split at h
    all_goals
      cases h <;> exact ReflTransGen.single
        (Prim.settle _ _ _ _ _ hj hst (by assumption) (by assumption))
  · push_neg at hst
    exact pthread_join_chain hj hst.1 hst.2 h

theorem invoice_cmd_fct_chain {env : Env} {s s' : State} {c : Nat} {args : List String}
    {r : String} (h : invoice_cmd_fct env s c args = some (s', r)) :
    ReflTransGen Prim s s' := by
  unfold invoice_cmd_fct at h
  repeat' split at h
  all_goals
    cases h <;> first
      | exact ReflTransGen.refl
      | exact ReflTransGen.tail (invoice_settle_chain (by assumption) (by assumption))
          (Prim.unlink _ _ _)

theorem quit_loop_chain (env : Env) (c : Nat) :
    ∀ (n : Nat) (s s' : State) (text r : String),
      quit_loop env n s c text = some (s', r) → ReflTransGen Prim s s'
  | 0, s, s', text, r, h => by
    unfold quit_loop at h
    repeat' split at h
    all_goals cases h <;> exact ReflTransGen.refl
  | n + 1, s, s', text, r, h => by
    unfold quit_loop at h
    split at h
    · cases h
    · split at h
      · simp only [Option.some.injEq, Prod.mk.injEq] at h
        obtain ⟨h, -⟩ := h
        subst h
        exact ReflTransGen.refl
      · split at h
        · cases h
        · split at h
          · cases h
          · rename_i s1 ext hcj
            split at h
            · cases h
            · rename_i job1 hj1
              split at h
              · cases h
              · rename_i s2 hs2
                have hc1 : ReflTransGen Prim s s1 := cancel_job_chain hcj
                have hc2 : ReflTransGen Prim s1 s2 := by
                  split_ifs at hs2 with hst
                  · exact pthread_join_chain hj1 hst.1 hst.2 hs2
                  · cases hs2; exact ReflTransGen.refl
                have hc3 := quit_loop_chain env c n _ s' _ r h
                exact (hc1.trans hc2).trans (ReflTransGen.head (Prim.unlink _ _ _) hc3)

theorem quit_cmd_fct_chain {env : Env} {s s' : State} {c : Nat} {args : List String}
    {r : String} (h : quit_cmd_fct env s c args = some (s', r)) :
    ReflTransGen Prim s s' := by
  unfold quit_cmd_fct at h
  repeat' split at h
  all_goals
    cases h <;> first
      | exact ReflTransGen.refl
      | exact ReflTransGen.tail (quit_loop_chain _ _ _ _ _ _ _ (by assumption))
          (Prim.quit_flag _ _)

/-! ### The command `print` -/

theorem modify_set_same {α : Type} (f : α → α) (x : α) :
    ∀ (l : List α) (c : Nat), (l.set c x).modify f c = l.set c (f x)
  | [], _ => by simp
  | a :: l, 0 => by simp
  | a :: l, c + 1 => by simp [modify_set_same f x l c]

/-- The state after an accepted `print` command, in closed form. -/
theorem print_cmd_fct_eq (env : Env) (s : State) (c : Nat) (args : List String)
    (client : client_t) (hargs : args.length = 3) (hc : s.clients[c]? = some client) :
    print_cmd_fct env s c args =
      some ({ s with
              jobs := s.jobs ++ [print_job env s c client args],
              clients := s.clients.set c
                { client with
                  job_counter := client.job_counter + 1,
                  jobs := print_link s.jobs.length (env.pthread_create = 0) client.jobs },
              printers :=
                match (resolve_printer env s.printers (atoi (args.getD 1 ""))).2.1 with
                | none => (resolve_printer env s.printers (atoi (args.getD 1 ""))).1
                | some p =>
                  (resolve_printer env s.printers (atoi (args.getD 1 ""))).1.modify
                    (fun pr => { pr with
                      jobs := print_link s.jobs.length (env.pthread_create = 0) pr.jobs }) p },
            if env.pthread_create = 0 then
              "  Created job no. " ++ fmt_d (client.job_counter + 1) ++ "\n"
            else "  Failed to create job worker thread: " ++ env.strerror env.pthread_create
              ++ "\n") := by
  unfold print_cmd_fct print_job
  generalize resolve_printer env s.printers (atoi (args.getD 1 "")) = r
  obtain ⟨pl, po, st⟩ := r
  simp only [invalid_arg_count, hargs, hc]
  norm_num
  by_cases hok : env.pthread_create = 0
  · simp only [hok, print_link, print_job]
    simp
  · simp only [hok, print_link, print_job]
    simp [modify_set_same]
    cases po <;> simp [List.modify_modify_eq, Function.comp_def]

theorem print_cmd_fct_args {env : Env} {s s' : State} {c : Nat} {args : List String}
    {r : String} (h : print_cmd_fct env s c args = some (s', r)) (hargs : args.length ≠ 3) :
    s' = s ∧ r = "  This command takes 2 arguments. Instead received "
      ++ fmt_d ((args.length : Int) - 1) ++ ".\n" := by
  unfold print_cmd_fct at h
  have : (args.length : Int) - 1 ≠ 2 := by omega
  simp only [invalid_arg_count, if_pos this] at h
  cases h
  exact ⟨rfl, rfl⟩

theorem find_printer_some {printer_id : Int} :
    ∀ {l : List printer_t} {p : Nat}, find_printer printer_id l = some p →
      ∃ pr, l[p]? = some pr ∧ pr.id = printer_id
  | [], _, h => by cases h
  | x :: xs, p, h => by
    unfold find_printer at h
    split_ifs at h with hx
    · cases h; exact ⟨x, by simp, hx.symm⟩
    · cases hf : find_printer printer_id xs with
      | none => simp [hf] at h
      | some q =>
        simp only [hf, Option.map_some', Option.some.injEq] at h
        subst h
        obtain ⟨pr, h1, h2⟩ := find_printer_some hf
        exact ⟨pr, by simpa using h1, h2⟩

theorem find_printer_none {printer_id : Int} :
    ∀ {l : List printer_t}, find_printer printer_id l = none →
      ∀ pr, pr ∈ l → pr.id ≠ printer_id
  | [], _, _, hm => by cases hm
  | x :: xs, h, pr, hm => by
    unfold find_printer at h
    split_ifs at h with hx
    cases hf : find_printer printer_id xs with
    | some q => simp [hf] at h
    | none =>
      rcases List.mem_cons.mp hm with rfl | hm'
      · exact fun e => hx e.symm
      · exact find_printer_none hf pr hm'

theorem resolve_printer_cases (env : Env) (pl : List printer_t) (printer_id : Int) :
    resolve_printer env pl printer_id = (pl, none, .PRINTER_ERROR) ∨
    (∃ p pr, pl[p]? = some pr ∧ pr.id = printer_id ∧
      resolve_printer env pl printer_id = (pl, some p, .WAITING)) ∨
    (find_printer printer_id pl = none ∧
      resolve_printer env pl printer_id =
        (pl ++ [init_printer printer_id], some pl.length, .WAITING)) := by
  unfold resolve_printer
  split_ifs
  · exact Or.inl rfl
  · cases hf : find_printer printer_id pl with
    | none => exact Or.inr (Or.inr ⟨rfl, rfl⟩)
    | some p =>
      obtain ⟨pr, h1, h2⟩ := find_printer_some hf
      exact Or.inr (Or.inl ⟨p, pr, h1, h2, rfl⟩)

theorem print_link_sublist (j : Nat) (created : Bool) (l : List Nat) :
    (print_link j created l).Sublist (l ++ [j]) := by
  unfold print_link list_del list_add_tail
  split_ifs
  · exact List.Sublist.refl _
  · exact List.erase_sublist _ _

theorem print_link_head (j : Nat) (created : Bool) (l : List Nat) (k : Nat) (hkj : k ≠ j)
    (h : l.head? = some k) : (print_link j created l).head? = some k := by
  have h1 : (l ++ [j]).head? = some k := by
    cases l with
    | nil => cases h
    | cons x xs => simpa using h
  unfold print_link list_del list_add_tail
  split_ifs
  · exact h1
  · exact head?_erase_ne hkj h1

/-- The invariants after the allocation of a job record that is linked at the tail of
its printer queue and of a client index. -/
theorem inv_add_job {s s' : State} (hI : Inv s) (nj : job_t)
    (J : s'.jobs = s.jobs ++ [nj])
    (P : ∀ (q : Nat) (pr' : printer_t), s'.printers[q]? = some pr' →
      (∃ pr, s.printers[q]? = some pr ∧ pr'.jobs.Sublist (pr.jobs ++ [s.jobs.length]) ∧
        (s.jobs.length ∈ pr'.jobs → nj.printer = some q) ∧
        (∀ k, k ≠ s.jobs.length → pr.jobs.head? = some k → pr'.jobs.head? = some k)) ∨
      (s.printers.length = q ∧ pr'.jobs.Sublist [s.jobs.length] ∧ nj.printer = some q))
    (PL : s.printers.length ≤ s'.printers.length)
    (NP : ∀ p, nj.printer = some p → p < s'.printers.length)
    (N1 : nj.printer = none → nj.status = .PRINTER_ERROR)
    (N2 : nj.printer ≠ none → nj.status = .WAITING)
    (N3 : nj.tid.pc = .START ∨ nj.tid.pc = .EXITED)
    (C : ∀ (k : Nat) (cl' : client_t), s'.clients[k]? = some cl' →
      ∃ cl, s.clients[k]? = some cl ∧ cl'.jobs ⊆ cl.jobs ++ [s.jobs.length])
    (CL : s'.client_list = s.client_list) (CN : s'.clients.length = s.clients.length) :
    Inv s' := by
  have old : ∀ (k : Nat) (jobk : job_t), s'.jobs[k]? = some jobk →
      (s.jobs[k]? = some jobk) ∨ (k = s.jobs.length ∧ jobk = nj) := by
    intro k jobk hk
    rw [J, List.getElem?_append] at hk
    split_ifs at hk with hlt
    · exact Or.inl hk
    · right
      have hk1 : k - s.jobs.length = 0 := by
        by_contra hc
        have : [nj][k - s.jobs.length]? = none := List.getElem?_eq_none (by simp; omega)
        rw [this] at hk; cases hk
      rw [hk1] at hk
      simp at hk
      exact ⟨by omega, hk.symm⟩
  have keep : ∀ (k : Nat) (jobk : job_t), s.jobs[k]? = some jobk → s'.jobs[k]? = some jobk := by
    intro k jobk hk
    rw [J, List.getElem?_append_left (lookup_lt hk)]
    exact hk
  have hnew : s'.jobs[s.jobs.length]? = some nj := by
    rw [J, List.getElem?_append_right (Nat.le_refl _)]
    simp
  constructor
  · intro k jobk q hk hq
    rcases old k jobk hk with h | ⟨_, rfl⟩
    · exact Nat.lt_of_lt_of_le (hI.printer_valid k jobk q h hq) PL
    · exact NP q hq
  · intro k jobk hk hq
    rcases old k jobk hk with h | ⟨_, rfl⟩
    · exact hI.no_printer k jobk h hq
    · exact N1 hq
  · intro q pr' x hq hx
    rcases P q pr' hq with ⟨pr, hpr, hsub, hnewq, _⟩ | ⟨_, hsub, hnq⟩
    · by_cases hxn : x = s.jobs.length
      · subst hxn
        exact ⟨nj, hnew, hnewq hx⟩
      · have hx' : x ∈ pr.jobs := by
          have := hsub.subset hx
          simp only [List.mem_append, List.mem_singleton] at this
          rcases this with h | h
          · exact h
          · exact absurd h hxn
        obtain ⟨jobx, hjx, hpx⟩ := hI.queue_job q pr x hpr hx'
        exact ⟨jobx, keep x jobx hjx, hpx⟩
    · have := hsub.subset hx
      simp only [List.mem_singleton] at this
      subst this
      exact ⟨nj, hnew, hnq⟩
  · intro q pr' hq
    rcases P q pr' hq with ⟨pr, hpr, hsub, _, _⟩ | ⟨_, hsub, _⟩
    · refine List.Pairwise.sublist hsub ?_
      rw [List.pairwise_append]
      refine ⟨hI.queue_sorted q pr hpr, List.pairwise_singleton _ _, ?_⟩
      intro a ha b hb
      simp only [List.mem_singleton] at hb
      subst hb
      obtain ⟨joba, hja, _⟩ := hI.queue_job q pr a hpr ha
      exact lookup_lt hja
    · exact List.Pairwise.sublist hsub (List.pairwise_singleton _ _)
  · intro k cl' x hk hx
    obtain ⟨cl, hcl, hsub⟩ := C k cl' hk
    have := hsub hx
    simp only [List.mem_append, List.mem_singleton] at this
    rw [J, List.length_append, List.length_singleton]
    rcases this with h | h
    · have := hI.index_valid k cl x hcl h
      omega
    · omega
  · intro k hk
    rw [CL] at hk
    rw [CN]
    exact hI.registry_valid k hk
  · intro k jobk hk hq he
    rcases old k jobk hk with h | ⟨_, rfl⟩
    · exact hI.early k jobk h hq he
    · exact Or.inl (N2 hq)
  · intro k jobk hk hq he
    rcases old k jobk hk with h | ⟨_, rfl⟩
    · exact hI.set_waiting k jobk h hq he
    · rcases N3 with h | h <;> rw [h] at he <;> cases he
  · intro k jobk q pr' hk hq hpr' he hc
    rcases old k jobk hk with h | ⟨_, rfl⟩
    · rcases P q pr' hpr' with ⟨pr, hpr, _, _, hhead⟩ | ⟨hlen, _, _⟩
      · have hkl : k ≠ s.jobs.length := Nat.ne_of_lt (lookup_lt h)
        exact hhead k hkl (hI.turn k jobk q pr h hq hpr he hc)
      · have := hI.printer_valid k jobk q h hq
        omega
    · rcases N3 with h | h <;> rw [h] at he <;> cases he

theorem print_cmd_fct_client {env : Env} {s s' : State} {c : Nat} {args : List String}
    {r : String} (h : print_cmd_fct env s c args = some (s', r)) (hargs : args.length = 3) :
    ∃ client, s.clients[c]? = some client := by
  cases hc : s.clients[c]? with
  | some client => exact ⟨client, rfl⟩
  | none =>
    unfold print_cmd_fct at h
    simp only [invalid_arg_count, hargs, hc] at h
    norm_num at h
    cases h

/-- The registry after an accepted `print` command, record by record. -/
theorem print_printers {s : State} (hI : Inv s) (env : Env) (printer_id : Int) (created : Bool) :
    (∀ (q : Nat) (pr' : printer_t),
      (match (resolve_printer env s.printers printer_id).2.1 with
        | none => (resolve_printer env s.printers printer_id).1
        | some p => (resolve_printer env s.printers printer_id).1.modify
            (fun pr => { pr with jobs := print_link s.jobs.length created pr.jobs }) p)[q]?
        = some pr' →
      (∃ pr, s.printers[q]? = some pr ∧ pr'.id = pr.id ∧
        pr'.jobs.Sublist (pr.jobs ++ [s.jobs.length]) ∧
        (s.jobs.length ∈ pr'.jobs → (resolve_printer env s.printers printer_id).2.1 = some q) ∧
        (∀ k, k ≠ s.jobs.length → pr.jobs.head? = some k → pr'.jobs.head? = some k)) ∨
      (s.printers.length = q ∧ pr'.jobs.Sublist [s.jobs.length] ∧
        (resolve_printer env s.printers printer_id).2.1 = some q)) ∧
    (∀ (q : Nat) (pr : printer_t), s.printers[q]? = some pr →
      ∃ pr', (match (resolve_printer env s.printers printer_id).2.1 with
        | none => (resolve_printer env s.printers printer_id).1
        | some p => (resolve_printer env s.printers printer_id).1.modify
            (fun pr => { pr with jobs := print_link s.jobs.length created pr.jobs }) p)[q]?
        = some pr' ∧ pr'.id = pr.id) ∧
    s.printers.length ≤
      (match (resolve_printer env s.printers printer_id).2.1 with
        | none => (resolve_printer env s.printers printer_id).1
        | some p => (resolve_printer env s.printers printer_id).1.modify
            (fun pr => { pr with jobs := print_link s.jobs.length created pr.jobs }) p).length ∧
    (∀ p, (resolve_printer env s.printers printer_id).2.1 = some p →
      p < (match (resolve_printer env s.printers printer_id).2.1 with
        | none => (resolve_printer env s.printers printer_id).1
        | some p => (resolve_printer env s.printers printer_id).1.modify
            (fun pr => { pr with jobs := print_link s.jobs.length created pr.jobs }) p).length) := by
  have fresh : ∀ (q : Nat) (pr : printer_t), s.printers[q]? = some pr → s.jobs.length ∉ pr.jobs := by
    intro q pr hq hm
    obtain ⟨_, hj, _⟩ := hI.queue_job q pr _ hq hm
    exact absurd (lookup_lt hj) (by omega)
  have same : ∀ (q p : Nat) (pr : printer_t), s.printers[q]? = some pr →
      (∃ pr0, s.printers[q]? = some pr0 ∧ pr.id = pr0.id ∧
        pr.jobs.Sublist (pr0.jobs ++ [s.jobs.length]) ∧
        (s.jobs.length ∈ pr.jobs → p = q) ∧
        (∀ k, k ≠ s.jobs.length → pr0.jobs.head? = some k → pr.jobs.head? = some k)) := by
    intro q p pr hq
    exact ⟨pr, hq, rfl, List.sublist_append_left _ _, fun hm => absurd hm (fresh q pr hq),
      fun _ _ h => h⟩
  rcases resolve_printer_cases env s.printers printer_id with hr | ⟨p, pr0, hp0, _, hr⟩ | ⟨_, hr⟩
  · rw [hr]
    refine ⟨fun q pr' hq => Or.inl ?_, fun q pr hq => ⟨pr, hq, rfl⟩, Nat.le_refl _,
      fun p hp => by cases hp⟩
    obtain ⟨pr, h1, h2, h3, h4, h5⟩ := same q 0 pr' hq
    exact ⟨pr, h1, h2, h3, fun hm => absurd hm (fresh q pr' hq), h5⟩
  · rw [hr]
    simp only [List.length_modify]
    refine ⟨fun q pr' hq => Or.inl ?_, fun q pr hq => ?_, Nat.le_refl _,
      fun p' hp' => by cases hp'; exact lookup_lt hp0⟩
    · rw [List.getElem?_modify] at hq
      cases hq0 : s.printers[q]? with
      | none => simp [hq0] at hq
      | some pr =>
        simp only [hq0, Option.map_eq_map, Option.map_some', Option.some.injEq] at hq
        by_cases hpq : p = q
        · rw [if_pos hpq] at hq
          subst hq
          exact ⟨pr, rfl, rfl, print_link_sublist _ _ _, fun _ => by rw [hpq],
            fun k hk h => print_link_head _ _ _ k hk h⟩
        · rw [if_neg hpq] at hq
          subst hq
          obtain ⟨pr1, h1, h2, h3, h4, h5⟩ := same q p pr hq0
          rw [hq0] at h1; cases h1
          exact ⟨pr, rfl, h2, h3, fun hm => absurd hm (fresh q pr hq0), h5⟩
    · rw [List.getElem?_modify, hq]
      by_cases hpq : p = q
      · simp [hpq]
      · simp [hpq]
  · rw [hr]
    simp only [List.length_modify, List.length_append, List.length_singleton]
    refine ⟨fun q pr' hq => ?_, fun q pr hq => ?_, by omega,
      fun p' hp' => by cases hp'; omega⟩
    · rw [List.getElem?_modify, List.getElem?_append] at hq
      by_cases hlt : q < s.printers.length
      · left
        rw [if_pos hlt] at hq
        cases hq0 : s.printers[q]? with
        | none => simp [hq0] at hq
        | some pr =>
          have hne : ¬ s.printers.length = q := by omega
          simp only [hq0, Option.map_eq_map, Option.map_some', Option.some.injEq, if_neg hne]
            at hq
          subst hq
          exact ⟨pr, rfl, rfl, List.sublist_append_left _ _,
            fun hm => absurd hm (fresh q pr hq0), fun _ _ h => h⟩
      · right
        rw [if_neg hlt] at hq
        by_cases hq1 : q = s.printers.length
        · subst hq1
          simp only [Nat.sub_self, List.getElem?_cons_zero, Option.map_eq_map, Option.map_some',
            if_true, Option.some.injEq] at hq
          subst hq
          exact ⟨rfl, by simpa [init_printer] using print_link_sublist _ _ [], rfl⟩
        · have : [init_printer printer_id][q - s.printers.length]? = none :=
            List.getElem?_eq_none (by simp; omega)
          rw [this] at hq
          simp at hq
    · have hlt := lookup_lt hq
      have hne : ¬ s.printers.length = q := by omega
      rw [List.getElem?_modify, List.getElem?_append_left hlt, hq]
      simp [hne]

theorem print_job_status (env : Env) (s : State) (c : Nat) (client : client_t)
    (args : List String) :
    ((print_job env s c client args).printer = none →
      (print_job env s c client args).status = .PRINTER_ERROR) ∧
    ((print_job env s c client args).printer ≠ none →
      (print_job env s c client args).status = .WAITING) ∧
    ((print_job env s c client args).tid.pc = .START ∨
      (print_job env s c client args).tid.pc = .EXITED) := by
  unfold print_job
  refine ⟨?_, ?_, ?_⟩
  · rcases resolve_printer_cases env s.printers (atoi (args.getD 1 "")) with
      hr | ⟨p, pr0, _, _, hr⟩ | ⟨_, hr⟩ <;> rw [hr] <;> simp
  · rcases resolve_printer_cases env s.printers (atoi (args.getD 1 "")) with
      hr | ⟨p, pr0, _, _, hr⟩ | ⟨_, hr⟩ <;> rw [hr] <;> simp
  · simp only
    split_ifs
    · exact Or.inl rfl
    · exact Or.inr rfl

theorem inv_print {s s' : State} (hI : Inv s) {env : Env} {c : Nat} {args : List String}
    {r : String} (h : print_cmd_fct env s c args = some (s', r)) : Inv s' := by
  by_cases hargs : args.length = 3
  · obtain ⟨client, hc⟩ := print_cmd_fct_client h hargs
    rw [print_cmd_fct_eq env s c args client hargs hc] at h
    simp only [Option.some.injEq, Prod.mk.injEq] at h
    obtain ⟨h, -⟩ := h
    subst h
    obtain ⟨P, _, PL, NP⟩ :=
      print_printers hI env (atoi (args.getD 1 "")) (decide (env.pthread_create = 0))
    obtain ⟨N1, N2, N3⟩ := print_job_status env s c client args
    refine inv_add_job hI (print_job env s c client args) rfl ?_ PL NP N1 N2 N3 ?_ rfl ?_
    · intro q pr' hq
      rcases P q pr' hq with ⟨pr, a, _, b, c, d⟩ | ⟨a, b, c⟩
      · exact Or.inl ⟨pr, a, b, c, d⟩
      · exact Or.inr ⟨a, b, c⟩
    · intro k cl' hk
      rcases lookup_set hk with ⟨rfl, rfl⟩ | ⟨_, hk'⟩
      · exact ⟨client, hc, (print_link_sublist _ _ _).subset⟩
      · exact ⟨cl', hk', List.subset_append_left _ _⟩
    · simp
  · rw [(print_cmd_fct_args h hargs).1]; exact hI

theorem evolves_print {s s' : State} (hI : Inv s) {env : Env} {c : Nat} {args : List String}
    {r : String} (h : print_cmd_fct env s c args = some (s', r)) : Evolves s s' := by
  by_cases hargs : args.length = 3
  · obtain ⟨client, hc⟩ := print_cmd_fct_client h hargs
    rw [print_cmd_fct_eq env s c args client hargs hc] at h
    simp only [Option.some.injEq, Prod.mk.injEq] at h
    obtain ⟨h, -⟩ := h
    subst h
    obtain ⟨P, PK, _, _⟩ :=
      print_printers hI env (atoi (args.getD 1 "")) (decide (env.pthread_create = 0))
    constructor
    · intro j job hj
      refine ⟨job, ?_, rfl, rfl, rfl⟩
      simp only
      rw [List.getElem?_append_left (lookup_lt hj)]
      exact hj
    · exact PK
    · intro q pr' x hq hx
      rcases P q pr' hq with ⟨pr, a, _, b, _, _⟩ | ⟨_, b, _⟩
      · have := b.subset hx
        simp only [List.mem_append, List.mem_singleton] at this
        rcases this with h | h
        · exact Or.inr ⟨pr, a, h⟩
        · exact Or.inl (by omega)
      · have := b.subset hx
        simp only [List.mem_singleton] at this
        exact Or.inl (by omega)
  · rw [(print_cmd_fct_args h hargs).1]; exact evolves_refl s

theorem quiet_print {s s' : State} {env : Env} {c : Nat} {args : List String}
    {r : String} (h : print_cmd_fct env s c args = some (s', r)) : Quiet s s' := by
  by_cases hargs : args.length = 3
  · obtain ⟨client, hc⟩ := print_cmd_fct_client h hargs
    rw [print_cmd_fct_eq env s c args client hargs hc] at h
    simp only [Option.some.injEq, Prod.mk.injEq] at h
    obtain ⟨h, -⟩ := h
    subst h
    obtain ⟨N1, N2, _⟩ := print_job_status env s c client args
    intro k jobk hk hst
    simp only at hk
    rw [List.getElem?_append] at hk
    split_ifs at hk with hlt
    · exact ⟨jobk, hk, hst⟩
    · have hk1 : k - s.jobs.length = 0 := by
        by_contra hc
        have : [print_job env s c client args][k - s.jobs.length]? = none :=
          List.getElem?_eq_none (by simp; omega)
        rw [this] at hk; cases hk
      rw [hk1] at hk
      simp at hk
      subst hk
      by_cases hp : (print_job env s c client args).printer = none
      · rw [N1 hp] at hst; cases hst
      · rw [N2 hp] at hst; cases hst
  · rw [(print_cmd_fct_args h hargs).1]; exact quiet_refl s

theorem inv_accept_client {s : State} (hI : Inv s) : Inv (accept_client s) := by
  constructor
  · exact hI.printer_valid
  · exact hI.no_printer
  · exact hI.queue_job
  · exact hI.queue_sorted
  · intro k cl x hk hx
    simp only [PrintServer.accept_client] at hk ⊢
    rw [List.getElem?_append] at hk
    split_ifs at hk with hlt
    · exact hI.index_valid k cl x hk hx
    · by_cases hk1 : k - s.clients.length = 0
      · rw [hk1] at hk
        simp at hk
        subst hk
        simp [init_client] at hx
      · have : [init_client (s.client_count + 1)][k - s.clients.length]? = none :=
          List.getElem?_eq_none (by simp; omega)
        rw [this] at hk; cases hk
  · intro k hk
    simp only [PrintServer.accept_client, list_add_tail, List.mem_append, List.mem_singleton,
      List.length_append, List.length_singleton] at hk ⊢
    rcases hk with h | h
    · have := hI.registry_valid k h; omega
    · omega
  · exact hI.early
  · exact hI.set_waiting
  · exact hI.turn

theorem inv_client_exit {s : State} (hI : Inv s) (c : Nat) : Inv (client_exit s c) := by
  constructor
  · exact hI.printer_valid
  · exact hI.no_printer
  · exact hI.queue_job
  · exact hI.queue_sorted
  · exact hI.index_valid
  · intro k hk
    exact hI.registry_valid k ((List.erase_sublist c s.client_list).subset hk)
  · exact hI.early
  · exact hI.set_waiting
  · exact hI.turn

theorem inv_init : Inv init := by
  constructor <;> intros <;> simp_all [PrintServer.init]

/-! ### Steps and runs -/

theorem prim_chain {s s' : State} (hI : Inv s) (h : ReflTransGen Prim s s') :
    Inv s' ∧ Evolves s s' ∧ Quiet s s' := by
  induction h with
  | refl => exact ⟨hI, evolves_refl s, quiet_refl s⟩
  | tail _ hp ih =>
    obtain ⟨h1, h2, h3⟩ := ih
    exact ⟨prim_inv h1 hp, evolves_trans h2 (prim_evolves hp), quiet_trans h3 (prim_quiet h1 hp)⟩

theorem status_cmd_fct_state {s s' : State} {c : Nat} {args : List String} {r : String}
    (h : status_cmd_fct s c args = some (s', r)) : s' = s := by
  unfold status_cmd_fct at h
  repeat' split at h
  all_goals cases h <;> rfl

theorem jobs_cmd_fct_state {s s' : State} {args : List String} {r : String}
    (h : jobs_cmd_fct s args = some (s', r)) : s' = s := by
  unfold jobs_cmd_fct at h
  split at h
  · cases h; rfl
  · split_ifs at h
    all_goals (cases h; rfl)

theorem cancel_cmd_fct_chain {s s' : State} {c : Nat} {args : List String} {r : String}
    (h : cancel_cmd_fct s c args = some (s', r)) : ReflTransGen Prim s s' := by
  unfold cancel_cmd_fct at h
  split at h
  · cases h; exact ReflTransGen.refl
  · exact cancel_job_chain h

/-- Every step is a step of a worker, a `print` command, an accepted connection, the exit
of a client, or a sequence of effects of the other commands. -/
theorem step_cases {s s' : State} {l : Label} (h : step s l = some s') :
    (∃ env j, l = .worker env j ∧ s' = job_worker env s j) ∨
    (∃ env c args r, l = .command env c args ∧ args.head? = some "print" ∧
      c ∈ s.client_list ∧ print_cmd_fct env s c args = some (s', r)) ∨
    (l = .accept ∧ s' = accept_client s) ∨
    (∃ c, l = .leave c ∧ s' = client_exit s c) ∨
    (∃ env c args, l = .command env c args ∧ args.head? ≠ some "print" ∧
      ReflTransGen Prim s s') := by
  cases l with
  | accept =>
    simp only [step, Option.some.injEq] at h
    exact Or.inr (Or.inr (Or.inl ⟨rfl, h.symm⟩))
  | leave c =>
    simp only [step] at h
    split_ifs at h
    cases h
    exact Or.inr (Or.inr (Or.inr (Or.inl ⟨c, rfl, rfl⟩)))
  | worker env j =>
    simp only [step, Option.some.injEq] at h
    exact Or.inl ⟨env, j, rfl, h.symm⟩
  | command env c args =>
    simp only [step] at h
    split_ifs at h with hc
    split at h
    · cases h
    · split_ifs at h
      cases hd : dispatch env s c args with
      | none => simp [hd] at h
      | some res =>
        obtain ⟨s1, r⟩ := res
        simp only [hd, Option.map_some', Option.some.injEq] at h
        subst h
        unfold dispatch at hd
        split at hd
        · cases hd
        · rename_i verb rest
          split_ifs at hd with h1 h2 h3 h4 h5 h6
          · exact Or.inr (Or.inl ⟨env, c, _, r, rfl, by simp [h1], hc, hd⟩)
          · refine Or.inr (Or.inr (Or.inr (Or.inr ⟨env, c, _, rfl, by simp [h1], ?_⟩)))
            rw [status_cmd_fct_state hd]
          · exact Or.inr (Or.inr (Or.inr (Or.inr ⟨env, c, _, rfl, by simp [h1],
              invoice_cmd_fct_chain hd⟩)))
          · exact Or.inr (Or.inr (Or.inr (Or.inr ⟨env, c, _, rfl, by simp [h1],
              cancel_cmd_fct_chain hd⟩)))
          · refine Or.inr (Or.inr (Or.inr (Or.inr ⟨env, c, _, rfl, by simp [h1], ?_⟩)))
            rw [jobs_cmd_fct_state hd]
          · exact Or.inr (Or.inr (Or.inr (Or.inr ⟨env, c, _, rfl, by simp [h1],
              quit_cmd_fct_chain hd⟩)))
          · cases hd
            exact Or.inr (Or.inr (Or.inr (Or.inr ⟨env, c, _, rfl, by simp [h1],
              ReflTransGen.refl⟩)))

theorem step_inv {s s' : State} {l : Label} (hI : Inv s) (h : step s l = some s') : Inv s' := by
  rcases step_cases h with ⟨env, j, _, rfl⟩ | ⟨env, c, args, r, _, _, _, hp⟩ | ⟨_, rfl⟩ |
    ⟨c, _, rfl⟩ | ⟨env, c, args, _, _, hch⟩
  · exact inv_job_worker hI env j
  · exact inv_print hI hp
  · exact inv_accept_client hI
  · exact inv_client_exit hI c
  · exact (prim_chain hI hch).1

theorem step_evolves {s s' : State} {l : Label} (hI : Inv s) (h : step s l = some s') :
    Evolves s s' := by
  rcases step_cases h with ⟨env, j, _, rfl⟩ | ⟨env, c, args, r, _, _, _, hp⟩ | ⟨_, rfl⟩ |
    ⟨c, _, rfl⟩ | ⟨env, c, args, _, _, hch⟩
  · exact evolves_job_worker env s j
  · exact evolves_print hI hp
  · exact evolves_of_eq rfl rfl
  · exact evolves_of_eq rfl rfl
  · exact (prim_chain hI hch).2.1

/-- A job becomes IN_PROGRESS only by the step of its own worker at the program
point SET. -/
theorem step_enters {s s' : State} {l : Label} (hI : Inv s) (h : step s l = some s')
    (j : Nat) (job' : job_t) (hj : s'.jobs[j]? = some job') (hs : job'.status = .IN_PROGRESS) :
    (∃ job, s.jobs[j]? = some job ∧ job.status = .IN_PROGRESS) ∨
    (∃ env job, l = .worker env j ∧ s.jobs[j]? = some job ∧ job.tid.pc = .SET ∧
      job.printer ≠ none) := by
  rcases step_cases h with ⟨env, k, rfl, rfl⟩ | ⟨env, c, args, r, _, _, _, hp⟩ | ⟨_, rfl⟩ |
    ⟨c, _, rfl⟩ | ⟨env, c, args, _, _, hch⟩
  · rcases job_worker_enters env s k j job' hj hs with h | ⟨rfl, job, h1, h2, h3⟩
    · exact Or.inl h
    · exact Or.inr ⟨env, job, rfl, h1, h2, h3⟩
  · exact Or.inl (quiet_print hp j job' hj hs)
  · exact Or.inl ⟨job', hj, hs⟩
  · exact Or.inl ⟨job', hj, hs⟩
  · exact Or.inl ((prim_chain hI hch).2.2 j job' hj hs)

theorem run_inv : ∀ {ls : List Label} {s s' : State}, Inv s → run s ls = some s' → Inv s'
  | [], s, s', hI, h => by
    simp only [run, Option.some.injEq] at h
    subst h; exact hI
  | l :: ls, s, s', hI, h => by
    simp only [run] at h
    split at h
    · cases h
    · rename_i s1 hs1
      exact run_inv (step_inv hI hs1) h

theorem run_evolves : ∀ {ls : List Label} {s s' : State}, Inv s → run s ls = some s' →
    Evolves s s'
  | [], s, s', hI, h => by
    simp only [run, Option.some.injEq] at h
    subst h; exact evolves_refl s
  | l :: ls, s, s', hI, h => by
    simp only [run] at h
    split at h
    · cases h
    · rename_i s1 hs1
      exact evolves_trans (step_evolves hI hs1) (run_evolves (step_inv hI hs1) h)

theorem reachable_inv {s : State} (h : Reachable s) : Inv s := by
  obtain ⟨ls, hls⟩ := h
  exact run_inv inv_init hls

/-! ### The worker on its own -/

theorem split_line_length : ∀ (fd : List Char), fd ≠ [] →
    (split_line fd).1.length + (split_line fd).2.length = fd.length ∧
      1 ≤ (split_line fd).1.length
  | [], h => absurd rfl h
  | c :: cs, _ => by
    unfold split_line
    split_ifs
    · exact ⟨by simp only [List.length_cons, List.length_nil]; omega, by simp⟩
    · cases cs with
      | nil => simp [split_line]
      | cons d ds =>
        obtain ⟨h1, h2⟩ := split_line_length (d :: ds) (by simp)
        simp only [List.length_cons] at h1 ⊢
        omega

theorem strlen_cut_length (l : List Char) : (strlen_cut l).length ≤ l.length := by
  unfold strlen_cut
  exact (List.takeWhile_sublist _).length_le

/-- Past the turn loop every step of the worker brings it nearer to its return. -/
theorem worker_measure_step (env : Env) (j : Nat) (job : job_t) (pr : printer_t)
    (hlate : job.tid.pc.early = false) :
    (job_worker_step env j job pr).1.tid.pc.early = false ∧
    (job.tid.pc = .EXITED ∨
      worker_measure (job_worker_step env j job pr).1 < worker_measure job) := by
  unfold job_worker_step
  cases hpc : job.tid.pc <;> simp only [hpc, pc_t.early] at hlate <;> try (cases hlate)
  · -- GETLINE
    simp only
    split_ifs
    · simp [worker_measure, pc_t.early, hpc]
    · cases hfd : job.fd with
      | nil => simp [getline, worker_measure, pc_t.early, hpc]
      | cons c cs =>
        obtain ⟨h1, h2⟩ := split_line_length (c :: cs) (by simp)
        have h3 := strlen_cut_length (split_line (c :: cs)).1
        simp only [getline, worker_measure, pc_t.early, hpc, hfd]
        refine ⟨trivial, Or.inr ?_⟩
        simp only [List.length_cons] at h1 ⊢
        omega
  · -- CHAR
    simp only
    cases hl : job.tid.line with
    | nil => simp [worker_measure, pc_t.early, hpc, hl]
    | cons c cs =>
      simp only
      split_ifs <;> simp [worker_measure, pc_t.early, hpc, hl] <;> omega
  · -- POLL
    simp only
    split_ifs <;> simp [worker_measure, pc_t.early, hpc]
    omega
  · simp [worker_measure, pc_t.early, hpc]
  · simp only
    split_ifs <;> simp [worker_measure, pc_t.early, hpc]
  · simp [worker_measure, pc_t.early, hpc]

theorem worker_steps_exited (env : Env) (j : Nat) :
    ∀ (n : Nat) (job : job_t) (pr : printer_t), job.tid.pc = .EXITED →
      worker_steps env j n (job, pr) = (job, pr)
  | 0, _, _, _ => rfl
  | n + 1, job, pr, h => by
    have : job_worker_step env j job pr = (job, pr) := by
      unfold job_worker_step; simp [h]
    simp only [worker_steps, this]
    exact worker_steps_exited env j n job pr h

theorem worker_steps_return (env : Env) (j : Nat) :
    ∀ (n : Nat) (job : job_t) (pr : printer_t), job.tid.pc.early = false →
      worker_measure job ≤ n → (worker_steps env j n (job, pr)).1.tid.pc = .EXITED
  | 0, job, pr, hl, hn => by
    simp only [worker_steps]
    unfold worker_measure at hn
    cases hpc : job.tid.pc <;> simp only [hpc, pc_t.early] at hl hn ⊢ <;>
      first | (exfalso; omega) | rfl | cases hl
  | n + 1, job, pr, hl, hn => by
    obtain ⟨h1, h2⟩ := worker_measure_step env j job pr hl
    simp only [worker_steps]
    rcases h2 with h | h
    · have : job_worker_step env j job pr = (job, pr) := by
        unfold job_worker_step; simp [h]
      rw [this, worker_steps_exited env j n job pr h]
      exact h
    · have hm : worker_measure (job_worker_step env j job pr).1 ≤ n := by omega
      exact worker_steps_return env j n (job_worker_step env j job pr).1
        (job_worker_step env j job pr).2 h1 hm

theorem worker_measure_le (job : job_t) : worker_measure job ≤ join_fuel job := by
  unfold worker_measure join_fuel
  cases job.tid.pc <;> simp only <;> omega

/-- The run of a worker in the state is its run on its job and its printer. -/
theorem run_worker_eq (env : Env) (j p : Nat) :
    ∀ (n : Nat) (s : State) (job : job_t) (pr : printer_t), s.jobs[j]? = some job →
      job.printer = some p → s.printers[p]? = some pr →
      run_worker env n s j =
        { s with
          jobs := s.jobs.set j (worker_steps env j n (job, pr)).1,
          printers := s.printers.set p (worker_steps env j n (job, pr)).2 }
  | 0, s, job, pr, hj, hp, hpr => by
    simp only [run_worker, worker_steps, set_same hj, set_same hpr]
  | n + 1, s, job, pr, hj, hp, hpr => by
    simp only [run_worker, worker_steps]
    by_cases hpc : job.tid.pc = .EXITED
    · have h1 : job_worker env s j = s := by simp [job_worker, hj, hpc]
      have h2 : job_worker_step env j job pr = (job, pr) := by
        unfold job_worker_step; simp [hpc]
      rw [h1, h2]
      exact run_worker_eq env j p n s job pr hj hp hpr
    · rw [job_worker_eq hj hpc hp hpr]
      have hp' : (job_worker_step env j job pr).1.printer = some p := by
        rw [(job_worker_step_fields env j job pr).1]; exact hp
      rw [run_worker_eq env j p n _ (job_worker_step env j job pr).1
        (job_worker_step env j job pr).2 (lookup_set_self _ hj) hp' (lookup_set_self _ hpr)]
      simp [List.set_set]

/-! ### The commands return -/

theorem find_job_some {s : State} {index : List Nat} {job_id : Int} {j : Nat}
    (h : find_job s index job_id = some j) :
    j ∈ index ∧ ∃ job, s.jobs[j]? = some job ∧ job.id = job_id := by
  unfold find_job at h
  refine ⟨List.mem_of_find?_eq_some h, ?_⟩
  have := List.find?_some h
  cases hj : s.jobs[j]? with
  | none => simp [hj] at this
  | some job =>
    simp only [hj, beq_iff_eq] at this
    exact ⟨job, rfl, this⟩

theorem run_worker_exited (env : Env) (j : Nat) :
    ∀ (n : Nat) (s : State) (job : job_t), s.jobs[j]? = some job → job.tid.pc = .EXITED →
      run_worker env n s j = s
  | 0, _, _, _, _ => rfl
  | n + 1, s, job, hj, hpc => by
    have h1 : job_worker env s j = s := by simp [job_worker, hj, hpc]
    simp only [run_worker, h1]
    exact run_worker_exited env j n s job hj hpc

/-- The call `pthread_join` returns when the status of the job is neither WAITING nor
CANCELED: its worker is past the turn loop and ends after finitely many steps. -/
theorem pthread_join_returns {s : State} (hI : Inv s) (env : Env) {j : Nat} {job : job_t}
    (hj : s.jobs[j]? = some job) (h1 : job.status ≠ .WAITING) (h2 : job.status ≠ .CANCELED) :
    ∃ s', pthread_join env s j = some s' := by
  unfold pthread_join
  simp only [hj]
  cases hp : job.printer with
  | none =>
    have hrun : ∃ job', (run_worker env (join_fuel job) s j).jobs[j]? = some job' ∧
        job'.tid.pc = .EXITED := by
      obtain ⟨m, hm⟩ : ∃ m, join_fuel job = m + 1 := ⟨join_fuel job - 1, by unfold join_fuel; omega⟩
      rw [hm]
      show ∃ job', (run_worker env m (job_worker env s j) j).jobs[j]? = some job' ∧
        job'.tid.pc = .EXITED
      by_cases hpc : job.tid.pc = .EXITED
      · have h1 : job_worker env s j = s := by simp [job_worker, hj, hpc]
        rw [h1, run_worker_exited env j _ s job hj hpc]
        exact ⟨job, hj, hpc⟩
      · have h1 : job_worker env s j =
            { s with jobs := s.jobs.set j { job with tid := { job.tid with pc := .EXITED } } } := by
          simp [job_worker, hj, hpc, hp]
        rw [h1, run_worker_exited env j _ _ _ (lookup_set_self _ hj) rfl]
        exact ⟨_, lookup_set_self _ hj, rfl⟩
    obtain ⟨job', hj', hpc'⟩ := hrun
    simp [hj', hpc']
  | some p =>
    obtain ⟨pr, hpr⟩ := inv_printer_record hI hj hp
    have hne : job.printer ≠ none := by rw [hp]; simp
    have hlate : job.tid.pc.early = false := by
      by_contra hc
      rcases hI.early j job hj hne (by simpa using hc) with h | h
      · exact h1 h
      · exact h2 h
    rw [run_worker_eq env j p _ s job pr hj hp hpr]
    simp only [lookup_set_self _ hj]
    rw [if_pos (worker_steps_return env j _ job pr hlate (worker_measure_le job))]
    exact ⟨_, rfl⟩

theorem invoice_settle_returns {s : State} (hI : Inv s) (env : Env) {j : Nat} {job : job_t}
    (hj : s.jobs[j]? = some job) : ∃ s1, invoice_settle env s j job = some s1 := by
  unfold invoice_settle
  split_ifs with hst
  · obtain ⟨p, pr, hp, hpr⟩ := inv_has_printer hI hj (by rcases hst with h | h <;> rw [h] <;> decide)
    simp only [hp, hpr]
    exact ⟨_, rfl⟩
  · push_neg at hst
    exact pthread_join_returns hI env hj hst.1 hst.2

theorem invoice_reply_returns {s : State} (hI : Inv s) {j : Nat} {job : job_t}
    (hj : s.jobs[j]? = some job) : ∃ r, invoice_reply s job = some r := by
  unfold invoice_reply
  split_ifs with hst
  · exact ⟨_, rfl⟩
  · obtain ⟨p, pr, hp, hpr⟩ := inv_has_printer hI hj hst
    simp only [hp, hpr]
    exact ⟨_, rfl⟩

/-- The command `invoice` on a job of the index returns, in every reachable state. -/
theorem invoice_cmd_fct_returns {s : State} (hI : Inv s) (env : Env) {c : Nat}
    {args : List String} {client : client_t} {j : Nat}
    (hargs : args.length = 2) (hc : s.clients[c]? = some client)
    (hf : find_job s client.jobs (atoi (args.getD 1 "")) = some j) :
    ∃ s' reply, invoice_cmd_fct env s c args = some (s', reply) := by
  obtain ⟨_, job, hj, _⟩ := find_job_some hf
  obtain ⟨s1, hs1⟩ := invoice_settle_returns hI env hj
  obtain ⟨hI1, hE1, _⟩ := prim_chain hI (invoice_settle_chain hj hs1)
  obtain ⟨job1, hj1, _⟩ := hE1.jobs_kept j job hj
  obtain ⟨r, hr⟩ := invoice_reply_returns hI1 hj1
  unfold invoice_cmd_fct
  simp only [invalid_arg_count, hargs, hc, hf]
  norm_num
  simp only [hj, hs1, hj1, hr]
  exact ⟨_, _, rfl⟩

/-! ### Claims on `invoice` and `cancel` -/

/-- C9. In every reachable state the command `invoice` on a job of the client's index
returns, and its reply ends with the page count of the job and the total: for a page
count in the range of `int` the total is `0.00` when the status is FILE_ERROR or
PRINTER_ERROR and otherwise exactly five hundredths per page, written with two
decimals. -/
theorem invoice_pages_and_total (env : Env) (s : State) (c : Nat) (args : List String)
    (client : client_t) (j : Nat) (hR : Reachable s)
    (hargs : args.length = 2) (hc : s.clients[c]? = some client)
    (hf : find_job s client.jobs (atoi (args.getD 1 "")) = some j) :
    ∃ s' reply job lead, invoice_cmd_fct env s c args = some (s', reply) ∧
      s'.jobs[j]? = some job ∧
      (lead = "  Job " ++ fmt_d job.id ++ ": status '" ++ get_status job.status ∨
        ∃ pid : Int, lead = "  Job " ++ fmt_d job.id ++ ", printer " ++ fmt_d pid ++ ": status '"
          ++ get_status job.status) ∧
      reply = lead ++ "', printed " ++ fmt_d job.page_count ++ " pages. "
        ++ fmt_2f (invoice_total job) ++ " total.\n" ∧
      (-2 ^ 31 ≤ job.page_count → job.page_count < 2 ^ 31 →
        fmt_2f (invoice_total job) =
          if job.status = .FILE_ERROR ∨ job.status = .PRINTER_ERROR then "0.00"
          else cents_text (5 * job.page_count)) := by
  obtain ⟨s', reply, h⟩ := invoice_cmd_fct_returns (reachable_inv hR) env hargs hc hf
  obtain ⟨job0, s1, job, -, -, hj1, hr, hs'⟩ :=
    invoice_cmd_fct_found env s s' c args client j reply hargs hc hf h
  have hj' : s'.jobs[j]? = some job := by rw [hs']; exact hj1
  have htot : -2 ^ 31 ≤ job.page_count → job.page_count < 2 ^ 31 →
      fmt_2f (invoice_total job) =
        (if job.status = .FILE_ERROR ∨ job.status = .PRINTER_ERROR then "0.00"
          else cents_text (5 * job.page_count)) := by
    intro hlo hhi
    unfold invoice_total
    by_cases he : job.status = .FILE_ERROR ∨ job.status = .PRINTER_ERROR
    · have : ¬ (job.status ≠ .FILE_ERROR ∧ job.status ≠ .PRINTER_ERROR) := by tauto
      rw [if_neg this, if_pos he]
      decide
    · have : job.status ≠ .FILE_ERROR ∧ job.status ≠ .PRINTER_ERROR := by tauto
      rw [if_pos this, if_neg he]
      exact fmt_2f_page_price job.page_count hlo hhi
  unfold invoice_reply at hr
  by_cases hpe : job.status = .PRINTER_ERROR
  · rw [if_pos hpe] at hr
    exact ⟨s', reply, job, _, h, hj', Or.inl rfl, (Option.some.inj hr).symm, htot⟩
  · rw [if_neg hpe] at hr
    cases hp : job.printer with
    | none => simp [hp] at hr
    | some p =>
      simp only [hp] at hr
      cases hpr : s1.printers[p]? with
      | none => simp [hpr] at hr
      | some pr =>
        simp only [hpr] at hr
        exact ⟨s', reply, job, _, h, hj', Or.inr ⟨pr.id, rfl⟩, (Option.some.inj hr).symm, htot⟩

set_option maxRecDepth 100000 in
theorem invoice_pages_and_total_witness :
    Reachable (state_after finished_run) ∧
    ∃ s' reply job lead,
      invoice_cmd_fct env_up (state_after finished_run) 0 ["invoice", "1"] = some (s', reply) ∧
      s'.jobs[0]? = some job ∧
      (lead = "  Job " ++ fmt_d job.id ++ ": status '" ++ get_status job.status ∨
        ∃ pid : Int, lead = "  Job " ++ fmt_d job.id ++ ", printer " ++ fmt_d pid ++ ": status '"
          ++ get_status job.status) ∧
      reply = lead ++ "', printed " ++ fmt_d job.page_count ++ " pages. "
        ++ fmt_2f (invoice_total job) ++ " total.\n" ∧
      (-2 ^ 31 ≤ job.page_count → job.page_count < 2 ^ 31 →
        fmt_2f (invoice_total job) =
          if job.status = .FILE_ERROR ∨ job.status = .PRINTER_ERROR then "0.00"
          else cents_text (5 * job.page_count)) :=
  ⟨⟨finished_run, by decide⟩,
   invoice_pages_and_total env_up (state_after finished_run) 0 ["invoice", "1"]
     { jobs := [0], job_counter := 1, id := 1, quit := 0 } 0 ⟨finished_run, by decide⟩
     (by decide) (by decide) (by decide)⟩

set_option maxRecDepth 100000 in
/-- C10, as stated, fails: a job whose printer record is known (device 7) and that ended in
PRINTER_ERROR because the device went away while the job was printed gets an invoice
without the printer id. -/
theorem invoice_omits_known_printer :
    (state_after lost_run).jobs[0]?.map (fun job => (job.printer, job.status)) =
      some (some 0, status_e.PRINTER_ERROR) ∧
    (state_after lost_run).printers[0]?.map (fun pr => pr.id) = some 7 ∧
    (invoice_cmd_fct env_up (state_after lost_run) 0 ["invoice", "1"]).map (fun r => r.2) =
      some "  Job 1: status 'printer error', printed 1 pages. 0.00 total.\n" := by
  decide

/-- C10, amended. In every reachable state the reply of `invoice` for a job of the index
omits the printer id exactly when the status of the job is PRINTER_ERROR, whether or not
the job has a printer record; for every other status the job has a printer record and the
reply starts with `  Job <id>, printer <pid>: status` with the id of that record. -/
theorem invoice_printer_id (env : Env) (s : State) (c : Nat) (args : List String)
    (client : client_t) (j : Nat) (hR : Reachable s)
    (hargs : args.length = 2) (hc : s.clients[c]? = some client)
    (hf : find_job s client.jobs (atoi (args.getD 1 "")) = some j) :
    ∃ s' reply job, invoice_cmd_fct env s c args = some (s', reply) ∧
      s'.jobs[j]? = some job ∧
      (job.status = .PRINTER_ERROR →
        reply = "  Job " ++ fmt_d job.id ++ ": status '" ++ get_status job.status
          ++ "', printed " ++ fmt_d job.page_count ++ " pages. "
          ++ fmt_2f (invoice_total job) ++ " total.\n") ∧
      (job.status ≠ .PRINTER_ERROR →
        ∃ p pr, job.printer = some p ∧ s'.printers[p]? = some pr ∧
          reply = "  Job " ++ fmt_d job.id ++ ", printer " ++ fmt_d pr.id ++ ": status '"
            ++ get_status job.status ++ "', printed " ++ fmt_d job.page_count ++ " pages. "
            ++ fmt_2f (invoice_total job) ++ " total.\n") := by
  obtain ⟨s', reply, h⟩ := invoice_cmd_fct_returns (reachable_inv hR) env hargs hc hf
  obtain ⟨job0, s1, job, -, -, hj1, hr, hs'⟩ :=
    invoice_cmd_fct_found env s s' c args client j reply hargs hc hf h
  have hj' : s'.jobs[j]? = some job := by rw [hs']; exact hj1
  have hpr' : s'.printers = s1.printers := by rw [hs']
  refine ⟨s', reply, job, h, hj', ?_, ?_⟩
  · intro hpe
    unfold invoice_reply at hr
    rw [if_pos hpe] at hr
    exact (Option.some.inj hr).symm
  · intro hpe
    unfold invoice_reply at hr
    rw [if_neg hpe] at hr
    cases hp : job.printer with
    | none => simp [hp] at hr
    | some p =>
      simp only [hp] at hr
      cases hpr : s1.printers[p]? with
      | none => simp [hpr] at hr
      | some pr =>
        simp only [hpr] at hr
        exact ⟨p, pr, rfl, by rw [hpr']; exact hpr, (Option.some.inj hr).symm⟩

set_option maxRecDepth 100000 in
theorem invoice_printer_id_witness :
    Reachable (state_after lost_run) ∧
    ∃ s' reply job,
      invoice_cmd_fct env_up (state_after lost_run) 0 ["invoice", "1"] = some (s', reply) ∧
      s'.jobs[0]? = some job ∧
      (job.status = .PRINTER_ERROR →
        reply = "  Job " ++ fmt_d job.id ++ ": status '" ++ get_status job.status
          ++ "', printed " ++ fmt_d job.page_count ++ " pages. "
          ++ fmt_2f (invoice_total job) ++ " total.\n") ∧
      (job.status ≠ .PRINTER_ERROR →
        ∃ p pr, job.printer = some p ∧ s'.printers[p]? = some pr ∧
          reply = "  Job " ++ fmt_d job.id ++ ", printer " ++ fmt_d pr.id ++ ": status '"
            ++ get_status job.status ++ "', printed " ++ fmt_d job.page_count ++ " pages. "
            ++ fmt_2f (invoice_total job) ++ " total.\n") :=
  ⟨⟨lost_run, by decide⟩,
   invoice_printer_id env_up (state_after lost_run) 0 ["invoice", "1"]
     { jobs := [0], job_counter := 1, id := 1, quit := 0 } 0 ⟨lost_run, by decide⟩
     (by decide) (by decide) (by decide)⟩

set_option maxRecDepth 100000 in
/-- C4, as stated, fails for the terminal status CANCELED: `cancel_job` on a job that is
already CANCELED replies `was cancelled`, cancels the worker thread and unlinks the job
from its printer queue. -/
theorem cancel_job_cancelled_again :
    (state_after cancelled_run).jobs[0]?.map (fun job => (job.status, job.tid.pc)) =
      some (status_e.CANCELED, pc_t.GETLINE) ∧
    (state_after cancelled_run).clients[0]?.map (fun cl => cl.jobs) = some [0] ∧
    find_job (state_after cancelled_run) [0] 1 = some 0 ∧
    (state_after cancelled_run).printers.map (fun pr => pr.jobs) = [[0]] ∧
    (cancel_job (state_after cancelled_run) 1 0).map
        (fun r => (r.2, r.1.printers.map (fun pr => pr.jobs),
          r.1.jobs.map (fun job => job.tid.pc))) =
      some ("  Job 1 was cancelled.\n", [[]], [pc_t.EXITED]) := by
  decide

/-- C4, amended. For every job found in the client's index whose status is FINISHED,
PRINTER_ERROR or FILE_ERROR, `cancel_job` changes nothing and replies that the job has
already finished or is in error state; a job whose status is CANCELED is treated like a
WAITING one: the status stays CANCELED, the worker thread is cancelled, the job is
unlinked from its printer queue and the reply is `was cancelled`. -/
theorem cancel_job_terminal (s : State) (job_id : Int) (c : Nat) (client : client_t) (j : Nat)
    (job : job_t) (hc : s.clients[c]? = some client)
    (hf : find_job s client.jobs job_id = some j) (hj : s.jobs[j]? = some job) :
    (job.status = .FINISHED ∨ job.status = .PRINTER_ERROR ∨ job.status = .FILE_ERROR →
      cancel_job s job_id c =
        some (s, "  Job " ++ fmt_d job_id ++ " has already finished or is in error state.\n")) ∧
    (job.status = .CANCELED → ∀ p pr, job.printer = some p → s.printers[p]? = some pr →
      cancel_job s job_id c =
        some ({ s with
                jobs := s.jobs.set j
                  { job with status := .CANCELED, tid := pthread_cancel job.tid },
                printers := s.printers.set p { pr with jobs := list_del j pr.jobs } },
              "  Job " ++ fmt_d job_id ++ " was cancelled.\n")) := by
  obtain ⟨_, job0, hj0, hid⟩ := find_job_some hf
  rw [hj] at hj0; cases hj0
  constructor
  · intro hst
    unfold cancel_job
    simp only [hc, hf, hj]
    have h1 : job.status ≠ .IN_PROGRESS := by rcases hst with h | h | h <;> rw [h] <;> decide
    have h2 : ¬ (job.status = .WAITING ∨ job.status = .CANCELED) := by
      rcases hst with h | h | h <;> rw [h] <;> decide
    rw [if_neg h1, if_neg h2, hid]
  · intro hst p pr hp hpr
    unfold cancel_job
    simp only [hc, hf, hj, hp, hpr]
    have h1 : job.status ≠ .IN_PROGRESS := by rw [hst]; decide
    have h2 : job.status = .WAITING ∨ job.status = .CANCELED := Or.inr hst
    rw [if_neg h1, if_pos h2, hid]

set_option maxRecDepth 100000 in
theorem cancel_job_terminal_witness :
    (state_after finished_run).clients[0]? = some { jobs := [0], job_counter := 1, id := 1, quit := 0 } ∧
    find_job (state_after finished_run) [0] 1 = some 0 ∧
    cancel_job (state_after finished_run) 1 0 =
      some (state_after finished_run,
        "  Job " ++ fmt_d 1 ++ " has already finished or is in error state.\n") :=
  ⟨by decide, by decide,
   (cancel_job_terminal (state_after finished_run) 1 0
      { jobs := [0], job_counter := 1, id := 1, quit := 0 } 0
      { printer := some 0, client := 0, filename := "a", fd := [], page_count := 1,
        tid := { pc := .EXITED, aborted := false, line_count := 1, line := [] },
        id := 1, status := .FINISHED }
      (by decide) (by decide) (by decide)).1 (Or.inl rfl)⟩

/-- C6. In every reachable state, for a job found in the client's index with status
WAITING or IN_PROGRESS, `cancel_job` returns with the reply `  Job <id> was cancelled.`,
sets the status to CANCELED, keeps the page count and leaves every client record, hence
the index, as it is; for an IN_PROGRESS job every printer queue is unchanged, and a
WAITING job is removed from the queue of its printer, after which it is in no queue. -/
theorem cancel_job_active (s : State) (job_id : Int) (c : Nat) (client : client_t) (j : Nat)
    (job : job_t) (hR : Reachable s) (hc : s.clients[c]? = some client)
    (hf : find_job s client.jobs job_id = some j) (hj : s.jobs[j]? = some job)
    (hst : job.status = .WAITING ∨ job.status = .IN_PROGRESS) :
    ∃ s' job', cancel_job s job_id c = some (s', "  Job " ++ fmt_d job_id ++ " was cancelled.\n") ∧
      s'.jobs[j]? = some job' ∧ job'.status = .CANCELED ∧ job'.page_count = job.page_count ∧
      s'.clients = s.clients ∧
      (job.status = .IN_PROGRESS → s'.printers = s.printers) ∧
      (job.status = .WAITING →
        (∃ p pr, job.printer = some p ∧ s.printers[p]? = some pr ∧
          s'.printers = s.printers.set p { pr with jobs := list_del j pr.jobs }) ∧
        ∀ (q : Nat) (prq : printer_t), s'.printers[q]? = some prq → j ∉ prq.jobs) := by
  have hI := reachable_inv hR
  obtain ⟨_, job0, hj0, hid⟩ := find_job_some hf
  rw [hj] at hj0; cases hj0
  rcases hst with hst | hst
  · obtain ⟨p, pr, hp, hpr⟩ := inv_has_printer hI hj (by rw [hst]; decide)
    refine ⟨{ s with
        jobs := s.jobs.set j { job with status := .CANCELED, tid := pthread_cancel job.tid },
        printers := s.printers.set p { pr with jobs := list_del j pr.jobs } },
      { job with status := .CANCELED, tid := pthread_cancel job.tid },
      ?_, lookup_set_self _ hj, rfl, rfl, rfl, ?_, ?_⟩
    · unfold cancel_job
      simp only [hc, hf, hj, hp, hpr]
      have h1 : job.status ≠ .IN_PROGRESS := by rw [hst]; decide
      rw [if_neg h1, if_pos (Or.inl hst), hid]
    · intro h; rw [hst] at h; cases h
    · intro _
      refine ⟨⟨p, pr, hp, hpr, rfl⟩, ?_⟩
      intro q prq hq hm
      rcases lookup_set hq with ⟨rfl, rfl⟩ | ⟨hqp, hq'⟩
      · have hnd : pr.jobs.Nodup := (hI.queue_sorted q pr hpr).imp (fun h => Nat.ne_of_lt h)
        exact List.Nodup.not_mem_erase hnd hm
      · obtain ⟨jobx, hjx, hpx⟩ := hI.queue_job q prq j hq' hm
        rw [hj] at hjx; cases hjx
        rw [hp] at hpx; cases hpx
        exact hqp rfl
  · refine ⟨{ s with jobs := s.jobs.set j { job with status := .CANCELED } },
      { job with status := .CANCELED }, ?_, lookup_set_self _ hj, rfl, rfl, rfl,
      fun _ => rfl, ?_⟩
    · unfold cancel_job
      simp only [hc, hf, hj]
      rw [if_pos hst, hid]
    · intro h; rw [hst] at h; cases h

set_option maxRecDepth 100000 in
theorem cancel_job_active_witness :
    Reachable (state_after printing_run) ∧
    ∃ s' job', cancel_job (state_after printing_run) 1 0 =
        some (s', "  Job " ++ fmt_d 1 ++ " was cancelled.\n") ∧
      s'.jobs[0]? = some job' ∧ job'.status = .CANCELED ∧ job'.page_count = 1 ∧
      s'.clients = (state_after printing_run).clients ∧
      (status_e.IN_PROGRESS = .IN_PROGRESS → s'.printers = (state_after printing_run).printers) ∧
      (status_e.IN_PROGRESS = .WAITING →
        (∃ p pr, some 0 = some p ∧ (state_after printing_run).printers[p]? = some pr ∧
          s'.printers = (state_after printing_run).printers.set p
            { pr with jobs := list_del 0 pr.jobs }) ∧
        ∀ (q : Nat) (prq : printer_t), s'.printers[q]? = some prq → 0 ∉ prq.jobs) :=
  ⟨⟨printing_run, by decide⟩,
   cancel_job_active (state_after printing_run) 1 0
     { jobs := [0], job_counter := 1, id := 1, quit := 0 } 0
     { printer := some 0, client := 0, filename := "a", fd := ['x', '\n'], page_count := 1,
       tid := { pc := .GETLINE, aborted := false, line_count := 0, line := [] },
       id := 1, status := .IN_PROGRESS }
     ⟨printing_run, by decide⟩ (by decide) (by decide) (by decide) (Or.inr rfl)⟩

/-! ### Claims on `print` -/

set_option maxRecDepth 100000 in
/-- C8, as stated, fails when the worker thread cannot be created: for the id 9, for which
`printer_exists` returns false, `print_cmd_fct` with 2 arguments replies with the failure
message and the client's index holds no job afterwards. -/
theorem print_unknown_printer_no_thread :
    env_no_thread.printer_exists 9 = false ∧
    (print_cmd_fct env_no_thread (state_after [.accept]) 0 ["print", "9", "a"]).map
        (fun r => (r.2, r.1.clients.map (fun cl => cl.jobs))) =
      some ("  Failed to create job worker thread: Resource temporarily unavailable\n", [[]]) := by
  decide

/-! ### Job ids -/

theorem steady_refl (s : State) : Steady s s := ⟨rfl, rfl, fun _ cl h => ⟨cl, h, rfl⟩⟩

theorem steady_trans {s s' s'' : State} (h1 : Steady s s') (h2 : Steady s' s'') :
    Steady s s'' := by
  refine ⟨h2.jobs_length.trans h1.jobs_length, h2.clients_length.trans h1.clients_length, ?_⟩
  intro c cl hc
  obtain ⟨cl', hc', e1⟩ := h1.counter_kept c cl hc
  obtain ⟨cl'', hc'', e2⟩ := h2.counter_kept c cl' hc'
  exact ⟨cl'', hc'', e2.trans e1⟩

theorem steady_job_worker (env : Env) (s : State) (j : Nat) : Steady s (job_worker env s j) := by
  rcases job_worker_cases env s j with h | ⟨job, hj, _, hp, h⟩ | ⟨job, p, pr, hj, _, hp, hpr, h⟩
  · rw [h]; exact steady_refl s
  · rw [h]; exact ⟨by simp, rfl, fun _ cl h => ⟨cl, h, rfl⟩⟩
  · rw [h]; exact ⟨by simp, rfl, fun _ cl h => ⟨cl, h, rfl⟩⟩

theorem steady_modify (s : State) (c : Nat) (f : client_t → client_t)
    (hf : ∀ cl, (f cl).job_counter = cl.job_counter) :
    Steady s { s with clients := s.clients.modify f c } := by
  refine ⟨rfl, by simp, ?_⟩
  intro k cl hk
  simp only [List.getElem?_modify, hk, Option.map_eq_map, Option.map_some']
  by_cases hck : c = k
  · exact ⟨f cl, by simp [hck], hf cl⟩
  · exact ⟨cl, by simp [hck], rfl⟩

theorem prim_steady {s s' : State} (h : Prim s s') : Steady s s' := by
  cases h with
  | join_step env _ j job hj h1 h2 => exact steady_job_worker env s j
  | cancel_running _ j job hj hst => exact ⟨by simp, rfl, fun _ cl h => ⟨cl, h, rfl⟩⟩
  | cancel_waiting _ j job p pr hj hst hp hpr =>
    exact ⟨by simp, rfl, fun _ cl h => ⟨cl, h, rfl⟩⟩
  | settle _ j job p pr hj hst hp hpr => exact ⟨by simp, rfl, fun _ cl h => ⟨cl, h, rfl⟩⟩
  | unlink _ c j => exact steady_modify s c _ (fun _ => rfl)
  | quit_flag _ c => exact steady_modify s c _ (fun _ => rfl)

theorem prim_chain_steady {s s' : State} (h : ReflTransGen Prim s s') : Steady s s' := by
  induction h with
  | refl => exact steady_refl s
  | tail _ hp ih => exact steady_trans ih (prim_steady hp)

/-- The job ids after a step that allocates no job. -/
theorem idinv_steady {s s' : State} (hI : IdInv s) (hE : Evolves s s') (hS : Steady s s') :
    IdInv s' := by
  have back : ∀ (j : Nat) (job' : job_t), s'.jobs[j]? = some job' →
      ∃ job, s.jobs[j]? = some job ∧ job'.id = job.id ∧ job'.client = job.client := by
    intro j job' hj'
    have hlt : j < s.jobs.length := by rw [← hS.jobs_length]; exact lookup_lt hj'
    obtain ⟨job, hj⟩ := lookup_some_of_lt hlt
    obtain ⟨job1, hj1, _, e2, e3⟩ := hE.jobs_kept j job hj
    rw [hj'] at hj1; cases hj1
    exact ⟨job, hj, e2, e3⟩
  constructor
  · intro j job' hj'
    obtain ⟨job, hj, e2, e3⟩ := back j job' hj'
    obtain ⟨h1, cl, hcl, h2⟩ := hI.id_bounds j job hj
    obtain ⟨cl', hcl', e⟩ := hS.counter_kept _ cl hcl
    rw [e2, e3]
    exact ⟨h1, cl', hcl', by rw [e]; exact h2⟩
  · intro a b joba jobb ha hb hcl hab
    obtain ⟨ja, hja, ea2, ea3⟩ := back a joba ha
    obtain ⟨jb, hjb, eb2, eb3⟩ := back b jobb hb
    rw [ea2, eb2]
    exact hI.id_order a b ja jb hja hjb (by rw [← ea3, ← eb3]; exact hcl) hab

theorem prints_by_snoc (c : Nat) (ls : List Label) (l : Label) :
    prints_by c (ls ++ [l]) = prints_by c ls + (if is_print_by c l then 1 else 0) := by
  unfold prints_by
  rw [List.filter_append, List.length_append]
  by_cases h : is_print_by c l = true
  · simp [List.filter, h]
  · simp [List.filter, h]

theorem run_snoc : ∀ (ls : List Label) (s : State) (l : Label),
    run s (ls ++ [l]) = (run s ls).bind (fun s1 => step s1 l)
  | [], s, l => by
    simp only [List.nil_append, run, Option.some_bind]
    cases step s l <;> rfl
  | k :: ls, s, l => by
    simp only [List.cons_append, run]
    cases step s k with
    | none => rfl
    | some s1 => exact run_snoc ls s1 l

theorem counted_steady {ls : List Label} {s s' : State} {l : Label} (hC : Counted ls s)
    (hS : Steady s s') (hl : ∀ c, is_print_by c l = false) : Counted (ls ++ [l]) s' := by
  constructor
  · intro c cl' hc'
    have hlt : c < s.clients.length := by rw [← hS.clients_length]; exact lookup_lt hc'
    obtain ⟨cl, hcl⟩ := lookup_some_of_lt hlt
    obtain ⟨cl1, hcl1, e⟩ := hS.counter_kept c cl hcl
    rw [hc'] at hcl1; cases hcl1
    rw [prints_by_snoc, hl c, e, hC.counter_eq c cl hcl]
    simp
  · intro c hc
    rw [hS.clients_length] at hc
    rw [prints_by_snoc, hl c, hC.none_yet c hc]
    simp

/-- The job ids and the job counters after one more step. -/
theorem step_ids {ls : List Label} {s s' : State} {l : Label} (hI : Inv s) (hD : IdInv s)
    (hC : Counted ls s) (h : step s l = some s') : IdInv s' ∧ Counted (ls ++ [l]) s' := by
  rcases step_cases h with ⟨env, j, rfl, rfl⟩ | ⟨env, c, args, r, rfl, hv, hcl, hp⟩ | ⟨rfl, rfl⟩ |
    ⟨c, rfl, rfl⟩ | ⟨env, c, args, rfl, hv, hch⟩
  · exact ⟨idinv_steady hD (evolves_job_worker env s j) (steady_job_worker env s j),
      counted_steady hC (steady_job_worker env s j) (fun _ => rfl)⟩
  · by_cases hargs : args.length = 3
    · obtain ⟨client, hc⟩ := print_cmd_fct_client hp hargs
      rw [print_cmd_fct_eq env s c args client hargs hc] at hp
      simp only [Option.some.injEq, Prod.mk.injEq] at hp
      obtain ⟨hp, -⟩ := hp
      subst hp
      have hcnt := hC.counter_eq c client hc
      have hnew : ∀ (k : Nat) (jobk : job_t),
          (s.jobs ++ [print_job env s c client args])[k]? = some jobk →
          s.jobs[k]? = some jobk ∨ (k = s.jobs.length ∧ jobk = print_job env s c client args) := by
        intro k jobk hk
        rw [List.getElem?_append] at hk
        split_ifs at hk with hlt
        · exact Or.inl hk
        · right
          have hk1 : k - s.jobs.length = 0 := by
            by_contra hne
            have : [print_job env s c client args][k - s.jobs.length]? = none :=
              List.getElem?_eq_none (by simp; omega)
            rw [this] at hk; cases hk
          rw [hk1] at hk
          simp at hk
          exact ⟨by omega, hk.symm⟩
      refine ⟨⟨?_, ?_⟩, ⟨?_, ?_⟩⟩
      · intro k jobk hk
        simp only at hk ⊢
        rcases hnew k jobk hk with hk' | ⟨_, rfl⟩
        · obtain ⟨h1, cl, hcl1, h2⟩ := hD.id_bounds k jobk hk'
          refine ⟨h1, ?_⟩
          by_cases hcc : jobk.client = c
          · rw [hcc] at hcl1 ⊢
            rw [hc] at hcl1; cases hcl1
            exact ⟨_, lookup_set_self _ hc, by simp only; omega⟩
          · exact ⟨cl, by rw [List.getElem?_set_ne (fun e => hcc e.symm)]; exact hcl1, h2⟩
        · refine ⟨?_, _, lookup_set_self _ hc, ?_⟩
          · simp only [print_job]; omega
          · simp only [print_job]; omega
      · intro a b joba jobb ha hb hcab hab
        simp only at ha hb
        rcases hnew a joba ha with ha' | ⟨rfl, rfl⟩
        · rcases hnew b jobb hb with hb' | ⟨rfl, rfl⟩
          · exact hD.id_order a b joba jobb ha' hb' hcab hab
          · obtain ⟨_, cl, hcl1, h2⟩ := hD.id_bounds a joba ha'
            have hca : joba.client = c := hcab
            rw [hca, hc] at hcl1; cases hcl1
            simp only [print_job]; omega
        · have := lookup_lt hb
          simp only [List.length_append, List.length_singleton] at this
          omega
      · intro k cl' hk
        simp only at hk
        rw [prints_by_snoc]
        rcases lookup_set hk with ⟨rfl, rfl⟩ | ⟨hkc, hk'⟩
        · have : is_print_by k (Label.command env k args) = true := by
            simp [is_print_by, hv, hargs]
          rw [this, hcnt]
          simp
        · have hck : c ≠ k := fun e => hkc e.symm
          have : is_print_by k (Label.command env c args) = false := by
            simp [is_print_by, hck]
          rw [this, hC.counter_eq k cl' hk']
          simp
      · intro k hk
        simp only [List.length_set] at hk
        have hck : c ≠ k := by have := lookup_lt hc; omega
        have : is_print_by k (Label.command env c args) = false := by
          simp [is_print_by, hck]
        rw [prints_by_snoc, this, hC.none_yet k hk]
        simp
    · rw [(print_cmd_fct_args hp hargs).1]
      refine ⟨hD, counted_steady hC (steady_refl s) ?_⟩
      intro k
      simp [is_print_by, hargs]
  · refine ⟨⟨?_, ?_⟩, ⟨?_, ?_⟩⟩
    · intro k jobk hk
      obtain ⟨h1, cl, hcl1, h2⟩ := hD.id_bounds k jobk hk
      refine ⟨h1, cl, ?_, h2⟩
      simp only [accept_client]
      rw [List.getElem?_append_left (lookup_lt hcl1)]
      exact hcl1
    · exact hD.id_order
    · intro k cl' hk
      simp only [accept_client] at hk
      rw [prints_by_snoc]
      have : is_print_by k Label.accept = false := rfl
      rw [this]
      rw [List.getElem?_append] at hk
      split_ifs at hk with hlt
      · rw [hC.counter_eq k cl' hk]; simp
      · by_cases hk1 : k - s.clients.length = 0
        · rw [hk1] at hk
          simp at hk
          subst hk
          rw [hC.none_yet k (by omega)]
          simp [init_client]
        · have : [init_client (s.client_count + 1)][k - s.clients.length]? = none :=
            List.getElem?_eq_none (by simp; omega)
          rw [this] at hk; cases hk
    · intro k hk
      simp only [accept_client, List.length_append, List.length_singleton] at hk
      have : is_print_by k Label.accept = false := rfl
      rw [prints_by_snoc, this, hC.none_yet k (by omega)]
      simp
  · have hS : Steady s (client_exit s c) := ⟨rfl, rfl, fun _ cl h => ⟨cl, h, rfl⟩⟩
    exact ⟨idinv_steady hD (evolves_of_eq rfl rfl) hS, counted_steady hC hS (fun _ => rfl)⟩
  · obtain ⟨_, hE, _⟩ := prim_chain hI hch
    have hS := prim_chain_steady hch
    refine ⟨idinv_steady hD hE hS, counted_steady hC hS ?_⟩
    intro k
    have : (args.head? == some "print") = false := by simpa using hv
    simp [is_print_by, this]

theorem run_ids : ∀ (ls : List Label) (s : State), run init ls = some s →
    Inv s ∧ IdInv s ∧ Counted ls s := by
  intro ls
  induction ls using List.reverseRecOn with
  | nil =>
    intro s h
    simp only [run, Option.some.injEq] at h
    subst h
    refine ⟨inv_init, ⟨?_, ?_⟩, ⟨?_, ?_⟩⟩ <;> intros <;> simp_all [init, prints_by]
  | append_singleton ls l ih =>
    intro s h
    rw [run_snoc] at h
    cases h1 : run init ls with
    | none => simp [h1] at h
    | some s1 =>
      simp only [h1, Option.some_bind] at h
      obtain ⟨hI, hD, hC⟩ := ih s1 h1
      obtain ⟨hD', hC'⟩ := step_ids hI hD hC h
      exact ⟨step_inv hI h, hD', hC'⟩

/-- C7. After every run of the server, a `print` command of client `c` that passes the
argument-count check creates the job whose id is the number of such commands of `c` so
far, this one included (the job counter starts at 0 in `init_client` and is changed by
nothing else); hence every job id is at least 1 and, of two jobs of one client, the one
created later has the greater id, whether or not the jobs are still in the index. -/
theorem job_ids (ls : List Label) (s : State) (hrun : run init ls = some s) :
    (∀ (env : Env) (c : Nat) (args : List String) (s' : State),
      step s (.command env c args) = some s' → args.head? = some "print" → args.length = 3 →
      ∃ job, s'.jobs = s.jobs ++ [job] ∧ job.client = c ∧
        job.id = (prints_by c ls : Int) + 1 ∧
        prints_by c (ls ++ [.command env c args]) = prints_by c ls + 1) ∧
    (∀ (a : Nat) (joba : job_t), s.jobs[a]? = some joba → 1 ≤ joba.id) ∧
    (∀ (a b : Nat) (joba jobb : job_t), s.jobs[a]? = some joba → s.jobs[b]? = some jobb →
      joba.client = jobb.client → a < b → joba.id < jobb.id) := by
  obtain ⟨hI, hD, hC⟩ := run_ids ls s hrun
  refine ⟨?_, fun a joba ha => (hD.id_bounds a joba ha).1, hD.id_order⟩
  intro env c args s' hstep hv hargs
  rcases step_cases hstep with ⟨_, _, h, _⟩ | ⟨env1, c1, args1, r, h, _, _, hp⟩ | ⟨h, _⟩ |
    ⟨_, h, _⟩ | ⟨env1, c1, args1, h, hv1, _⟩
  · cases h
  · cases h
    obtain ⟨client, hc⟩ := print_cmd_fct_client hp hargs
    rw [print_cmd_fct_eq env s c args client hargs hc] at hp
    simp only [Option.some.injEq, Prod.mk.injEq] at hp
    obtain ⟨hp, -⟩ := hp
    subst hp
    refine ⟨print_job env s c client args, rfl, rfl, ?_, ?_⟩
    · simp only [print_job]
      rw [hC.counter_eq c client hc]
    · rw [prints_by_snoc]
      simp [is_print_by, hv, hargs]
  · cases h
  · cases h
  · cases h
    exact absurd hv hv1

set_option maxRecDepth 100000 in
theorem job_ids_witness :
    ∃ job, (state_after (finished_run ++ [.command env_up 0 ["print", "7", "a"]])).jobs =
        (state_after finished_run).jobs ++ [job] ∧ job.client = 0 ∧
      job.id = (prints_by 0 finished_run : Int) + 1 ∧
      prints_by 0 (finished_run ++ [.command env_up 0 ["print", "7", "a"]]) =
        prints_by 0 finished_run + 1 :=
  (job_ids finished_run (state_after finished_run) (by decide)).1 env_up 0 ["print", "7", "a"]
    (state_after (finished_run ++ [.command env_up 0 ["print", "7", "a"]]))
    (by decide) (by decide) (by decide)

/-! ### The printing loop -/

theorem worker_steps_add (env : Env) (j : Nat) :
    ∀ (a b : Nat) (x : job_t × printer_t),
      worker_steps env j (a + b) x = worker_steps env j b (worker_steps env j a x)
  | 0, b, x => by simp [worker_steps]
  | a + 1, b, x => by
    have : a + 1 + b = (a + b) + 1 := by omega
    rw [this]
    simp only [worker_steps]
    exact worker_steps_add env j a b _

theorem run_append : ∀ (l1 l2 : List Label) (s : State),
    run s (l1 ++ l2) = (run s l1).bind (fun s1 => run s1 l2)
  | [], l2, s => by simp [run]
  | k :: l1, l2, s => by
    simp only [List.cons_append, run]
    cases step s k with
    | none => rfl
    | some s1 => exact run_append l1 l2 s1

theorem state_at_inv {ls : List Label} {i : Nat} {s : State} (h : state_at ls i = some s) :
    Inv s := run_inv inv_init h

theorem state_at_step {ls : List Label} {i : Nat} {s : State} (hi : i < ls.length)
    (h : state_at ls i = some s) : state_at ls (i + 1) = step s (ls.get ⟨i, hi⟩) := by
  unfold state_at at h ⊢
  rw [List.take_succ, List.getElem?_eq_getElem hi]
  simp only [Option.toList]
  rw [run_snoc, h]
  rfl

theorem state_at_evolves {ls : List Label} {i k : Nat} {s s' : State} (hik : i ≤ k)
    (h : state_at ls i = some s) (h' : state_at ls k = some s') : Evolves s s' := by
  unfold state_at at h h'
  have e : ls.take k = ls.take i ++ (ls.take k).drop i := by
    have := List.take_append_drop i (ls.take k)
    rw [List.take_take, Nat.min_eq_left hik] at this
    exact this.symm
  rw [e, run_append, h] at h'
  exact run_evolves (run_inv inv_init h) h'

theorem enters_at_step {ls : List Label} {i j : Nat} (h : enters_at ls i j = true) :
    ∃ (s s' : State) (hi : i < ls.length), state_at ls i = some s ∧
      step s (ls.get ⟨i, hi⟩) = some s' ∧ state_at ls (i + 1) = some s' ∧
      in_progress s j = false ∧ in_progress s' j = true := by
  unfold enters_at at h
  split at h
  · rename_i s s' hs hs'
    simp only [Bool.and_eq_true, decide_eq_true_eq, Bool.not_eq_true'] at h
    obtain ⟨⟨hi, h1⟩, h2⟩ := h
    refine ⟨s, s', hi, hs, ?_, hs', h1, h2⟩
    rw [← state_at_step hi hs]; exact hs'
  · cases h

theorem enqueued_at_step {ls : List Label} {i p j : Nat} (h : enqueued_at ls i p j = true) :
    ∃ (s s' : State) (hi : i < ls.length), state_at ls i = some s ∧
      step s (ls.get ⟨i, hi⟩) = some s' ∧ state_at ls (i + 1) = some s' ∧
      queued s p j = false ∧ queued s' p j = true := by
  unfold enqueued_at at h
  split at h
  · rename_i s s' hs hs'
    simp only [Bool.and_eq_true, decide_eq_true_eq, Bool.not_eq_true'] at h
    obtain ⟨⟨hi, h1⟩, h2⟩ := h
    refine ⟨s, s', hi, hs, ?_, hs', h1, h2⟩
    rw [← state_at_step hi hs]; exact hs'
  · cases h

theorem in_progress_iff {s : State} {j : Nat} :
    in_progress s j = true ↔ ∃ job, s.jobs[j]? = some job ∧ job.status = .IN_PROGRESS := by
  unfold in_progress
  cases s.jobs[j]? with
  | none => simp
  | some job => simp

theorem queued_iff {s : State} {p j : Nat} :
    queued s p j = true ↔ ∃ pr, s.printers[p]? = some pr ∧ j ∈ pr.jobs := by
  unfold queued
  cases s.printers[p]? with
  | none => simp
  | some pr => simp

/-- The step that sets IN_PROGRESS is a step of the worker of the job, taken while the
job is first in the queue of its printer. -/
theorem enters_head {ls : List Label} {i j : Nat} (h : enters_at ls i j = true) :
    ∃ (s : State) (hi : i < ls.length) (env : Env) (job : job_t) (p : Nat) (pr : printer_t),
      state_at ls i = some s ∧ ls.get ⟨i, hi⟩ = .worker env j ∧ s.jobs[j]? = some job ∧
      job.printer = some p ∧ s.printers[p]? = some pr ∧ pr.jobs.head? = some j := by
  obtain ⟨s, s', hi, hs, hstep, _, h1, h2⟩ := enters_at_step h
  have hI := state_at_inv hs
  obtain ⟨job', hj', hst'⟩ := in_progress_iff.mp h2
  rcases step_enters hI hstep j job' hj' hst' with hold | ⟨env, job, hl, hj, hpc, hne⟩
  · rw [in_progress_iff.mpr hold] at h1; cases h1
  · obtain ⟨p, hp⟩ := Option.ne_none_iff_exists'.mp hne
    obtain ⟨pr, hpr⟩ := inv_printer_record hI hj hp
    have hw := hI.set_waiting j job hj hne hpc
    have hhead := hI.turn j job p pr hj hp hpr (by rw [hpc]; rfl) (by rw [hw]; decide)
    exact ⟨s, hi, env, job, p, pr, hs, hl, hj, hp, hpr, hhead⟩

/-- A job that a step links into a queue is a record the step has allocated. -/
theorem enqueued_fresh {ls : List Label} {i p j : Nat} (h : enqueued_at ls i p j = true) :
    ∃ (s s' : State), state_at ls i = some s ∧ state_at ls (i + 1) = some s' ∧
      s.jobs.length ≤ j ∧ ∃ job, s'.jobs[j]? = some job ∧ job.printer = some p := by
  obtain ⟨s, s', hi, hs, hstep, hs', h1, h2⟩ := enqueued_at_step h
  have hI := state_at_inv hs
  have hI' := state_at_inv hs'
  obtain ⟨pr', hpr', hm⟩ := queued_iff.mp h2
  refine ⟨s, s', hs, hs', ?_, hI'.queue_job p pr' j hpr' hm⟩
  rcases (step_evolves hI hstep).queue_from p pr' j hpr' hm with hlen | ⟨pr, hpr, hm0⟩
  · exact hlen
  · rw [queued_iff.mpr ⟨pr, hpr, hm0⟩] at h1; cases h1

/-- Of two jobs linked into the queue of one printer, the one linked first is the first to
become IN_PROGRESS, when both do. -/
theorem enters_in_order {ls : List Label} {p a b ea eb ia ib : Nat}
    (hea : enqueued_at ls ea p a = true) (heb : enqueued_at ls eb p b = true) (hlt : ea < eb)
    (hia : enters_at ls ia a = true) (hib : enters_at ls ib b = true) : ia < ib := by
  obtain ⟨sa, sa', hsa, hsa', hla, joba, hja, hpa⟩ := enqueued_fresh hea
  obtain ⟨sb, sb', hsb, hsb', hlb, jobb, hjb, hpb⟩ := enqueued_fresh heb
  -- the job linked first has the smaller address
  have hab : a < b := by
    have h1 := lookup_lt hja
    have h2 := evolves_length_le (state_at_evolves (by omega : ea + 1 ≤ eb) hsa' hsb)
    omega
  obtain ⟨s1, _, _, job1, p1, pr1, hs1, _, hj1, hp1, hpr1, hh1⟩ := enters_head hia
  obtain ⟨s2, _, _, job2, p2, pr2, hs2, _, hj2, hp2, hpr2, hh2⟩ := enters_head hib
  -- both workers set IN_PROGRESS after their job was linked, so on printer `p`
  have hia' : ea + 1 ≤ ia := by
    by_contra hc
    have h1 := evolves_length_le (state_at_evolves (by omega : ia ≤ ea) hs1 hsa)
    have h2 := lookup_lt hj1
    omega
  have hib' : eb + 1 ≤ ib := by
    by_contra hc
    have h1 := evolves_length_le (state_at_evolves (by omega : ib ≤ eb) hs2 hsb)
    have h2 := lookup_lt hj2
    omega
  have hp1p : p1 = p := by
    obtain ⟨x, hx, e, _, _⟩ := (state_at_evolves hia' hsa' hs1).jobs_kept a joba hja
    rw [hj1] at hx; cases hx
    rw [hp1, hpa] at e
    exact Option.some.inj e
  have hp2p : p2 = p := by
    obtain ⟨x, hx, e, _, _⟩ := (state_at_evolves hib' hsb' hs2).jobs_kept b jobb hjb
    rw [hj2] at hx; cases hx
    rw [hp2, hpb] at e
    exact Option.some.inj e
  rw [hp1p] at hpr1
  rw [hp2p] at hpr2
  by_contra hc
  have hle : ib ≤ ia := by omega
  have ha1 : a ∈ pr1.jobs := by
    cases hq : pr1.jobs with
    | nil => rw [hq] at hh1; cases hh1
    | cons x xs => rw [hq] at hh1; simp at hh1; simp [hh1]
  rcases (state_at_evolves hle hs2 hs1).queue_from p pr1 a hpr1 ha1 with hlen | ⟨pr, hpr, hm⟩
  · have := lookup_lt hj2
    omega
  · rw [hpr2] at hpr; cases hpr
    have hsorted := (state_at_inv hs2).queue_sorted p pr2 hpr2
    cases hq : pr2.jobs with
    | nil => rw [hq] at hm; cases hm
    | cons x xs =>
      rw [hq] at hh2 hm hsorted
      simp only [List.head?_cons, Option.some.injEq] at hh2
      subst hh2
      rcases List.mem_cons.mp hm with h | h
      · omega
      · have := (List.pairwise_cons.mp hsorted).1 a h
        omega

/-- C3. In every run of the server, the step that sets the status of a job to
IN_PROGRESS is a step of the worker of that job, taken in a state in which the job is
the first element of the queue of its printer; and of two jobs linked into the queue of
the same printer that both become IN_PROGRESS, the one linked first becomes
IN_PROGRESS first. -/
theorem in_progress_in_turn (ls : List Label) :
    (∀ (i j : Nat), enters_at ls i j = true →
      ∃ (s : State) (hi : i < ls.length) (env : Env) (job : job_t) (p : Nat) (pr : printer_t),
        state_at ls i = some s ∧ ls.get ⟨i, hi⟩ = .worker env j ∧ s.jobs[j]? = some job ∧
        job.printer = some p ∧ s.printers[p]? = some pr ∧ pr.jobs.head? = some j) ∧
    (∀ (p a b ea eb ia ib : Nat), enqueued_at ls ea p a = true →
      enqueued_at ls eb p b = true → ea < eb → enters_at ls ia a = true →
      enters_at ls ib b = true → ia < ib) :=
  ⟨fun _ _ h => enters_head h, fun _ _ _ _ _ _ _ h1 h2 h3 h4 h5 => enters_in_order h1 h2 h3 h4 h5⟩

set_option maxRecDepth 100000 in
theorem in_progress_in_turn_witness :
    enqueued_at fifo_run 1 0 0 = true ∧ enqueued_at fifo_run 2 0 1 = true ∧
    enters_at fifo_run 8 0 = true ∧ enters_at fifo_run 17 1 = true ∧ 8 < 17 :=
  ⟨by decide, by decide, by decide, by decide,
   (in_progress_in_turn fifo_run).2 0 0 1 1 2 8 17 (by decide) (by decide) (by decide)
     (by decide) (by decide)⟩

/-! ### Claims the code breaks -/

set_option maxRecDepth 100000 in
/-- C1 at a failing run: a job is IN_PROGRESS when `cancel 1` is issued; the command
replies `was cancelled` and the status is CANCELED; the worker, which polls the status
only after a character and whose file is empty, then goes on to its end and sets the
status to FINISHED. -/
theorem cancelled_job_becomes_finished :
    (state_after race_run).jobs.map (fun job => (job.status, job.tid.pc)) =
      [(status_e.CANCELED, pc_t.GETLINE)] ∧
    (run init race_run).isSome = true ∧
    (state_after (race_run ++ List.replicate 3 (.worker env_up 0))).jobs.map
        (fun job => (job.status, job.tid.pc)) =
      [(status_e.FINISHED, pc_t.EXITED)] ∧
    (run init (race_run ++ List.replicate 3 (.worker env_up 0))).isSome = true := by
  decide

set_option maxRecDepth 100000 in
/-- C5 at a failing state: the only job of the client is IN_PROGRESS and first in the
queue of printer 0 when `quit` is issued; `quit_cmd_fct` replies, the index of the client
is empty and the quit flag is set, and the job is still linked in the queue of
printer 0, its worker not having been joined. -/
theorem quit_leaves_running_job_queued :
    (state_after printing_run).jobs.map (fun job => job.status) = [status_e.IN_PROGRESS] ∧
    (state_after printing_run).clients.map (fun cl => cl.jobs) = [[0]] ∧
    (quit_cmd_fct env_up (state_after printing_run) 0 ["quit"]).map (fun r => r.2) =
      some "  Job 1 was cancelled.\n" ∧
    (quit_cmd_fct env_up (state_after printing_run) 0 ["quit"]).map
        (fun r => r.1.clients.map (fun cl => (cl.jobs, cl.quit))) = some [([], 1)] ∧
    (quit_cmd_fct env_up (state_after printing_run) 0 ["quit"]).map
        (fun r => r.1.printers.map (fun pr => pr.jobs)) = some [[0]] ∧
    (quit_cmd_fct env_up (state_after printing_run) 0 ["quit"]).map
        (fun r => r.1.jobs.map (fun job => (job.status, job.tid.pc))) =
      some [(status_e.CANCELED, pc_t.GETLINE)] := by
  decide

/-! ### The argument-count check -/

theorem invalid_arg_count_ne {req argc : Int} (h : argc - 1 ≠ req) :
    invalid_arg_count req argc = some (arg_count_reply req (argc - 1)) := by
  unfold invalid_arg_count arg_count_reply
  rw [if_pos h]

/-- C12. Each of the six handlers, called with a number of arguments after the verb that
differs from the number the command requires, returns the state it was called in together
with the reply `  This command takes <req> arguments. Instead received <n>.`; so does the
command lookup of `client_worker` for a line that starts with one of the six verbs. -/
theorem arg_count_mismatch (env : Env) (s : State) (c : Nat) (args : List String) :
    ((args.length : Int) - 1 ≠ 2 →
      print_cmd_fct env s c args = some (s, arg_count_reply 2 ((args.length : Int) - 1))) ∧
    ((args.length : Int) - 1 ≠ 1 →
      status_cmd_fct s c args = some (s, arg_count_reply 1 ((args.length : Int) - 1)) ∧
      invoice_cmd_fct env s c args = some (s, arg_count_reply 1 ((args.length : Int) - 1)) ∧
      cancel_cmd_fct s c args = some (s, arg_count_reply 1 ((args.length : Int) - 1)) ∧
      jobs_cmd_fct s args = some (s, arg_count_reply 1 ((args.length : Int) - 1))) ∧
    ((args.length : Int) - 1 ≠ 0 →
      quit_cmd_fct env s c args = some (s, arg_count_reply 0 ((args.length : Int) - 1))) ∧
    (∀ (verb : String) (req : Int), args.head? = some verb → required_args verb = some req →
      (args.length : Int) - 1 ≠ req →
      dispatch env s c args = some (s, arg_count_reply req ((args.length : Int) - 1))) := by
  have hp : (args.length : Int) - 1 ≠ 2 →
      print_cmd_fct env s c args = some (s, arg_count_reply 2 ((args.length : Int) - 1)) := by
    intro h; unfold print_cmd_fct; rw [invalid_arg_count_ne h]
  have h1 : (args.length : Int) - 1 ≠ 1 →
      status_cmd_fct s c args = some (s, arg_count_reply 1 ((args.length : Int) - 1)) ∧
      invoice_cmd_fct env s c args = some (s, arg_count_reply 1 ((args.length : Int) - 1)) ∧
      cancel_cmd_fct s c args = some (s, arg_count_reply 1 ((args.length : Int) - 1)) ∧
      jobs_cmd_fct s args = some (s, arg_count_reply 1 ((args.length : Int) - 1)) := by
    intro h
    refine ⟨?_, ?_, ?_, ?_⟩
    · unfold status_cmd_fct; rw [invalid_arg_count_ne h]
    · unfold invoice_cmd_fct; rw [invalid_arg_count_ne h]
    · unfold cancel_cmd_fct; rw [invalid_arg_count_ne h]
    · unfold jobs_cmd_fct; rw [invalid_arg_count_ne h]
  have hq : (args.length : Int) - 1 ≠ 0 →
      quit_cmd_fct env s c args = some (s, arg_count_reply 0 ((args.length : Int) - 1)) := by
    intro h; unfold quit_cmd_fct; rw [invalid_arg_count_ne h]
  refine ⟨hp, h1, hq, ?_⟩
  intro verb req hv hr hn
  cases args with
  | nil => cases hv
  | cons v rest =>
    simp only [List.head?_cons, Option.some.injEq] at hv
    subst hv
    unfold required_args at hr
    unfold dispatch
    simp only
    split_ifs at hr with a b d
    · cases hr; rw [if_pos a]; exact hp hn
    · cases hr
      have hnp : v ≠ "print" := a
      rcases b with b | b | b | b
      · subst b; simp only [if_neg hnp, if_true]; exact (h1 hn).1
      · subst b; simp only [if_neg hnp]; exact (h1 hn).2.1
      · subst b; simp only [if_neg hnp]; exact (h1 hn).2.2.1
      · subst b; simp only [if_neg hnp]; exact (h1 hn).2.2.2
    · cases hr
      subst d
      simp only [if_neg a]
      exact hq hn

theorem arg_count_mismatch_witness :
    dispatch env_up init 0 ["print", "7"] =
      some (init, "  This command takes 2 arguments. Instead received 1.\n") :=
  (arg_count_mismatch env_up init 0 ["print", "7"]).2.2.2 "print" 2 rfl (by decide) (by decide)

/-! ### The failure of pthread_create -/

theorem print_link_undone {j : Nat} {l : List Nat} (h : j ∉ l) : print_link j false l = l := by
  unfold print_link list_del list_add_tail
  simp only [Bool.false_eq_true, if_false]
  rw [List.erase_append_right _ h]
  simp

theorem modify_same {α : Type} (f : α → α) :
    ∀ (l : List α) (p : Nat), (∀ a, l[p]? = some a → f a = a) → l.modify f p = l
  | [], _, _ => by simp
  | a :: l, 0, h => by
    have := h a (by simp)
    simp [this]
  | a :: l, p + 1, h => by
    have ih := modify_same f l p (fun b hb => h b (by simpa using hb))
    simp [ih]

theorem failure_reply_ne (t u : String) :
    "  Failed to create job worker thread: " ++ t ≠ "  Created job no. " ++ u := by
  intro h
  have h2 := congrArg (fun x : String => x.data[2]?) h
  simp only [String.data_append] at h2
  simp at h2

/-- C14. In every reachable state, when `pthread_create` fails, `print_cmd_fct` with 2
arguments replies with the failure message, which is not a `Created job no.` reply, and
undoes both insertions: the index of the client is what it was, every other client record
is untouched, and the printer registry is what it was, up to the record of a printer that
the command has registered, whose queue is empty. -/
theorem print_thread_failure (env : Env) (s : State) (c : Nat) (args : List String)
    (client : client_t) (hR : Reachable s) (hargs : args.length = 3)
    (hc : s.clients[c]? = some client) (hcr : env.pthread_create ≠ 0) :
    ∃ s' client', print_cmd_fct env s c args =
        some (s', "  Failed to create job worker thread: " ++ env.strerror env.pthread_create
          ++ "\n") ∧
      (∀ u : String, "  Failed to create job worker thread: " ++ env.strerror env.pthread_create
          ++ "\n" ≠ "  Created job no. " ++ u) ∧
      s'.clients[c]? = some client' ∧ client'.jobs = client.jobs ∧
      (∀ k, k ≠ c → s'.clients[k]? = s.clients[k]?) ∧
      (s'.printers = s.printers ∨
        (find_printer (atoi (args.getD 1 "")) s.printers = none ∧
          s'.printers = s.printers ++ [init_printer (atoi (args.getD 1 ""))] ∧
          (init_printer (atoi (args.getD 1 ""))).jobs = [])) := by
  have hI := reachable_inv hR
  have hp := print_cmd_fct_eq env s c args client hargs hc
  have e0 : decide (env.pthread_create = 0) = false := by simp [hcr]
  rw [e0, if_neg hcr] at hp
  have hfc : s.jobs.length ∉ client.jobs := fun hm => by
    have := hI.index_valid c client _ hc hm
    omega
  have hfp : ∀ (q : Nat) (pr : printer_t), s.printers[q]? = some pr → s.jobs.length ∉ pr.jobs := by
    intro q pr hq hm
    obtain ⟨job, hj, _⟩ := hI.queue_job q pr _ hq hm
    have := lookup_lt hj
    omega
  rw [print_link_undone hfc] at hp
  refine ⟨_, _, hp, ?_, lookup_set_self _ hc, rfl, ?_, ?_⟩
  · intro u
    rw [String.append_assoc]
    exact failure_reply_ne _ u
  · intro k hk
    simp only
    rw [List.getElem?_set_ne (Ne.symm hk)]
  · simp only
    rcases resolve_printer_cases env s.printers (atoi (args.getD 1 "")) with h | ⟨p, pr, hpr, _, h⟩ |
      ⟨hn, h⟩
    · rw [h]; exact Or.inl rfl
    · rw [h]
      simp only
      left
      apply modify_same
      intro a ha
      rw [print_link_undone (hfp p a ha)]
    · rw [h]
      simp only
      right
      refine ⟨hn, ?_, rfl⟩
      apply modify_same
      intro a ha
      rw [List.getElem?_append_right (Nat.le_refl _)] at ha
      simp only [Nat.sub_self, List.getElem?_cons_zero, Option.some.injEq] at ha
      subst ha
      rw [print_link_undone (by simp [init_printer])]

set_option maxRecDepth 100000 in
theorem print_thread_failure_witness :
    Reachable (state_after printing_run) ∧
    ∃ s' client', print_cmd_fct env_no_thread (state_after printing_run) 0 ["print", "7", "a"] =
        some (s', "  Failed to create job worker thread: "
          ++ env_no_thread.strerror env_no_thread.pthread_create ++ "\n") ∧
      (∀ u : String, "  Failed to create job worker thread: "
          ++ env_no_thread.strerror env_no_thread.pthread_create ++ "\n" ≠
        "  Created job no. " ++ u) ∧
      s'.clients[0]? = some client' ∧ client'.jobs = [0] ∧
      (∀ k, k ≠ 0 → s'.clients[k]? = (state_after printing_run).clients[k]?) ∧
      (s'.printers = (state_after printing_run).printers ∨
        (find_printer (atoi (["print", "7", "a"].getD 1 "")) (state_after printing_run).printers
            = none ∧
          s'.printers = (state_after printing_run).printers ++
            [init_printer (atoi (["print", "7", "a"].getD 1 ""))] ∧
          (init_printer (atoi (["print", "7", "a"].getD 1 ""))).jobs = [])) :=
  ⟨⟨printing_run, by decide⟩,
   print_thread_failure env_no_thread (state_after printing_run) 0 ["print", "7", "a"]
     { jobs := [0], job_counter := 1, id := 1, quit := 0 } ⟨printing_run, by decide⟩
     (by decide) (by decide) (by decide)⟩

/-! ### The circular list on the heap -/

theorem last_of_mem : ∀ (a : Nat) (xs : List Nat), dbllinklist.last_of a xs ∈ a :: xs
  | a, [] => by simp [dbllinklist.last_of]
  | a, x :: xs => by
    have := last_of_mem x xs
    simp only [dbllinklist.last_of]
    exact List.mem_cons_of_mem _ this

theorem front_subset : ∀ (a : Nat) (xs : List Nat) (b : Nat), b ∈ dbllinklist.front a xs → b ∈ a :: xs
  | a, [], b, h => by simp [dbllinklist.front] at h
  | a, x :: xs, b, h => by
    simp only [dbllinklist.front, List.mem_cons] at h
    rcases h with h | h
    · simp [h]
    · exact List.mem_cons_of_mem _ (front_subset x xs b h)

theorem front_ne_last : ∀ (a : Nat) (xs : List Nat) (b : Nat), (a :: xs).Nodup → b ∈ dbllinklist.front a xs →
    b ≠ dbllinklist.last_of a xs
  | a, [], b, _, h => by simp [dbllinklist.front] at h
  | a, x :: xs, b, hn, h => by
    simp only [dbllinklist.front, List.mem_cons] at h
    simp only [dbllinklist.last_of]
    have hn' := List.nodup_cons.mp hn
    rcases h with h | h
    · subst h
      intro e
      exact hn'.1 (e ▸ last_of_mem x xs)
    · exact front_ne_last x xs b hn'.2 h

theorem mem_front_or_last : ∀ (a : Nat) (xs : List Nat) (b : Nat), b ∈ a :: xs →
    b ∈ dbllinklist.front a xs ∨ b = dbllinklist.last_of a xs
  | a, [], b, h => by simp only [List.mem_singleton] at h; right; simp [dbllinklist.last_of, h]
  | a, x :: xs, b, h => by
    rcases List.mem_cons.mp h with h | h
    · left; simp [dbllinklist.front, h]
    · rcases mem_front_or_last x xs b h with h | h
      · left; simp [dbllinklist.front, h]
      · right; simp [dbllinklist.last_of, h]

theorem links_split (m : dbllinklist.Memory) (x q : Nat) (post : List Nat) :
    ∀ (pre : List Nat) (p : Nat), dbllinklist.links m p (pre ++ x :: post) q =
      (dbllinklist.links m p pre x && dbllinklist.links m x post q)
  | [], p => by simp [dbllinklist.links]
  | y :: pre, p => by
    have ih := links_split m x q post pre y
    show (m.next p == y && m.prev y == p && dbllinklist.links m y (pre ++ x :: post) q) = _
    rw [ih]
    simp only [dbllinklist.links, Bool.and_assoc]

theorem links_frame {m m' : dbllinklist.Memory} {q : Nat} :
    ∀ (xs : List Nat) (a : Nat), dbllinklist.links m a xs q = true →
      (∀ b ∈ a :: xs, m'.next b = m.next b) → (∀ b ∈ xs ++ [q], m'.prev b = m.prev b) →
      dbllinklist.links m' a xs q = true
  | [], a, h, hn, hp => by
    simp only [dbllinklist.links, Bool.and_eq_true, beq_iff_eq] at h ⊢
    rw [hn a (by simp), hp q (by simp)]
    exact h
  | x :: xs, a, h, hn, hp => by
    simp only [dbllinklist.links, Bool.and_eq_true, beq_iff_eq] at h ⊢
    refine ⟨⟨?_, ?_⟩, links_frame xs x h.2 (fun b hb => hn b (List.mem_cons_of_mem _ hb))
      (fun b hb => hp b (by simp only [List.cons_append]; exact List.mem_cons_of_mem _ hb))⟩
    · rw [hn a (by simp)]; exact h.1.1
    · rw [hp x (by simp)]; exact h.1.2

theorem links_retarget {m m' : dbllinklist.Memory} {q q' : Nat} :
    ∀ (xs : List Nat) (a : Nat), dbllinklist.links m a xs q = true →
      (∀ b ∈ dbllinklist.front a xs, m'.next b = m.next b) → (∀ b ∈ xs, m'.prev b = m.prev b) →
      m'.next (dbllinklist.last_of a xs) = q' → m'.prev q' = dbllinklist.last_of a xs →
      dbllinklist.links m' a xs q' = true
  | [], a, _, _, _, h1, h2 => by
    simp only [dbllinklist.links, Bool.and_eq_true, beq_iff_eq]
    exact ⟨h1, h2⟩
  | x :: xs, a, h, hn, hp, h1, h2 => by
    simp only [dbllinklist.links, Bool.and_eq_true, beq_iff_eq] at h ⊢
    refine ⟨⟨?_, ?_⟩, links_retarget xs x h.2
      (fun b hb => hn b (by simp only [dbllinklist.front]; exact List.mem_cons_of_mem _ hb))
      (fun b hb => hp b (List.mem_cons_of_mem _ hb)) h1 h2⟩
    · rw [hn a (by simp [dbllinklist.front])]; exact h.1.1
    · rw [hp x (by simp)]; exact h.1.2

theorem links_last {m : dbllinklist.Memory} {q : Nat} :
    ∀ (xs : List Nat) (a : Nat), dbllinklist.links m a xs q = true →
      m.prev q = dbllinklist.last_of a xs ∧ m.next (dbllinklist.last_of a xs) = q
  | [], a, h => by
    simp only [dbllinklist.links, Bool.and_eq_true, beq_iff_eq] at h
    exact ⟨h.2, h.1⟩
  | x :: xs, a, h => by
    simp only [dbllinklist.links, Bool.and_eq_true, beq_iff_eq] at h
    exact links_last xs x h.2

theorem list_entries_links {m : dbllinklist.Memory} {h : Nat} :
    ∀ (xs : List Nat) (p : Nat), dbllinklist.links m p xs h = true → h ∉ xs →
      dbllinklist.list_entries m h (xs.length + 1) (m.next p) = xs
  | [], p, hl, _ => by
    simp only [dbllinklist.links, Bool.and_eq_true, beq_iff_eq] at hl
    simp [dbllinklist.list_entries, hl.1]
  | x :: xs, p, hl, hh => by
    simp only [dbllinklist.links, Bool.and_eq_true, beq_iff_eq] at hl
    have hx : x ≠ h := fun e => hh (by simp [e])
    have ih := list_entries_links xs x hl.2 (fun hm => hh (List.mem_cons_of_mem _ hm))
    rw [hl.1.1]
    show (if x = h then [] else x :: dbllinklist.list_entries m h (xs.length + 1) (m.next x)) = x :: xs
    rw [if_neg hx, ih]

theorem list_add_tail_fields (m : dbllinklist.Memory) (e h : Nat) (he : e ≠ 0) (hh : h ≠ 0) :
    (∀ b, (dbllinklist.list_add_tail m e h).next b =
      if b = m.prev h then e else if b = e then h else m.next b) ∧
    (∀ b, (dbllinklist.list_add_tail m e h).prev b =
      if b = h then e else if b = e then m.prev h else m.prev b) := by
  unfold dbllinklist.list_add_tail
  rw [if_pos ⟨he, hh⟩]
  constructor
  · intro b
    simp only [dbllinklist.set_next, dbllinklist.set_prev]
    by_cases h1 : h = e
    · simp [h1]
    · simp [h1]
  · intro b
    simp only [dbllinklist.set_next, dbllinklist.set_prev]

theorem list_del_fields (m : dbllinklist.Memory) (x : Nat) :
    (∀ b, (dbllinklist.list_del m x).next b =
      if b = x then x else if b = m.prev x then m.next x else m.next b) ∧
    (∀ b, (dbllinklist.list_del m x).prev b =
      if b = x then x else if b = m.next x then m.prev x else m.prev b) := by
  unfold dbllinklist.list_del
  constructor
  · intro b
    simp only [dbllinklist.set_next, dbllinklist.set_prev]
    by_cases h1 : x = m.next x
    · simp [← h1]
    · simp [h1]
  · intro b
    simp only [dbllinklist.set_next, dbllinklist.set_prev]

theorem is_list_iff {m : dbllinklist.Memory} {h : Nat} {s : List Nat} :
    dbllinklist.is_list m h s = true ↔
      0 ∉ h :: s ∧ (h :: s).Nodup ∧ dbllinklist.links m h s h = true := by
  simp only [dbllinklist.is_list, Bool.and_eq_true, decide_eq_true_eq, and_assoc]

theorem list_add_tail_is_list {m : dbllinklist.Memory} {h e : Nat} {s : List Nat}
    (hl : dbllinklist.is_list m h s = true) (he0 : e ≠ 0) (heh : e ≠ h) (hes : e ∉ s) :
    dbllinklist.is_list (dbllinklist.list_add_tail m e h) h (s ++ [e]) = true := by
  obtain ⟨h0, hnd, hlk⟩ := is_list_iff.mp hl
  have hh0 : h ≠ 0 := fun e0 => h0 (by simp [e0])
  obtain ⟨fn, fp⟩ := list_add_tail_fields m e h he0 hh0
  obtain ⟨hprev, -⟩ := links_last s h hlk
  have hlast_mem := last_of_mem h s
  have hel : e ≠ dbllinklist.last_of h s := fun e1 => by
    rw [← e1] at hlast_mem
    rcases List.mem_cons.mp hlast_mem with h1 | h1
    · exact heh h1
    · exact hes h1
  rw [is_list_iff]
  refine ⟨?_, ?_, ?_⟩
  · intro hm
    rcases List.mem_cons.mp hm with h1 | h1
    · exact h0 (by simp [← h1])
    · rcases List.mem_append.mp h1 with h2 | h2
      · exact h0 (List.mem_cons_of_mem _ h2)
      · exact he0 (List.mem_singleton.mp h2).symm
  · have hn' := List.nodup_cons.mp hnd
    rw [List.nodup_cons]
    refine ⟨?_, ?_⟩
    · simp only [List.mem_append, List.mem_singleton, not_or]
      exact ⟨hn'.1, fun e1 => heh e1.symm⟩
    · rw [List.nodup_append]
      refine ⟨hn'.2, List.nodup_singleton e, ?_⟩
      intro a ha hb
      rw [List.mem_singleton] at hb
      subst hb
      exact hes ha
  · rw [links_split _ e h [] s h]
    simp only [Bool.and_eq_true]
    constructor
    · apply links_retarget s h hlk
      · intro b hb
        have h1 := front_ne_last h s b hnd hb
        have h2 : b ≠ e := fun e1 => by
          rcases List.mem_cons.mp (front_subset h s b hb) with h3 | h3
          · exact heh (e1 ▸ h3)
          · exact hes (e1 ▸ h3)
        rw [fn, hprev, if_neg h1, if_neg h2]
      · intro b hb
        have h1 : b ≠ h := fun e1 => (List.nodup_cons.mp hnd).1 (e1 ▸ hb)
        have h2 : b ≠ e := fun e1 => hes (e1 ▸ hb)
        rw [fp, if_neg h1, if_neg h2]
      · rw [fn, hprev, if_pos rfl]
      · rw [fp, if_neg heh, if_pos rfl, hprev]
    · simp only [dbllinklist.links, Bool.and_eq_true, beq_iff_eq]
      refine ⟨?_, ?_⟩
      · rw [fn, hprev, if_neg hel, if_pos rfl]
      · rw [fp, if_pos rfl]

theorem links_next_ne {m : dbllinklist.Memory} {h x : Nat} {s : List Nat}
    (hlk : dbllinklist.links m h s h = true) (hnd : (h :: s).Nodup) (hx : x ∈ s) :
    m.next x ≠ x ∧ m.prev x ≠ x := by
  obtain ⟨pre, post, rfl⟩ := List.append_of_mem hx
  rw [links_split] at hlk
  simp only [Bool.and_eq_true] at hlk
  obtain ⟨h1, h2⟩ := hlk
  have hp := (links_last pre h h1).1
  have hlm := last_of_mem h pre
  have hxh : x ≠ h := fun e => (List.nodup_cons.mp hnd).1 (by simp [e])
  have hnd2 : (pre ++ x :: post).Nodup := (List.nodup_cons.mp hnd).2
  have hxpre : x ∉ pre := fun hm => by
    have := (List.nodup_append.mp hnd2).2.2 hm (List.mem_cons_self x post)
    exact this
  have hxpost : x ∉ post := (List.nodup_cons.mp (List.nodup_append.mp hnd2).2.1).1
  constructor
  · cases post with
    | nil =>
      simp only [dbllinklist.links, Bool.and_eq_true, beq_iff_eq] at h2
      rw [h2.1]; exact fun e => hxh e.symm
    | cons z zs =>
      simp only [dbllinklist.links, Bool.and_eq_true, beq_iff_eq] at h2
      rw [h2.1.1]
      exact fun e => hxpost (by simp [e])
  · rw [hp]
    intro e
    rw [e] at hlm
    rcases List.mem_cons.mp hlm with h3 | h3
    · exact hxh h3
    · exact hxpre h3

theorem list_del_is_list {m : dbllinklist.Memory} {h x : Nat} {s : List Nat}
    (hl : dbllinklist.is_list m h s = true) (hx : x ∈ s) :
    dbllinklist.is_list (dbllinklist.list_del m x) h (s.erase x) = true ∧
      (dbllinklist.list_del m x).next x = x ∧ (dbllinklist.list_del m x).prev x = x := by
  obtain ⟨h0, hnd, hlk⟩ := is_list_iff.mp hl
  obtain ⟨fn, fp⟩ := list_del_fields m x
  refine ⟨?_, by rw [fn, if_pos rfl], by rw [fp, if_pos rfl]⟩
  rw [is_list_iff]
  refine ⟨fun hm => h0 ?_, ?_, ?_⟩
  · rcases List.mem_cons.mp hm with h1 | h1
    · simp [← h1]
    · exact List.mem_cons_of_mem _ (List.mem_of_mem_erase h1)
  · have hn' := List.nodup_cons.mp hnd
    exact List.nodup_cons.mpr ⟨fun hm => hn'.1 (List.mem_of_mem_erase hm), hn'.2.erase x⟩
  obtain ⟨pre, post, rfl⟩ := List.append_of_mem hx
  have hn' := List.nodup_cons.mp hnd
  have hnd2 : (pre ++ x :: post).Nodup := hn'.2
  have hxh : x ≠ h := fun e => hn'.1 (by simp [e])
  have hxpre : x ∉ pre := fun hm =>
    (List.nodup_append.mp hnd2).2.2 hm (List.mem_cons_self x post)
  have hxpost : x ∉ post := (List.nodup_cons.mp (List.nodup_append.mp hnd2).2.1).1
  have hpost : post.Nodup := (List.nodup_cons.mp (List.nodup_append.mp hnd2).2.1).2
  have hhpre : h ∉ pre := fun hm => hn'.1 (by simp [hm])
  have hhpost : h ∉ post := fun hm => hn'.1 (by simp [hm])
  have hdis : ∀ b, b ∈ pre → b ∉ post := fun b hb hb' =>
    (List.nodup_append.mp hnd2).2.2 hb (List.mem_cons_of_mem _ hb')
  have hndpre : (h :: pre).Nodup := List.nodup_cons.mpr ⟨hhpre, (List.nodup_append.mp hnd2).1⟩
  have her : (pre ++ x :: post).erase x = pre ++ post := by
    rw [List.erase_append_right _ hxpre, List.erase_cons_head]
  rw [her]
  rw [links_split] at hlk
  simp only [Bool.and_eq_true] at hlk
  obtain ⟨h1, h2⟩ := hlk
  obtain ⟨hp, -⟩ := links_last pre h h1
  have hlm := last_of_mem h pre
  have hlx : dbllinklist.last_of h pre ≠ x := fun e => by
    rw [e] at hlm
    rcases List.mem_cons.mp hlm with h3 | h3
    · exact hxh h3
    · exact hxpre h3
  have hfront : ∀ b ∈ dbllinklist.front h pre,
      (dbllinklist.list_del m x).next b = m.next b := by
    intro b hb
    have e1 : b ≠ x := fun e => by
      rcases List.mem_cons.mp (front_subset h pre b hb) with h3 | h3
      · exact hxh (e ▸ h3)
      · exact hxpre (e ▸ h3)
    rw [fn, if_neg e1, hp, if_neg (front_ne_last h pre b hndpre hb)]
  cases post with
  | nil =>
    simp only [dbllinklist.links, Bool.and_eq_true, beq_iff_eq] at h2
    rw [List.append_nil]
    apply links_retarget pre h h1 hfront
    · intro b hb
      have e1 : b ≠ x := fun e => hxpre (e ▸ hb)
      have e2 : b ≠ h := fun e => hhpre (e ▸ hb)
      rw [fp, if_neg e1, h2.1, if_neg e2]
    · rw [fn, if_neg hlx, hp, if_pos rfl, h2.1]
    · rw [fp, if_neg (Ne.symm hxh), h2.1, if_pos rfl, hp]
  | cons z zs =>
    simp only [dbllinklist.links, Bool.and_eq_true, beq_iff_eq] at h2
    have hzx : z ≠ x := fun e => hxpost (by simp [e])
    have hzh : z ≠ h := fun e => hhpost (by simp [e])
    have hzzs : z ∉ zs := (List.nodup_cons.mp hpost).1
    rw [links_split]
    simp only [Bool.and_eq_true]
    constructor
    · apply links_retarget pre h h1 hfront
      · intro b hb
        have e1 : b ≠ x := fun e => hxpre (e ▸ hb)
        have e2 : b ≠ z := fun e => hdis b hb (by simp [e])
        rw [fp, if_neg e1, h2.1.1, if_neg e2]
      · rw [fn, if_neg hlx, hp, if_pos rfl, h2.1.1]
      · rw [fp, if_neg hzx, h2.1.1, if_pos rfl, hp]
    · apply links_frame zs z h2.2
      · intro b hb
        have e1 : b ≠ x := fun e => hxpost (e ▸ hb)
        have e2 : b ≠ dbllinklist.last_of h pre := fun e => by
          rw [← e] at hlm
          rcases List.mem_cons.mp hlm with h3 | h3
          · exact hhpost (h3 ▸ hb)
          · exact hdis b h3 hb
        rw [fn, if_neg e1, hp, if_neg e2]
      · intro b hb
        have e1 : b ≠ x := fun e => by
          rcases List.mem_append.mp hb with h3 | h3
          · exact hxpost (e ▸ List.mem_cons_of_mem _ h3)
          · exact hxh (e.symm.trans (List.mem_singleton.mp h3))
        have e2 : b ≠ z := fun e => by
          rcases List.mem_append.mp hb with h3 | h3
          · exact hzzs (e ▸ h3)
          · exact hzh (e.symm.trans (List.mem_singleton.mp h3))
        rw [fp, if_neg e1, h2.1.1, if_neg e2]

/-- After `list_init(h)` the anchor `h` is a well-formed empty list. -/
theorem list_init_is_list (m : dbllinklist.Memory) (h : Nat) (hh : h ≠ 0) :
    dbllinklist.is_list (dbllinklist.list_init m h) h [] = true := by
  rw [is_list_iff]
  refine ⟨by simpa using hh.symm, by simp, ?_⟩
  simp [dbllinklist.links, dbllinklist.list_init, hh, dbllinklist.set_next, dbllinklist.set_prev]

/-- On a well-formed list `list_empty` returns 1 exactly when the list holds no entry. -/
theorem list_empty_iff {m : dbllinklist.Memory} {h : Nat} {s : List Nat}
    (hl : dbllinklist.is_list m h s = true) : dbllinklist.list_empty m h = 1 ↔ s = [] := by
  obtain ⟨h0, hnd, hlk⟩ := is_list_iff.mp hl
  have hh : h ≠ 0 := fun e => h0 (by simp [e])
  unfold dbllinklist.list_empty
  rw [if_pos hh]
  cases s with
  | nil =>
    simp only [dbllinklist.links, Bool.and_eq_true, beq_iff_eq] at hlk
    simp [hlk.1, hlk.2]
  | cons x xs =>
    simp only [dbllinklist.links, Bool.and_eq_true, beq_iff_eq] at hlk
    have hx : x ≠ h := fun e => (List.nodup_cons.mp hnd).1 (by simp [e])
    simp [hlk.1.1, hx]

theorem replay_is_list (h : Nat) :
    ∀ (ops : List dbllinklist.list_op) (m : dbllinklist.Memory) (q : List Nat),
      dbllinklist.is_list m h q = true → valid_ops h q ops = true →
      dbllinklist.is_list (dbllinklist.replay h m ops) h (queue_replay q ops) = true ∧
        (queue_replay q ops).Sublist (q ++ inserted ops)
  | [], m, q, hl, _ => by
    simp only [dbllinklist.replay, queue_replay, inserted, List.append_nil]
    exact ⟨hl, List.Sublist.refl q⟩
  | .add_tail e :: ops, m, q, hl, hv => by
    simp only [valid_ops, Bool.and_eq_true, decide_eq_true_eq] at hv
    obtain ⟨⟨⟨h1, h2⟩, h3⟩, h4⟩ := hv
    have ih := replay_is_list h ops (dbllinklist.list_add_tail m e h) (list_add_tail e q)
      (list_add_tail_is_list hl h1 h2 h3) h4
    simp only [dbllinklist.replay, queue_replay, inserted]
    refine ⟨ih.1, ?_⟩
    have := ih.2
    simp only [list_add_tail, List.append_assoc, List.singleton_append] at this
    exact this
  | .del x :: ops, m, q, hl, hv => by
    simp only [valid_ops, Bool.and_eq_true, decide_eq_true_eq] at hv
    obtain ⟨h1, h4⟩ := hv
    have ih := replay_is_list h ops (dbllinklist.list_del m x) (list_del x q)
      (list_del_is_list hl h1).1 h4
    simp only [dbllinklist.replay, queue_replay, inserted]
    refine ⟨ih.1, ih.2.trans ?_⟩
    exact List.Sublist.append (List.erase_sublist x q) (List.Sublist.refl _)

theorem is_list_entries {m : dbllinklist.Memory} {h : Nat} {s : List Nat}
    (hl : dbllinklist.is_list m h s = true) :
    dbllinklist.list_entries m h (s.length + 1) (m.next h) = s := by
  obtain ⟨-, hnd, hlk⟩ := is_list_iff.mp hl
  exact list_entries_links s h hlk (List.nodup_cons.mp hnd).1

/-- C13. For a well-formed circular list with anchor `h` that holds the entries `s` in
order from `h.next` (the traversal from `h.next` up to `h` reads `s`):
`list_add_tail(e, h)` with a detached entry `e` yields the well-formed list of `s`
followed by `e`; `list_del(x)` for a member `x` yields the well-formed list of `s`
without `x`, the other entries in their order, and leaves `x` linked to itself; and after
any sequence of such calls the list holds the queue computed on the list of entries, which
is a subsequence of the entries in the order of their insertion. -/
theorem list_add_tail_del_fifo (m : dbllinklist.Memory) (h : Nat) (s : List Nat)
    (hl : dbllinklist.is_list m h s = true) :
    dbllinklist.list_entries m h (s.length + 1) (m.next h) = s ∧
    (∀ e : Nat, e ≠ 0 → e ≠ h → m.next e = e → m.prev e = e →
      dbllinklist.is_list (dbllinklist.list_add_tail m e h) h (s ++ [e]) = true ∧
      dbllinklist.list_entries (dbllinklist.list_add_tail m e h) h (s.length + 2)
        ((dbllinklist.list_add_tail m e h).next h) = s ++ [e]) ∧
    (∀ x : Nat, x ∈ s →
      dbllinklist.is_list (dbllinklist.list_del m x) h (s.filter (fun y => y != x)) = true ∧
      dbllinklist.list_entries (dbllinklist.list_del m x) h s.length
        ((dbllinklist.list_del m x).next h) = s.filter (fun y => y != x) ∧
      (dbllinklist.list_del m x).next x = x ∧ (dbllinklist.list_del m x).prev x = x) ∧
    (∀ ops : List dbllinklist.list_op, valid_ops h s ops = true →
      dbllinklist.is_list (dbllinklist.replay h m ops) h (queue_replay s ops) = true ∧
      (queue_replay s ops).Sublist (s ++ inserted ops)) := by
  obtain ⟨-, hnd, hlk⟩ := is_list_iff.mp hl
  refine ⟨is_list_entries hl, ?_, ?_, fun ops hv => replay_is_list h ops m s hl hv⟩
  · intro e he0 heh hn _
    have hes : e ∉ s := fun hm => (links_next_ne hlk hnd hm).1 hn
    have h1 := list_add_tail_is_list hl he0 heh hes
    refine ⟨h1, ?_⟩
    have := is_list_entries h1
    simp only [List.length_append, List.length_singleton] at this
    exact this
  · intro x hx
    have h1 := list_del_is_list hl hx
    have e1 : s.erase x = s.filter (fun y => y != x) :=
      (List.nodup_cons.mp hnd).2.erase_eq_filter x
    rw [e1] at h1
    refine ⟨h1.1, ?_, h1.2⟩
    have := is_list_entries h1.1
    rw [← e1] at this ⊢
    rw [List.length_erase_of_mem hx] at this
    obtain ⟨k, hk⟩ : ∃ k, s.length = k + 1 := ⟨s.length - 1, by
      have := List.length_pos_of_mem hx
      omega⟩
    rw [hk] at this ⊢
    exact this

theorem list_add_tail_del_fifo_witness :
    dbllinklist.is_list detached_cells 1 [] = true ∧
    valid_ops 1 [] [.add_tail 2, .add_tail 3, .del 2, .add_tail 4] = true ∧
    dbllinklist.is_list
      (dbllinklist.replay 1 detached_cells [.add_tail 2, .add_tail 3, .del 2, .add_tail 4]) 1
      (queue_replay [] [.add_tail 2, .add_tail 3, .del 2, .add_tail 4]) = true ∧
    (queue_replay [] [.add_tail 2, .add_tail 3, .del 2, .add_tail 4]).Sublist
      ([] ++ inserted [.add_tail 2, .add_tail 3, .del 2, .add_tail 4]) :=
  ⟨by decide, by decide,
   (list_add_tail_del_fifo detached_cells 1 [] (by decide)).2.2.2
     [.add_tail 2, .add_tail 3, .del 2, .add_tail 4] (by decide)⟩

/-! ### The characters handed to the device -/

/-- The search and the insertion of `print_cmd_fct`, one after the other without another
thread in between, are `resolve_printer`. -/
theorem resolve_printer_sections (env : Env) (printers : List printer_t) (printer_id : Int) :
    resolve_printer env printers printer_id =
      if printer_id = 0 || !env.printer_exists printer_id then (printers, none, .PRINTER_ERROR)
      else ((register_printer printers printer_id (find_printer printer_id printers)).1,
            some (register_printer printers printer_id (find_printer printer_id printers)).2,
            .WAITING) := by
  unfold resolve_printer register_printer
  split_ifs
  · rfl
  · cases find_printer printer_id printers <;> rfl

theorem map_id_set {l : List printer_t} {p : Nat} {pr pr' : printer_t}
    (h : l[p]? = some pr) (e : pr'.id = pr.id) :
    (l.set p pr').map (fun x => x.id) = l.map (fun x => x.id) := by
  rw [List.map_set, e]
  apply set_same
  rw [List.getElem?_map, h]
  rfl

theorem map_id_modify (f : printer_t → printer_t) (hf : ∀ pr, (f pr).id = pr.id) :
    ∀ (l : List printer_t) (p : Nat), (l.modify f p).map (fun x => x.id) = l.map (fun x => x.id)
  | [], _ => by simp
  | a :: l, 0 => by simp [hf]
  | a :: l, p + 1 => by simp [map_id_modify f hf l p]

theorem registry_ids_job_worker (env : Env) (s : State) (j : Nat) :
    registry_ids (job_worker env s j) = registry_ids s := by
  rcases job_worker_cases env s j with h | ⟨job, _, _, _, h⟩ | ⟨job, p, pr, _, _, _, hpr, h⟩
  · rw [h]
  · rw [h]; rfl
  · rw [h]
    exact map_id_set hpr (job_worker_step_fields env j job pr).2.2.2.2

theorem registry_ids_prim {s s' : State} (h : Prim s s') : registry_ids s' = registry_ids s := by
  cases h with
  | join_step env _ j job hj h1 h2 => exact registry_ids_job_worker env s j
  | cancel_running _ j job hj hst => rfl
  | cancel_waiting _ j job p pr hj hst hp hpr => exact map_id_set hpr rfl
  | settle _ j job p pr hj hst hp hpr => exact map_id_set hpr rfl
  | unlink _ c j => rfl
  | quit_flag _ c => rfl

theorem registry_ids_chain {s s' : State} (h : Relation.ReflTransGen Prim s s') :
    registry_ids s' = registry_ids s := by
  induction h with
  | refl => rfl
  | tail _ hp ih => rw [registry_ids_prim hp, ih]

/-- The registry after a `print` command that no other `print` command overlaps: a
command for an id that has a record leaves the ids as they are, a command for an id
without a record appends at most that id. -/
theorem registry_ids_print {s s' : State} {env : Env} {c : Nat} {args : List String}
    {r : String} (h : print_cmd_fct env s c args = some (s', r)) :
    registry_ids s' = registry_ids s ∨
      (atoi (args.getD 1 "") ∉ registry_ids s ∧
        registry_ids s' = registry_ids s ++ [atoi (args.getD 1 "")]) := by
  by_cases hargs : args.length = 3
  · obtain ⟨client, hc⟩ := print_cmd_fct_client h hargs
    rw [print_cmd_fct_eq env s c args client hargs hc] at h
    simp only [Option.some.injEq, Prod.mk.injEq] at h
    obtain ⟨h, -⟩ := h
    subst h
    simp only [registry_ids]
    rcases resolve_printer_cases env s.printers (atoi (args.getD 1 "")) with h | ⟨p, pr, _, _, h⟩ |
      ⟨hn, h⟩
    · rw [h]; exact Or.inl rfl
    · rw [h]
      simp only
      left
      apply map_id_modify
      intro pr
      rfl
    · rw [h]
      right
      constructor
      · intro hm
        obtain ⟨pr, hpr, e⟩ := List.mem_map.mp hm
        exact find_printer_none hn pr hpr e
      · simp only
        have e := map_id_modify
          (fun pr : printer_t =>
            { pr with jobs := print_link s.jobs.length (decide (env.pthread_create = 0)) pr.jobs })
          (fun _ => rfl) (s.printers ++ [init_printer (atoi (args.getD 1 ""))]) s.printers.length
        rw [e]
        simp [init_printer]
  · rw [(print_cmd_fct_args h hargs).1]
    exact Or.inl rfl

/-- As long as no two `print` commands overlap, the registry holds no two records with
the same id. -/
theorem registry_ids_nodup {s : State} (hR : Reachable s) : (registry_ids s).Nodup := by
  obtain ⟨ls, hrun⟩ := hR
  have key : ∀ (ls : List Label) (s0 s1 : State), (registry_ids s0).Nodup →
      run s0 ls = some s1 → (registry_ids s1).Nodup := by
    intro ls
    induction ls with
    | nil =>
      intro s0 s1 h0 h
      simp only [run, Option.some.injEq] at h
      exact h ▸ h0
    | cons l ls ih =>
      intro s0 s1 h0 h
      simp only [run] at h
      cases hs : step s0 l with
      | none => simp [hs] at h
      | some s2 =>
        simp only [hs] at h
        refine ih s2 s1 ?_ h
        rcases step_cases hs with ⟨env, j, _, e⟩ | ⟨env, c, args, r, _, _, _, hp⟩ | ⟨_, e⟩ |
          ⟨c, _, e⟩ | ⟨env, c, args, _, _, hch⟩
        · rw [e, registry_ids_job_worker]; exact h0
        · rcases registry_ids_print hp with e | ⟨hn, e⟩
          · rw [e]; exact h0
          · rw [e]
            exact List.Nodup.append h0 (List.nodup_singleton _)
              (by
                intro a ha hb
                rw [List.mem_singleton] at hb
                exact hn (hb ▸ ha))
        · rw [e]; exact h0
        · rw [e]; exact h0
        · rw [registry_ids_chain hch]; exact h0
  exact key ls init s (by simp [registry_ids, init]) hrun

/-- C19 at a failing interleaving: device 7 exists and the registry is empty; two client
threads execute `print 7 ...`, and both finish the search of lines 201-214 before either
links its record.  Each of them finds nothing, allocates a record and links it: the
registry holds two records with the id 7, and the two jobs are attached to different
records.  Without the overlap the second command finds the record of the first. -/
theorem registry_race_duplicates :
    env_up.printer_exists 7 = true ∧
    find_printer 7 [] = none ∧
    (registry_race [] 7).1.map (fun pr => pr.id) = [7, 7] ∧
    (registry_race [] 7).2 = (0, 1) ∧
    (resolve_printer env_up (resolve_printer env_up [] 7).1 7).1.map (fun pr => pr.id) = [7] := by
  decide

/-! ### Invariants of the job records -/

theorem jobinv_step (env : Env) (j : Nat) (job : job_t) (pr : printer_t) (h : JobInv job)
    (hp : job.printer ≠ none) : JobInv (job_worker_step env j job pr).1 := by
  obtain ⟨h1, h2, h3, h4, h5, h6, h7⟩ := h
  unfold job_worker_step
  cases hpc : job.tid.pc <;> simp only [hpc, pc_t.early, pc_t.printing] at h2 h3 h4 h5 h6 ⊢
  all_goals repeat' split
  all_goals constructor
  all_goals simp_all [pc_t.early, pc_t.printing]
  all_goals (try omega)

theorem sound_set {s s' : State} {j : Nat} {job' : job_t} (hS : Sound s)
    (h1 : s'.jobs = s.jobs.set j job') (h2 : JobInv job') : Sound s' := by
  intro k jobk hk
  rw [h1] at hk
  rcases lookup_set hk with ⟨_, rfl⟩ | ⟨_, hk'⟩
  · exact h2
  · exact hS k jobk hk'

theorem sound_of_eq {s s' : State} (hS : Sound s) (h1 : s'.jobs = s.jobs) : Sound s' := by
  intro k jobk hk
  rw [h1] at hk
  exact hS k jobk hk

theorem sound_job_worker {s : State} (hI : Inv s) (hS : Sound s) (env : Env) (j : Nat) :
    Sound (job_worker env s j) := by
  rcases job_worker_cases env s j with h | ⟨job, hj, _, hp, h⟩ | ⟨job, p, pr, hj, _, hp, hpr, h⟩
  · rw [h]; exact hS
  · rw [h]
    refine sound_set hS rfl ?_
    obtain ⟨h1, h2, h3, h4, h5, h6, h7⟩ := hS j job hj
    have hst := hI.no_printer j job hj hp
    constructor <;> simp_all [pc_t.early, pc_t.printing]
  · rw [h]
    exact sound_set hS rfl (jobinv_step env j job pr (hS j job hj) (by rw [hp]; simp))

theorem sound_prim {s s' : State} (hI : Inv s) (hS : Sound s) (h : Prim s s') : Sound s' := by
  cases h with
  | join_step env _ j job hj h1 h2 => exact sound_job_worker hI hS env j
  | cancel_running _ j job hj hst =>
    refine sound_set hS rfl ?_
    obtain ⟨h1, h2, h3, h4, h5, h6, h7⟩ := hS j job hj
    constructor <;> simp_all
  | cancel_waiting _ j job p pr hj hst hp hpr =>
    refine sound_set hS rfl ?_
    obtain ⟨h1, h2, h3, h4, h5, h6, h7⟩ := hS j job hj
    constructor <;> simp_all [pthread_cancel, pc_t.early, pc_t.printing]
  | settle _ j job p pr hj hst hp hpr =>
    refine sound_set hS rfl ?_
    obtain ⟨h1, h2, h3, h4, h5, h6, h7⟩ := hS j job hj
    constructor <;> simp_all [pthread_cancel, pc_t.early, pc_t.printing]
    all_goals rcases hst with e | e <;> simp_all
  | unlink _ c j => exact sound_of_eq hS rfl
  | quit_flag _ c => exact sound_of_eq hS rfl

theorem sound_chain {s s' : State} (hI : Inv s) (hS : Sound s)
    (h : Relation.ReflTransGen Prim s s') : Sound s' := by
  induction h with
  | refl => exact hS
  | tail hc hp ih => exact sound_prim (prim_chain hI hc).1 ih hp

theorem sound_print {s s' : State} (hS : Sound s) {env : Env} {c : Nat} {args : List String}
    {r : String} (h : print_cmd_fct env s c args = some (s', r)) : Sound s' := by
  by_cases hargs : args.length = 3
  · obtain ⟨client, hc⟩ := print_cmd_fct_client h hargs
    rw [print_cmd_fct_eq env s c args client hargs hc] at h
    simp only [Option.some.injEq, Prod.mk.injEq] at h
    obtain ⟨h, -⟩ := h
    subst h
    intro k jobk hk
    simp only at hk
    by_cases hlt : k < s.jobs.length
    · rw [List.getElem?_append_left hlt] at hk
      exact hS k jobk hk
    · rw [List.getElem?_append_right (by omega)] at hk
      have hk0 : k - s.jobs.length = 0 := by
        by_contra hne
        obtain ⟨m, hm⟩ : ∃ m, k - s.jobs.length = m + 1 := ⟨k - s.jobs.length - 1, by omega⟩
        rw [hm] at hk
        simp at hk
      rw [hk0] at hk
      simp only [List.getElem?_cons_zero, Option.some.injEq] at hk
      subst hk
      obtain ⟨a, b, d⟩ := print_job_status env s c client args
      constructor
      · simp [print_job]
      · intro _; simp [print_job]
      · intro hp
        rcases d with d | d <;> rw [d] at hp <;> cases hp
      · intro hst
        by_cases hpn : (print_job env s c client args).printer = none
        · rw [a hpn] at hst; cases hst
        · rw [b hpn] at hst; cases hst
      · intro hst
        by_cases hpn : (print_job env s c client args).printer = none
        · rw [a hpn] at hst; cases hst
        · rw [b hpn] at hst; cases hst
      · intro hp
        rcases d with d | d <;> rw [d] at hp <;> rcases hp with hp | hp <;> cases hp
      · intro _; simp [print_job]
  · rw [(print_cmd_fct_args h hargs).1]
    exact hS

theorem sound_step {s s' : State} {l : Label} (hI : Inv s) (hS : Sound s)
    (h : step s l = some s') : Sound s' := by
  rcases step_cases h with ⟨env, j, _, e⟩ | ⟨env, c, args, r, _, _, _, hp⟩ | ⟨_, e⟩ |
    ⟨c, _, e⟩ | ⟨env, c, args, _, _, hch⟩
  · rw [e]; exact sound_job_worker hI hS env j
  · exact sound_print hS hp
  · rw [e]; exact sound_of_eq hS rfl
  · rw [e]; exact sound_of_eq hS rfl
  · exact sound_chain hI hS hch

theorem sound_run : ∀ {ls : List Label} {s s' : State}, Inv s → Sound s → run s ls = some s' →
    Sound s'
  | [], s, s', _, hS, h => by
    simp only [run, Option.some.injEq] at h
    subst h; exact hS
  | l :: ls, s, s', hI, hS, h => by
    simp only [run] at h
    split at h
    · cases h
    · rename_i s1 hs1
      exact sound_run (step_inv hI hs1) (sound_step hI hS hs1) h

theorem reachable_sound {s : State} (h : Reachable s) : Sound s := by
  obtain ⟨ls, hrun⟩ := h
  exact sound_run inv_init (fun j job hj => by simp [init] at hj) hrun

/-! ### The status an invoice reports -/

theorem run_worker_not_waiting (env : Env) (j : Nat) :
    ∀ (n : Nat) (s : State) (job : job_t), s.jobs[j]? = some job → job.status ≠ .WAITING →
      ∃ job', (run_worker env n s j).jobs[j]? = some job' ∧ job'.status ≠ .WAITING
  | 0, s, job, hj, h => ⟨job, hj, h⟩
  | n + 1, s, job, hj, h => by
    obtain ⟨job1, hj1, hs⟩ := job_worker_own_status env s j job hj
    have h1 : job1.status ≠ .WAITING := by
      rcases hs with e | e
      · rw [e]; exact h
      · exact e.1
    exact run_worker_not_waiting env j n (job_worker env s j) job1 hj1 h1

/-- The status of the job after lines 356-371 of `invoice_cmd_fct`: the status of a job
that was WAITING or CANCELED is what it was; any other job has been joined and its status
is neither WAITING nor IN_PROGRESS. -/
theorem invoice_settle_status {s s1 : State} (hI : Inv s) (hS : Sound s) {env : Env} {j : Nat}
    {job job1 : job_t} (hj : s.jobs[j]? = some job)
    (h : invoice_settle env s j job = some s1) (hj1 : s1.jobs[j]? = some job1) :
    (job.status = .WAITING ∨ job.status = .CANCELED → job1.status = job.status) ∧
    (job.status ≠ .WAITING → job1.status ≠ .WAITING) ∧ job1.status ≠ .IN_PROGRESS := by
  have hS1 : Sound s1 := sound_chain hI hS (invoice_settle_chain hj h)
  unfold invoice_settle at h
  by_cases hst : job.status = .WAITING ∨ job.status = .CANCELED
  · rw [if_pos hst] at h
    cases hp : job.printer with
    | none => simp [hp] at h
    | some p =>
      simp only [hp] at h
      cases hpr : s.printers[p]? with
      | none => simp [hpr] at h
      | some pr =>
        simp only [hpr, Option.some.injEq] at h
        subst h
        simp only at hj1
        rw [lookup_set_self _ hj] at hj1
        cases hj1
        refine ⟨fun _ => rfl, fun h => h, ?_⟩
        show job.status ≠ .IN_PROGRESS
        rcases hst with e | e <;> rw [e] <;> decide
  · rw [if_neg hst] at h
    have hw : job.status ≠ .WAITING := fun e => hst (Or.inl e)
    refine ⟨fun e => absurd e hst, fun _ => ?_, ?_⟩
    · unfold pthread_join at h
      simp only [hj] at h
      obtain ⟨job', hj', hs'⟩ := run_worker_not_waiting env j (join_fuel job) s job hj hw
      simp only [hj'] at h
      split_ifs at h
      cases h
      rw [hj'] at hj1; cases hj1
      exact hs'
    · intro hip
      have hpc : job1.tid.pc = .EXITED := by
        unfold pthread_join at h
        simp only [hj] at h
        cases hj' : (run_worker env (join_fuel job) s j).jobs[j]? with
        | none => simp [hj'] at h
        | some job' =>
          simp only [hj'] at h
          split_ifs at h with hx
          cases h
          rw [hj'] at hj1; cases hj1
          exact hx
      exact ((hS1 j job1 hj1).running hip).2.2 hpc

/-- When no other thread takes a step while `invoice` runs: in every reachable state
`invoice` on a job of the client's index returns, and the status it reports is never
`printing`: a job that is IN_PROGRESS is joined and reported with the status it ends in.
The reported status is `waiting` exactly when the job was WAITING when `invoice` was
issued; for every other job it is one of `cancelled`, `finished`, `printer error` and
`file error`. -/
theorem invoice_reported_status (env : Env) (s : State) (c : Nat) (args : List String)
    (client : client_t) (j : Nat) (job0 : job_t) (hR : Reachable s)
    (hargs : args.length = 2) (hc : s.clients[c]? = some client)
    (hf : find_job s client.jobs (atoi (args.getD 1 "")) = some j)
    (hj0 : s.jobs[j]? = some job0) :
    ∃ s' reply job lead, invoice_cmd_fct env s c args = some (s', reply) ∧
      s'.jobs[j]? = some job ∧
      (lead = "  Job " ++ fmt_d job.id ++ ": status '" ∨
        ∃ pid : Int, lead = "  Job " ++ fmt_d job.id ++ ", printer " ++ fmt_d pid ++ ": status '") ∧
      reply = lead ++ get_status job.status ++ "', printed " ++ fmt_d job.page_count
        ++ " pages. " ++ fmt_2f (invoice_total job) ++ " total.\n" ∧
      job.status ≠ .IN_PROGRESS ∧ (job.status = .WAITING ↔ job0.status = .WAITING) ∧
      (job0.status ≠ .WAITING →
        job.status = .CANCELED ∨ job.status = .FINISHED ∨ job.status = .PRINTER_ERROR ∨
          job.status = .FILE_ERROR) := by
  have hI := reachable_inv hR
  have hS := reachable_sound hR
  obtain ⟨s', reply, h⟩ := invoice_cmd_fct_returns hI env hargs hc hf
  obtain ⟨job0', s1, job, hj0', hst, hj1, hr, hs'⟩ :=
    invoice_cmd_fct_found env s s' c args client j reply hargs hc hf h
  rw [hj0] at hj0'; cases hj0'
  have hj' : s'.jobs[j]? = some job := by rw [hs']; exact hj1
  obtain ⟨a1, a2, a3⟩ := invoice_settle_status hI hS hj0 hst hj1
  have hiff : job.status = .WAITING ↔ job0.status = .WAITING := by
    constructor
    · intro e
      by_contra hne
      exact a2 hne e
    · intro e
      rw [a1 (Or.inl e)]; exact e
  have hterm : job0.status ≠ .WAITING →
      job.status = .CANCELED ∨ job.status = .FINISHED ∨ job.status = .PRINTER_ERROR ∨
        job.status = .FILE_ERROR := by
    intro hne
    have := a2 hne
    cases hx : job.status <;> simp_all
  unfold invoice_reply at hr
  by_cases hpe : job.status = .PRINTER_ERROR
  · rw [if_pos hpe] at hr
    exact ⟨s', reply, job, _, h, hj', Or.inl rfl, (Option.some.inj hr).symm, a3, hiff, hterm⟩
  · rw [if_neg hpe] at hr
    cases hp : job.printer with
    | none => simp [hp] at hr
    | some p =>
      simp only [hp] at hr
      cases hpr : s1.printers[p]? with
      | none => simp [hpr] at hr
      | some pr =>
        simp only [hpr] at hr
        exact ⟨s', reply, job, _, h, hj', Or.inr ⟨pr.id, rfl⟩, (Option.some.inj hr).symm, a3,
          hiff, hterm⟩

/-! ### The page count -/

theorem was_in_progress_iff {ls : List Label} {j : Nat} :
    was_in_progress ls j = true ↔
      ∃ i s, i ≤ ls.length ∧ state_at ls i = some s ∧ in_progress s j = true := by
  unfold was_in_progress
  rw [List.any_eq_true]
  constructor
  · rintro ⟨i, hi, h⟩
    rw [List.mem_range] at hi
    cases hs : state_at ls i with
    | none => simp [hs] at h
    | some s =>
      simp only [hs] at h
      exact ⟨i, s, by omega, hs, h⟩
  · rintro ⟨i, s, hi, hs, h⟩
    refine ⟨i, List.mem_range.mpr (by omega), ?_⟩
    simp only [hs]
    exact h

theorem was_in_progress_snoc {ls : List Label} {j : Nat} (l : Label)
    (h : was_in_progress ls j = true) : was_in_progress (ls ++ [l]) j = true := by
  rw [was_in_progress_iff] at h ⊢
  obtain ⟨i, s, hi, hs, hp⟩ := h
  refine ⟨i, s, by simp only [List.length_append, List.length_singleton]; omega, ?_, hp⟩
  unfold state_at at hs ⊢
  rw [List.take_append_of_le_length hi]
  exact hs

theorem was_in_progress_last {ls : List Label} {j : Nat} {s : State}
    (hrun : run init ls = some s) (h : in_progress s j = true) : was_in_progress ls j = true := by
  rw [was_in_progress_iff]
  refine ⟨ls.length, s, Nat.le_refl _, ?_, h⟩
  unfold state_at
  rw [List.take_length]
  exact hrun

theorem job_worker_step_pages (env : Env) (j : Nat) (job : job_t) (pr : printer_t)
    (h : JobInv job) (hp : 0 < (job_worker_step env j job pr).1.page_count) :
    0 < job.page_count ∨
      (job.tid.pc = .SET ∧ (job_worker_step env j job pr).1.status = .IN_PROGRESS) := by
  obtain ⟨h1, h2, h3, h4, h5, h6, h7⟩ := h
  unfold job_worker_step at hp ⊢
  cases hpc : job.tid.pc <;> simp only [hpc, pc_t.early, pc_t.printing] at h2 h3 hp ⊢
  all_goals repeat' split at hp
  all_goals simp_all
  all_goals omega

theorem job_worker_pages {s : State} (hS : Sound s) (env : Env) (j k : Nat) (job' : job_t)
    (hk : (job_worker env s j).jobs[k]? = some job') (hp : 0 < job'.page_count) :
    (∃ job, s.jobs[k]? = some job ∧ 0 < job.page_count) ∨
      (job'.status = .IN_PROGRESS ∧
        ∃ job, s.jobs[k]? = some job ∧ job.tid.pc = .SET ∧ job.printer ≠ none) := by
  rcases job_worker_cases env s j with h | ⟨job, hj, _, hpn, h⟩ | ⟨job, p, pr, hj, _, hpp, hpr, h⟩
  · rw [h] at hk; exact Or.inl ⟨job', hk, hp⟩
  · rw [h] at hk
    simp only at hk
    rcases lookup_set hk with ⟨rfl, rfl⟩ | ⟨_, hk'⟩
    · exact Or.inl ⟨job, hj, hp⟩
    · exact Or.inl ⟨job', hk', hp⟩
  · rw [h] at hk
    simp only at hk
    rcases lookup_set hk with ⟨rfl, rfl⟩ | ⟨_, hk'⟩
    · rcases job_worker_step_pages env k job pr (hS k job hj) hp with e | ⟨e1, e2⟩
      · exact Or.inl ⟨job, hj, e⟩
      · exact Or.inr ⟨e2, job, hj, e1, by rw [hpp]; simp⟩
    · exact Or.inl ⟨job', hk', hp⟩

theorem pageskept_refl (s : State) : PagesKept s s := fun _ job' h hp => ⟨job', h, hp⟩

theorem pageskept_trans {s s' s'' : State} (h1 : PagesKept s s') (h2 : PagesKept s' s'') :
    PagesKept s s'' := by
  intro j job'' hj hp
  obtain ⟨job', hj', hp'⟩ := h2 j job'' hj hp
  exact h1 j job' hj' hp'

theorem pageskept_set {s s' : State} {j : Nat} {job job' : job_t} (hj : s.jobs[j]? = some job)
    (h1 : s'.jobs = s.jobs.set j job') (h2 : job'.page_count = job.page_count) :
    PagesKept s s' := by
  intro k jobk hk hp
  rw [h1] at hk
  rcases lookup_set hk with ⟨rfl, rfl⟩ | ⟨_, hk'⟩
  · exact ⟨job, hj, by rw [← h2]; exact hp⟩
  · exact ⟨jobk, hk', hp⟩

theorem pageskept_prim {s s' : State} (hI : Inv s) (hS : Sound s) (h : Prim s s') :
    PagesKept s s' := by
  cases h with
  | join_step env _ j job hj h1 h2 =>
    intro k job' hk hp
    rcases job_worker_pages hS env j k job' hk hp with e | ⟨_, job0, hj0, hpc, hne⟩
    · exact e
    · have hw := hI.set_waiting k job0 hj0 hne hpc
      rcases job_worker_cases env s j with h | ⟨jobj, hjj, _, hpn, h⟩ |
        ⟨jobj, p, pr, hjj, _, hpp, hpr, h⟩
      · rw [h] at hk; exact ⟨job', hk, hp⟩
      · rw [h] at hk
        simp only at hk
        rcases lookup_set hk with ⟨rfl, rfl⟩ | ⟨_, hk'⟩
        · exact ⟨jobj, hjj, hp⟩
        · exact ⟨job', hk', hp⟩
      · rw [h] at hk
        simp only at hk
        rcases lookup_set hk with ⟨rfl, rfl⟩ | ⟨_, hk'⟩
        · rw [hj] at hj0; cases hj0
          exact absurd hw h1
        · exact ⟨job', hk', hp⟩
  | cancel_running _ j job hj hst => exact pageskept_set hj rfl rfl
  | cancel_waiting _ j job p pr hj hst hp hpr => exact pageskept_set hj rfl rfl
  | settle _ j job p pr hj hst hp hpr => exact pageskept_set hj rfl rfl
  | unlink _ c j => exact pageskept_refl _
  | quit_flag _ c => exact pageskept_refl _

theorem pageskept_chain {s s' : State} (hI : Inv s) (hS : Sound s)
    (h : Relation.ReflTransGen Prim s s') : PagesKept s s' := by
  induction h with
  | refl => exact pageskept_refl s
  | tail hc hp ih =>
    exact pageskept_trans ih (pageskept_prim (prim_chain hI hc).1 (sound_chain hI hS hc) hp)

theorem pageskept_print {s s' : State} {env : Env} {c : Nat} {args : List String}
    {r : String} (h : print_cmd_fct env s c args = some (s', r)) : PagesKept s s' := by
  by_cases hargs : args.length = 3
  · obtain ⟨client, hc⟩ := print_cmd_fct_client h hargs
    rw [print_cmd_fct_eq env s c args client hargs hc] at h
    simp only [Option.some.injEq, Prod.mk.injEq] at h
    obtain ⟨h, -⟩ := h
    subst h
    intro k jobk hk hp
    simp only at hk
    by_cases hlt : k < s.jobs.length
    · rw [List.getElem?_append_left hlt] at hk
      exact ⟨jobk, hk, hp⟩
    · rw [List.getElem?_append_right (by omega)] at hk
      have hk0 : k - s.jobs.length = 0 := by
        by_contra hne
        obtain ⟨m, hm⟩ : ∃ m, k - s.jobs.length = m + 1 := ⟨k - s.jobs.length - 1, by omega⟩
        rw [hm] at hk
        simp at hk
      rw [hk0] at hk
      simp only [List.getElem?_cons_zero, Option.some.injEq] at hk
      subst hk
      simp [print_job] at hp
  · rw [(print_cmd_fct_args h hargs).1]
    exact pageskept_refl _

/-- A page count that is positive after a step was positive before it, unless the step is
the one that sets IN_PROGRESS. -/
theorem step_pages {s s' : State} {l : Label} (hI : Inv s) (hS : Sound s)
    (h : step s l = some s') (j : Nat) (job' : job_t) (hj : s'.jobs[j]? = some job')
    (hp : 0 < job'.page_count) :
    (∃ job, s.jobs[j]? = some job ∧ 0 < job.page_count) ∨ job'.status = .IN_PROGRESS := by
  rcases step_cases h with ⟨env, k, _, e⟩ | ⟨env, c, args, r, _, _, _, hpr⟩ | ⟨_, e⟩ |
    ⟨c, _, e⟩ | ⟨env, c, args, _, _, hch⟩
  · rw [e] at hj
    rcases job_worker_pages hS env k j job' hj hp with e1 | ⟨e1, _⟩
    · exact Or.inl e1
    · exact Or.inr e1
  · exact Or.inl (pageskept_print hpr j job' hj hp)
  · rw [e] at hj; exact Or.inl ⟨job', hj, hp⟩
  · rw [e] at hj; exact Or.inl ⟨job', hj, hp⟩
  · exact Or.inl (pageskept_chain hI hS hch j job' hj hp)

/-- C16. After every run of the server the page count of every job is at least 0; it is
positive only if the status of the job is IN_PROGRESS in one of the states the run has
gone through (line 674 sets IN_PROGRESS one statement before line 675 sets the page count
to 1, in the same locked section); and a job whose status is FILE_ERROR has page
count 0. -/
theorem page_count_bounds (ls : List Label) (s : State) (hrun : run init ls = some s)
    (j : Nat) (job : job_t) (hj : s.jobs[j]? = some job) :
    0 ≤ job.page_count ∧ (0 < job.page_count → was_in_progress ls j = true) ∧
      (job.status = .FILE_ERROR → job.page_count = 0) := by
  have hS : Sound s := reachable_sound ⟨ls, hrun⟩
  refine ⟨(hS j job hj).pages_nonneg, ?_, fun h => ((hS j job hj).file_error h).1⟩
  revert s j job
  induction ls using List.reverseRecOn with
  | nil =>
    intro s h j job hj
    simp only [run, Option.some.injEq] at h
    subst h
    simp [init] at hj
  | append_singleton ls l ih =>
    intro s h j job hj _ hp
    have hrun := h
    rw [run_snoc] at h
    cases h1 : run init ls with
    | none => simp [h1] at h
    | some s1 =>
      simp only [h1, Option.some_bind] at h
      have hI1 : Inv s1 := reachable_inv ⟨ls, h1⟩
      have hS1 : Sound s1 := reachable_sound ⟨ls, h1⟩
      rcases step_pages hI1 hS1 h j job hj hp with ⟨job1, hj1, hp1⟩ | hst
      · exact was_in_progress_snoc l (ih s1 h1 j job1 hj1 hS1 hp1)
      · exact was_in_progress_last hrun (in_progress_iff.mpr ⟨job, hj, hst⟩)

set_option maxRecDepth 100000 in
theorem page_count_bounds_witness :
    0 ≤ (1 : Int) ∧ ((0 : Int) < 1 → was_in_progress finished_run 0 = true) ∧
      (status_e.FINISHED = .FILE_ERROR → (1 : Int) = 0) :=
  page_count_bounds finished_run (state_after finished_run) (by decide) 0
    { printer := some 0, client := 0, filename := "a", fd := [], page_count := 1,
      tid := { pc := .EXITED, aborted := false, line_count := 1, line := [] },
      id := 1, status := .FINISHED }
    (by decide)

/-! ### The indexes of the clients and the command invoice -/

theorem lookup_modify {α : Type} (f : α → α) :
    ∀ (l : List α) (c k : Nat) (x : α), (l.modify f c)[k]? = some x →
      ∃ y, l[k]? = some y ∧ ((k ≠ c ∧ x = y) ∨ (k = c ∧ x = f y))
  | [], _, _, _, h => by simp at h
  | a :: l, 0, 0, x, h => by
    simp only [List.modify_zero_cons, List.getElem?_cons_zero, Option.some.injEq] at h
    exact ⟨a, by simp, Or.inr ⟨rfl, h.symm⟩⟩
  | a :: l, 0, k + 1, x, h => by
    simp only [List.modify_zero_cons, List.getElem?_cons_succ] at h
    exact ⟨x, by simpa using h, Or.inl ⟨by omega, rfl⟩⟩
  | a :: l, c + 1, 0, x, h => by
    simp only [List.modify_succ_cons, List.getElem?_cons_zero, Option.some.injEq] at h
    exact ⟨a, by simp, Or.inl ⟨by omega, h.symm⟩⟩
  | a :: l, c + 1, k + 1, x, h => by
    simp only [List.modify_succ_cons, List.getElem?_cons_succ] at h
    obtain ⟨y, hy, e⟩ := lookup_modify f l c k x h
    refine ⟨y, by simpa using hy, ?_⟩
    rcases e with ⟨e1, e2⟩ | ⟨e1, e2⟩
    · exact Or.inl ⟨by omega, e2⟩
    · exact Or.inr ⟨by omega, e2⟩

theorem owned_step_general {s s' : State} (hO : Owned s) (hE : Evolves s s')
    (H : ∀ (c : Nat) (cl' : client_t), s'.clients[c]? = some cl' →
      cl'.jobs = [] ∨ ∃ cl, s.clients[c]? = some cl ∧ cl'.jobs.Sublist cl.jobs) : Owned s' := by
  constructor
  · intro c cl' j hc hj
    rcases H c cl' hc with e | ⟨cl, hcl, hsub⟩
    · rw [e] at hj; cases hj
    · obtain ⟨job, hjob, hcl'⟩ := hO.owner c cl j hcl (hsub.subset hj)
      obtain ⟨job', hj', _, _, e⟩ := hE.jobs_kept j job hjob
      exact ⟨job', hj', by rw [e]; exact hcl'⟩
  · intro c cl' hc
    rcases H c cl' hc with e | ⟨cl, hcl, hsub⟩
    · rw [e]; exact List.nodup_nil
    · exact (hO.index_nodup c cl hcl).sublist hsub

theorem owned_same {s s' : State} (hO : Owned s) (hE : Evolves s s')
    (h : s'.clients = s.clients) : Owned s' :=
  owned_step_general hO hE (fun c cl' hc =>
    Or.inr ⟨cl', by rw [← h]; exact hc, List.Sublist.refl _⟩)

theorem owned_modify {s : State} (hO : Owned s) (c : Nat) (f : client_t → client_t)
    (hf : ∀ cl, (f cl).jobs.Sublist cl.jobs) :
    Owned { s with clients := s.clients.modify f c } := by
  refine owned_step_general hO (evolves_of_eq rfl rfl) ?_
  intro k cl' hk
  obtain ⟨y, hy, e⟩ := lookup_modify f s.clients c k cl' hk
  rcases e with ⟨_, e⟩ | ⟨_, e⟩
  · exact Or.inr ⟨y, hy, by rw [e]⟩
  · exact Or.inr ⟨y, hy, by rw [e]; exact hf y⟩

theorem owned_prim {s s' : State} (hO : Owned s) (h : Prim s s') : Owned s' := by
  have hE := prim_evolves h
  cases h with
  | join_step env _ j job hj h1 h2 =>
    refine owned_same hO hE ?_
    rcases job_worker_cases env s j with h | ⟨_, _, _, _, h⟩ | ⟨_, _, _, _, _, _, _, h⟩ <;> rw [h]
  | cancel_running _ j job hj hst => exact owned_same hO hE rfl
  | cancel_waiting _ j job p pr hj hst hp hpr => exact owned_same hO hE rfl
  | settle _ j job p pr hj hst hp hpr => exact owned_same hO hE rfl
  | unlink _ c j => exact owned_modify hO c _ (fun cl => List.erase_sublist j cl.jobs)
  | quit_flag _ c => exact owned_modify hO c _ (fun cl => List.Sublist.refl _)

theorem owned_chain {s s' : State} (hO : Owned s) (h : Relation.ReflTransGen Prim s s') :
    Owned s' := by
  induction h with
  | refl => exact hO
  | tail _ hp ih => exact owned_prim ih hp

theorem owned_print {s s' : State} (hI : Inv s) (hO : Owned s) {env : Env} {c : Nat}
    {args : List String} {r : String} (h : print_cmd_fct env s c args = some (s', r)) :
    Owned s' := by
  by_cases hargs : args.length = 3
  · obtain ⟨client, hc⟩ := print_cmd_fct_client h hargs
    rw [print_cmd_fct_eq env s c args client hargs hc] at h
    simp only [Option.some.injEq, Prod.mk.injEq] at h
    obtain ⟨h, -⟩ := h
    subst h
    have hfresh : s.jobs.length ∉ client.jobs := fun hm => by
      have := hI.index_valid c client _ hc hm
      omega
    have hold : ∀ (j : Nat) (job : job_t), s.jobs[j]? = some job →
        (s.jobs ++ [print_job env s c client args])[j]? = some job := by
      intro j job hj
      rw [List.getElem?_append_left (lookup_lt hj)]
      exact hj
    constructor
    · intro k cl' j hk hj
      simp only at hk ⊢
      rcases lookup_set hk with ⟨rfl, rfl⟩ | ⟨_, hk'⟩
      · simp only at hj
        have hm := (print_link_sublist s.jobs.length _ client.jobs).subset hj
        rcases List.mem_append.mp hm with h1 | h1
        · obtain ⟨job, hjob, e⟩ := hO.owner k client j hc h1
          exact ⟨job, hold j job hjob, e⟩
        · rw [List.mem_singleton] at h1
          subst h1
          refine ⟨print_job env s k client args, ?_, rfl⟩
          rw [List.getElem?_append_right (Nat.le_refl _)]
          simp
      · obtain ⟨job, hjob, e⟩ := hO.owner k cl' j hk' hj
        exact ⟨job, hold j job hjob, e⟩
    · intro k cl' hk
      simp only at hk
      rcases lookup_set hk with ⟨rfl, rfl⟩ | ⟨_, hk'⟩
      · simp only
        refine List.Nodup.sublist (print_link_sublist s.jobs.length _ client.jobs) ?_
        rw [List.nodup_append]
        refine ⟨hO.index_nodup k client hc, List.nodup_singleton _, ?_⟩
        intro a ha hb
        rw [List.mem_singleton] at hb
        exact hfresh (hb ▸ ha)
      · exact hO.index_nodup k cl' hk'
  · rw [(print_cmd_fct_args h hargs).1]
    exact hO

theorem owned_step {s s' : State} {l : Label} (hI : Inv s) (hO : Owned s)
    (h : step s l = some s') : Owned s' := by
  have hE := step_evolves hI h
  rcases step_cases h with ⟨env, j, _, e⟩ | ⟨env, c, args, r, _, _, _, hp⟩ | ⟨_, e⟩ |
    ⟨c, _, e⟩ | ⟨env, c, args, _, _, hch⟩
  · refine owned_same hO hE ?_
    rw [e]
    rcases job_worker_cases env s j with h | ⟨_, _, _, _, h⟩ | ⟨_, _, _, _, _, _, _, h⟩ <;> rw [h]
  · exact owned_print hI hO hp
  · refine owned_step_general hO hE ?_
    intro k cl' hk
    rw [e] at hk
    simp only [accept_client] at hk
    by_cases hlt : k < s.clients.length
    · rw [List.getElem?_append_left hlt] at hk
      exact Or.inr ⟨cl', hk, List.Sublist.refl _⟩
    · rw [List.getElem?_append_right (by omega)] at hk
      left
      cases hd : k - s.clients.length with
      | zero =>
        rw [hd] at hk
        simp only [List.getElem?_cons_zero, Option.some.injEq] at hk
        rw [← hk]; rfl
      | succ m => rw [hd] at hk; simp at hk
  · exact owned_same hO hE (by rw [e]; rfl)
  · exact owned_chain hO hch

theorem unlinked_general {s s' : State} (hU : Unlinked s) (hE : Evolves s s')
    (H : ∀ (j : Nat) (job' : job_t), s'.jobs[j]? = some job' →
      job'.tid.pc = .FINISH ∨ job'.tid.pc = .EXITED →
      (∃ job, s.jobs[j]? = some job ∧ (job.tid.pc = .FINISH ∨ job.tid.pc = .EXITED)) ∨
        ∀ (p : Nat) (pr' : printer_t), s'.printers[p]? = some pr' → j ∉ pr'.jobs) :
    Unlinked s' := by
  intro j job' hj hpc p pr' hp hm
  rcases H j job' hj hpc with ⟨job, hjob, hpc0⟩ | h
  · rcases hE.queue_from p pr' j hp hm with hlen | ⟨pr, hpr, hm0⟩
    · have := lookup_lt hjob
      omega
    · exact hU j job hjob hpc0 p pr hpr hm0
  · exact h p pr' hp hm

theorem unlinked_same {s s' : State} (hU : Unlinked s) (hE : Evolves s s')
    (h : s'.jobs = s.jobs) : Unlinked s' :=
  unlinked_general hU hE (fun j job' hj hpc => Or.inl ⟨job', by rw [← h]; exact hj, hpc⟩)

theorem job_worker_step_end (env : Env) (j : Nat) (job : job_t) (pr : printer_t)
    (h : (job_worker_step env j job pr).1.tid.pc = .FINISH ∨
      (job_worker_step env j job pr).1.tid.pc = .EXITED) :
    (job.tid.pc = .FINISH ∨ job.tid.pc = .EXITED) ∨
      (job.tid.pc = .UNLINK ∧ (job_worker_step env j job pr).2.jobs = list_del j pr.jobs) := by
  unfold job_worker_step at h ⊢
  cases hpc : job.tid.pc <;> simp only [hpc] at h ⊢
  all_goals repeat' split at h
  all_goals simp_all

/-- After a job has been unlinked from the queue of its printer it is in no queue. -/
theorem unlinked_update {s : State} (hI : Inv s) {j p : Nat} {job job' : job_t}
    {pr pr' : printer_t} (hj : s.jobs[j]? = some job) (hp : job.printer = some p)
    (hpr : s.printers[p]? = some pr) (hq : pr'.jobs = list_del j pr.jobs)
    (q : Nat) (prq : printer_t)
    (h : ({ s with jobs := s.jobs.set j job', printers := s.printers.set p pr' } : State).printers[q]?
      = some prq) : j ∉ prq.jobs := by
  intro hm
  simp only at h
  rcases lookup_set h with ⟨rfl, rfl⟩ | ⟨hqp, h'⟩
  · rw [hq] at hm
    have hnd : pr.jobs.Nodup := (hI.queue_sorted q pr hpr).imp (fun h => Nat.ne_of_lt h)
    exact List.Nodup.not_mem_erase hnd hm
  · obtain ⟨jobx, hjx, hpx⟩ := hI.queue_job q prq j h' hm
    rw [hj] at hjx; cases hjx
    rw [hp] at hpx; cases hpx
    exact hqp rfl

theorem unlinked_job_worker {s : State} (hI : Inv s) (hU : Unlinked s) (env : Env) (j : Nat) :
    Unlinked (job_worker env s j) := by
  have hE := evolves_job_worker env s j
  rcases job_worker_cases env s j with h | ⟨job, hj, _, hp, h⟩ | ⟨job, p, pr, hj, _, hp, hpr, h⟩
  · rw [h]; exact hU
  · rw [h] at hE ⊢
    refine unlinked_general hU hE ?_
    intro k jobk hk hpc
    simp only at hk
    rcases lookup_set hk with ⟨rfl, rfl⟩ | ⟨_, hk'⟩
    · right
      intro q prq hq hm
      simp only at hq
      obtain ⟨jobx, hjx, hpx⟩ := hI.queue_job q prq k hq hm
      rw [hj] at hjx; cases hjx
      rw [hp] at hpx; cases hpx
    · exact Or.inl ⟨jobk, hk', hpc⟩
  · rw [h] at hE ⊢
    refine unlinked_general hU hE ?_
    intro k jobk hk hpc
    simp only at hk
    rcases lookup_set hk with ⟨rfl, rfl⟩ | ⟨_, hk'⟩
    · rcases job_worker_step_end env k job pr hpc with e | ⟨_, e⟩
      · exact Or.inl ⟨job, hj, e⟩
      · exact Or.inr (fun q prq hq => unlinked_update hI hj hp hpr e q prq hq)
    · exact Or.inl ⟨jobk, hk', hpc⟩

theorem unlinked_prim {s s' : State} (hI : Inv s) (hU : Unlinked s) (h : Prim s s') :
    Unlinked s' := by
  have hE := prim_evolves h
  cases h with
  | join_step env _ j job hj h1 h2 => exact unlinked_job_worker hI hU env j
  | cancel_running _ j job hj hst =>
    refine unlinked_general hU hE ?_
    intro k jobk hk hpc
    simp only at hk
    rcases lookup_set hk with ⟨rfl, rfl⟩ | ⟨_, hk'⟩
    · exact Or.inl ⟨job, hj, hpc⟩
    · exact Or.inl ⟨jobk, hk', hpc⟩
  | cancel_waiting _ j job p pr hj hst hp hpr =>
    refine unlinked_general hU hE ?_
    intro k jobk hk hpc
    simp only at hk
    rcases lookup_set hk with ⟨rfl, rfl⟩ | ⟨_, hk'⟩
    · exact Or.inr (fun q prq hq => unlinked_update hI hj hp hpr rfl q prq hq)
    · exact Or.inl ⟨jobk, hk', hpc⟩
  | settle _ j job p pr hj hst hp hpr =>
    refine unlinked_general hU hE ?_
    intro k jobk hk hpc
    simp only at hk
    rcases lookup_set hk with ⟨rfl, rfl⟩ | ⟨_, hk'⟩
    · exact Or.inr (fun q prq hq => unlinked_update hI hj hp hpr rfl q prq hq)
    · exact Or.inl ⟨jobk, hk', hpc⟩
  | unlink _ c j => exact unlinked_same hU hE rfl
  | quit_flag _ c => exact unlinked_same hU hE rfl

theorem unlinked_chain {s s' : State} (hI : Inv s) (hU : Unlinked s)
    (h : Relation.ReflTransGen Prim s s') : Unlinked s' := by
  induction h with
  | refl => exact hU
  | tail hc hp ih => exact unlinked_prim (prim_chain hI hc).1 ih hp

theorem resolve_printer_fresh {s : State} (hI : Inv s) (env : Env) (printer_id : Int)
    (q : Nat) (y : printer_t)
    (h : (resolve_printer env s.printers printer_id).1[q]? = some y) :
    s.jobs.length ∉ y.jobs := by
  have hfp : ∀ (q : Nat) (pr : printer_t), s.printers[q]? = some pr →
      s.jobs.length ∉ pr.jobs := by
    intro q pr hq hm
    obtain ⟨job, hj, _⟩ := hI.queue_job q pr _ hq hm
    have := lookup_lt hj
    omega
  rcases resolve_printer_cases env s.printers printer_id with e | ⟨p, pr, _, _, e⟩ | ⟨_, e⟩
  · rw [e] at h; exact hfp q y h
  · rw [e] at h; exact hfp q y h
  · rw [e] at h
    simp only at h
    by_cases hlt : q < s.printers.length
    · rw [List.getElem?_append_left hlt] at h
      exact hfp q y h
    · rw [List.getElem?_append_right (by omega)] at h
      cases hd : q - s.printers.length with
      | zero =>
        rw [hd] at h
        simp only [List.getElem?_cons_zero, Option.some.injEq] at h
        rw [← h]
        simp [init_printer]
      | succ m => rw [hd] at h; simp at h

theorem unlinked_print {s s' : State} (hI : Inv s) (hU : Unlinked s) {env : Env} {c : Nat}
    {args : List String} {r : String} (h : print_cmd_fct env s c args = some (s', r)) :
    Unlinked s' := by
  have hE := evolves_print hI h
  by_cases hargs : args.length = 3
  · obtain ⟨client, hc⟩ := print_cmd_fct_client h hargs
    rw [print_cmd_fct_eq env s c args client hargs hc] at h
    simp only [Option.some.injEq, Prod.mk.injEq] at h
    obtain ⟨h, -⟩ := h
    subst h
    refine unlinked_general hU hE ?_
    intro k jobk hk hpc
    simp only at hk
    by_cases hlt : k < s.jobs.length
    · rw [List.getElem?_append_left hlt] at hk
      exact Or.inl ⟨jobk, hk, hpc⟩
    · rw [List.getElem?_append_right (by omega)] at hk
      have hk0 : k - s.jobs.length = 0 := by
        by_contra hne
        obtain ⟨m, hm⟩ : ∃ m, k - s.jobs.length = m + 1 := ⟨k - s.jobs.length - 1, by omega⟩
        rw [hm] at hk
        simp at hk
      rw [hk0] at hk
      simp only [List.getElem?_cons_zero, Option.some.injEq] at hk
      subst hk
      have hkl : k = s.jobs.length := by omega
      subst hkl
      have hcr : env.pthread_create ≠ 0 := by
        intro e0
        simp [print_job, e0] at hpc
      have e0 : decide (env.pthread_create = 0) = false := by simp [hcr]
      right
      intro q prq hq
      simp only [e0] at hq
      cases hr : (resolve_printer env s.printers (atoi (args.getD 1 ""))).2.1 with
      | none =>
        rw [hr] at hq
        exact resolve_printer_fresh hI env _ q prq hq
      | some p =>
        rw [hr] at hq
        simp only at hq
        obtain ⟨y, hy, e⟩ := lookup_modify _ _ p q prq hq
        have hy' := resolve_printer_fresh hI env _ q y hy
        rcases e with ⟨_, e⟩ | ⟨_, e⟩
        · rw [e]; exact hy'
        · rw [e]
          simp only
          rw [print_link_undone hy']
          exact hy'
  · rw [(print_cmd_fct_args h hargs).1]
    exact hU

theorem unlinked_step {s s' : State} {l : Label} (hI : Inv s) (hU : Unlinked s)
    (h : step s l = some s') : Unlinked s' := by
  have hE := step_evolves hI h
  rcases step_cases h with ⟨env, j, _, e⟩ | ⟨env, c, args, r, _, _, _, hp⟩ | ⟨_, e⟩ |
    ⟨c, _, e⟩ | ⟨env, c, args, _, _, hch⟩
  · rw [e]; exact unlinked_job_worker hI hU env j
  · exact unlinked_print hI hU hp
  · exact unlinked_same hU hE (by rw [e]; rfl)
  · exact unlinked_same hU hE (by rw [e]; rfl)
  · exact unlinked_chain hI hU hch

theorem run_owned_unlinked : ∀ {ls : List Label} {s s' : State}, Inv s → Owned s →
    Unlinked s → run s ls = some s' → Owned s' ∧ Unlinked s'
  | [], s, s', _, hO, hU, h => by
    simp only [run, Option.some.injEq] at h
    subst h; exact ⟨hO, hU⟩
  | l :: ls, s, s', hI, hO, hU, h => by
    simp only [run] at h
    split at h
    · cases h
    · rename_i s1 hs1
      exact run_owned_unlinked (step_inv hI hs1) (owned_step hI hO hs1)
        (unlinked_step hI hU hs1) h

theorem reachable_owned {s : State} (h : Reachable s) : Owned s ∧ Unlinked s := by
  obtain ⟨ls, hrun⟩ := h
  refine run_owned_unlinked inv_init ⟨?_, ?_⟩ ?_ hrun
  · intro c cl j hc; simp [init] at hc
  · intro c cl hc; simp [init] at hc
  · intro j job hj; simp [init] at hj

theorem indexfrom_refl (s : State) : IndexFrom s s :=
  fun _ cl' _ hc hx => Or.inr ⟨cl', hc, hx⟩

theorem indexfrom_trans {s s' s'' : State} (hl : s.jobs.length ≤ s'.jobs.length)
    (h1 : IndexFrom s s') (h2 : IndexFrom s' s'') : IndexFrom s s'' := by
  intro c cl'' x hc hx
  rcases h2 c cl'' x hc hx with h | ⟨cl', hc', hx'⟩
  · exact Or.inl (by omega)
  · exact h1 c cl' x hc' hx'

theorem indexfrom_same {s s' : State} (h : s'.clients = s.clients) : IndexFrom s s' :=
  fun _ cl' _ hc hx => Or.inr ⟨cl', by rw [← h]; exact hc, hx⟩

theorem indexfrom_modify (s : State) (c : Nat) (f : client_t → client_t)
    (hf : ∀ cl, (f cl).jobs ⊆ cl.jobs) :
    IndexFrom s { s with clients := s.clients.modify f c } := by
  intro k cl' x hk hx
  obtain ⟨y, hy, e⟩ := lookup_modify f s.clients c k cl' hk
  rcases e with ⟨_, e⟩ | ⟨_, e⟩
  · exact Or.inr ⟨y, hy, by rw [← e]; exact hx⟩
  · exact Or.inr ⟨y, hy, hf y (by rw [← e]; exact hx)⟩

theorem job_worker_clients (env : Env) (s : State) (j : Nat) :
    (job_worker env s j).clients = s.clients := by
  rcases job_worker_cases env s j with h | ⟨_, _, _, _, h⟩ | ⟨_, _, _, _, _, _, _, h⟩ <;> rw [h]

theorem indexfrom_prim {s s' : State} (h : Prim s s') : IndexFrom s s' := by
  cases h with
  | join_step env _ j job hj h1 h2 => exact indexfrom_same (job_worker_clients env s j)
  | cancel_running _ j job hj hst => exact indexfrom_same rfl
  | cancel_waiting _ j job p pr hj hst hp hpr => exact indexfrom_same rfl
  | settle _ j job p pr hj hst hp hpr => exact indexfrom_same rfl
  | unlink _ c j => exact indexfrom_modify s c _ (fun cl => (List.erase_sublist j cl.jobs).subset)
  | quit_flag _ c => exact indexfrom_modify s c _ (fun cl => List.Subset.refl _)

theorem indexfrom_chain {s s' : State} (hI : Inv s) (h : Relation.ReflTransGen Prim s s') :
    IndexFrom s s' := by
  induction h with
  | refl => exact indexfrom_refl s
  | tail hc hp ih =>
    exact indexfrom_trans (evolves_length_le (prim_chain hI hc).2.1) ih (indexfrom_prim hp)

theorem indexfrom_print {s s' : State} {env : Env} {c : Nat} {args : List String}
    {r : String} (h : print_cmd_fct env s c args = some (s', r)) : IndexFrom s s' := by
  by_cases hargs : args.length = 3
  · obtain ⟨client, hc⟩ := print_cmd_fct_client h hargs
    rw [print_cmd_fct_eq env s c args client hargs hc] at h
    simp only [Option.some.injEq, Prod.mk.injEq] at h
    obtain ⟨h, -⟩ := h
    subst h
    intro k cl' x hk hx
    simp only at hk
    rcases lookup_set hk with ⟨rfl, rfl⟩ | ⟨_, hk'⟩
    · simp only at hx
      have hm := (print_link_sublist s.jobs.length _ client.jobs).subset hx
      rcases List.mem_append.mp hm with h1 | h1
      · exact Or.inr ⟨client, hc, h1⟩
      · rw [List.mem_singleton] at h1
        exact Or.inl (by omega)
    · exact Or.inr ⟨cl', hk', hx⟩
  · rw [(print_cmd_fct_args h hargs).1]
    exact indexfrom_refl s

theorem indexfrom_step {s s' : State} {l : Label} (hI : Inv s) (h : step s l = some s') :
    IndexFrom s s' := by
  rcases step_cases h with ⟨env, j, _, e⟩ | ⟨env, c, args, r, _, _, _, hp⟩ | ⟨_, e⟩ |
    ⟨c, _, e⟩ | ⟨env, c, args, _, _, hch⟩
  · rw [e]; exact indexfrom_same (job_worker_clients env s j)
  · exact indexfrom_print hp
  · intro k cl' x hk hx
    rw [e] at hk
    simp only [accept_client] at hk
    by_cases hlt : k < s.clients.length
    · rw [List.getElem?_append_left hlt] at hk
      exact Or.inr ⟨cl', hk, hx⟩
    · rw [List.getElem?_append_right (by omega)] at hk
      cases hd : k - s.clients.length with
      | zero =>
        rw [hd] at hk
        simp only [List.getElem?_cons_zero, Option.some.injEq] at hk
        rw [← hk] at hx
        simp [init_client] at hx
      | succ m => rw [hd] at hk; simp at hk
  · rw [e]; exact indexfrom_same rfl
  · exact indexfrom_chain hI hch

theorem indexfrom_run : ∀ {ls : List Label} {s s' : State}, Inv s → run s ls = some s' →
    IndexFrom s s'
  | [], s, s', _, h => by
    simp only [run, Option.some.injEq] at h
    subst h; exact indexfrom_refl s
  | l :: ls, s, s', hI, h => by
    simp only [run] at h
    split at h
    · cases h
    · rename_i s1 hs1
      exact indexfrom_trans (evolves_length_le (step_evolves hI hs1)) (indexfrom_step hI hs1)
        (indexfrom_run (step_inv hI hs1) h)

theorem run_worker_clients (env : Env) (j : Nat) :
    ∀ (n : Nat) (s : State), (run_worker env n s j).clients = s.clients
  | 0, _ => rfl
  | n + 1, s => by
    simp only [run_worker]
    rw [run_worker_clients env j n, job_worker_clients]

/-- Lines 356-371 of `invoice_cmd_fct` leave the client records as they are, and after
them the worker of the job has ended. -/
theorem invoice_settle_end {env : Env} {s s1 : State} {j : Nat} {job job1 : job_t}
    (hj : s.jobs[j]? = some job) (h : invoice_settle env s j job = some s1)
    (hj1 : s1.jobs[j]? = some job1) : s1.clients = s.clients ∧ job1.tid.pc = .EXITED := by
  unfold invoice_settle at h
  split_ifs at h with hst
  · cases hp : job.printer with
    | none => simp [hp] at h
    | some p =>
      simp only [hp] at h
      cases hpr : s.printers[p]? with
      | none => simp [hpr] at h
      | some pr =>
        simp only [hpr, Option.some.injEq] at h
        subst h
        simp only at hj1
        rw [lookup_set_self _ hj] at hj1
        cases hj1
        exact ⟨rfl, rfl⟩
  · unfold pthread_join at h
    simp only [hj] at h
    cases hj' : (run_worker env (join_fuel job) s j).jobs[j]? with
    | none => simp [hj'] at h
    | some job' =>
      simp only [hj'] at h
      split_ifs at h with hx
      cases h
      rw [hj'] at hj1; cases hj1
      exact ⟨run_worker_clients env j _ s, hx⟩

theorem dispatch_invoice (env : Env) (s : State) (c : Nat) (args : List String)
    (h : args.head? = some "invoice") : dispatch env s c args = invoice_cmd_fct env s c args := by
  cases args with
  | nil => cases h
  | cons v rest =>
    simp only [List.head?_cons, Option.some.injEq] at h
    subst h
    simp [dispatch]

/-- The replies of `status`, `cancel` and `invoice` for an id that is not in the index. -/
theorem job_not_found {s : State} {c : Nat} {cl : client_t} (env : Env) {args : List String}
    (hargs : args.length = 2) (hc : s.clients[c]? = some cl)
    (hf : find_job s cl.jobs (atoi (args.getD 1 "")) = none) :
    status_cmd_fct s c args = some (s, "  Job " ++ args.getD 1 "" ++ " could not be found. \n") ∧
    cancel_cmd_fct s c args =
      some (s, "  Job " ++ fmt_d (atoi (args.getD 1 "")) ++ " could not be found. \n") ∧
    invoice_cmd_fct env s c args =
      some (s, "  Job " ++ args.getD 1 "" ++ " could not be found. \n") := by
  have e : invalid_arg_count 1 (args.length : Int) = none := by
    rw [hargs]; decide
  refine ⟨?_, ?_, ?_⟩
  · unfold status_cmd_fct
    rw [e]
    simp only [hc, hf]
  · unfold cancel_cmd_fct cancel_job
    rw [e]
    simp only [hc, hf]
  · unfold invoice_cmd_fct
    rw [e]
    simp only [hc, hf]

/-- After an invoice has removed job `j` from the index of client `c`, no later state has
a job with the id of `j` in that index. -/
theorem removed_job_not_found {s' s2 : State} {c j : Nat} {job : job_t} {cl' cl2 : client_t}
    (hj : s'.jobs[j]? = some job) (hcl : job.client = c)
    (hc' : s'.clients[c]? = some cl') (hnot : j ∉ cl'.jobs)
    (hE : Evolves s' s2) (hF : IndexFrom s' s2) (hO2 : Owned s2) (hD2 : IdInv s2)
    (hc2 : s2.clients[c]? = some cl2) : find_job s2 cl2.jobs job.id = none := by
  cases hf : find_job s2 cl2.jobs job.id with
  | none => rfl
  | some k =>
    exfalso
    obtain ⟨hk, jobk, hjk, hid⟩ := find_job_some hf
    obtain ⟨job2, hj2, _, e2, e3⟩ := hE.jobs_kept j job hj
    obtain ⟨jobk', hjk', hck⟩ := hO2.owner c cl2 k hc2 hk
    rw [hjk] at hjk'; cases hjk'
    have hcc : jobk.client = job2.client := by rw [hck, e3, hcl]
    rcases Nat.lt_trichotomy k j with h | h | h
    · have := hD2.id_order k j jobk job2 hjk hj2 hcc h
      rw [hid, e2] at this
      exact lt_irrefl _ this
    · subst h
      rcases hF c cl2 k hc2 hk with h1 | ⟨cl, hcl1, h1⟩
      · have := lookup_lt hj
        omega
      · rw [hc'] at hcl1; cases hcl1
        exact hnot h1
    · have := hD2.id_order j k job2 jobk hj2 hjk hcc.symm h
      rw [hid, e2] at this
      exact lt_irrefl _ this

/-- C18. After every run of the server: `invoice` on a job id found in the index of the
client returns, removes exactly that job from the index (the other entries in their
order), leaves the other clients as they are and leaves the job linked in no printer
queue; `status`, `cancel` and `invoice` with the same id then reply that the job could not
be found, and so they do in every state the server reaches after the `invoice` command.
On an id that is not in the index `invoice` replies `  Job <id> could not be found. ` and
returns the state it was called in. -/
theorem invoice_removes_job (env : Env) (ls : List Label) (s : State) (c : Nat)
    (args : List String) (client : client_t) (hrun : run init ls = some s)
    (hargs : args.length = 2) (hc : s.clients[c]? = some client) :
    (∀ j : Nat, find_job s client.jobs (atoi (args.getD 1 "")) = some j →
      ∃ s' reply client', invoice_cmd_fct env s c args = some (s', reply) ∧
        s'.clients[c]? = some client' ∧ j ∈ client.jobs ∧
        client'.jobs = client.jobs.filter (fun x => x != j) ∧
        (∀ k, k ≠ c → s'.clients[k]? = s.clients[k]?) ∧
        (∀ (p : Nat) (pr : printer_t), s'.printers[p]? = some pr → j ∉ pr.jobs) ∧
        (∀ (env2 : Env) (args2 : List String), args2.length = 2 →
          atoi (args2.getD 1 "") = atoi (args.getD 1 "") →
          status_cmd_fct s' c args2 =
            some (s', "  Job " ++ args2.getD 1 "" ++ " could not be found. \n") ∧
          cancel_cmd_fct s' c args2 =
            some (s', "  Job " ++ fmt_d (atoi (args2.getD 1 "")) ++ " could not be found. \n") ∧
          invoice_cmd_fct env2 s' c args2 =
            some (s', "  Job " ++ args2.getD 1 "" ++ " could not be found. \n")) ∧
        (∀ (ls2 : List Label) (s2 : State) (cl2 : client_t), args.head? = some "invoice" →
          run init (ls ++ .command env c args :: ls2) = some s2 → s2.clients[c]? = some cl2 →
          (∀ (p : Nat) (pr : printer_t), s2.printers[p]? = some pr → j ∉ pr.jobs) ∧
          ∀ (env2 : Env) (args2 : List String), args2.length = 2 →
            atoi (args2.getD 1 "") = atoi (args.getD 1 "") →
            status_cmd_fct s2 c args2 =
              some (s2, "  Job " ++ args2.getD 1 "" ++ " could not be found. \n") ∧
            cancel_cmd_fct s2 c args2 =
              some (s2, "  Job " ++ fmt_d (atoi (args2.getD 1 "")) ++ " could not be found. \n") ∧
            invoice_cmd_fct env2 s2 c args2 =
              some (s2, "  Job " ++ args2.getD 1 "" ++ " could not be found. \n"))) ∧
    (find_job s client.jobs (atoi (args.getD 1 "")) = none →
      invoice_cmd_fct env s c args =
        some (s, "  Job " ++ args.getD 1 "" ++ " could not be found. \n")) := by
  refine ⟨?_, fun hf => (job_not_found env hargs hc hf).2.2⟩
  intro j hf
  have hR : Reachable s := ⟨ls, hrun⟩
  have hI := reachable_inv hR
  obtain ⟨hO, hU⟩ := reachable_owned hR
  obtain ⟨-, hD, -⟩ := run_ids ls s hrun
  obtain ⟨s', reply, h⟩ := invoice_cmd_fct_returns hI env hargs hc hf
  obtain ⟨job0, s1, job1, hj0, hst, hj1, hr, hs'⟩ :=
    invoice_cmd_fct_found env s s' c args client j reply hargs hc hf h
  obtain ⟨hjm, job0', hj0', hid⟩ := find_job_some hf
  rw [hj0] at hj0'; cases hj0'
  obtain ⟨hcl1, hpc1⟩ := invoice_settle_end hj0 hst hj1
  have hch := invoice_cmd_fct_chain h
  obtain ⟨hI', hE', -⟩ := prim_chain hI hch
  have hO' := owned_chain hO hch
  have hD' : IdInv s' := idinv_steady hD hE' (prim_chain_steady hch)
  have hU1 : Unlinked s1 := unlinked_chain hI hU (invoice_settle_chain hj0 hst)
  have hnd := hO.index_nodup c client hc
  have hc' : s'.clients[c]? =
      some { client with jobs := list_del j client.jobs } := by
    rw [hs']
    simp only
    rw [hcl1, List.getElem?_modify, hc]
    simp
  have hfil : list_del j client.jobs = client.jobs.filter (fun x => x != j) :=
    hnd.erase_eq_filter j
  have hjs' : s'.jobs[j]? = some job1 := by rw [hs']; exact hj1
  have hq' : ∀ (p : Nat) (pr : printer_t), s'.printers[p]? = some pr → j ∉ pr.jobs := by
    intro p pr hp
    rw [hs'] at hp
    exact hU1 j job1 hj1 (Or.inr hpc1) p pr hp
  have hown : job1.client = c ∧ job1.id = atoi (args.getD 1 "") := by
    obtain ⟨jx, hjx, e⟩ := hO.owner c client j hc hjm
    rw [hj0] at hjx; cases hjx
    obtain ⟨jy, hjy, _, e2, e3⟩ := hE'.jobs_kept j job0 hj0
    rw [hjs'] at hjy; cases hjy
    exact ⟨by rw [e3, e], by rw [e2, hid]⟩
  have hnot : j ∉ ({ client with jobs := list_del j client.jobs } : client_t).jobs := by
    simp only [list_del]
    exact List.Nodup.not_mem_erase hnd
  have later : ∀ (s2 : State) (cl2 : client_t), Evolves s' s2 → IndexFrom s' s2 → Owned s2 →
      IdInv s2 → s2.clients[c]? = some cl2 →
      ∀ (env2 : Env) (args2 : List String), args2.length = 2 →
        atoi (args2.getD 1 "") = atoi (args.getD 1 "") →
        status_cmd_fct s2 c args2 =
          some (s2, "  Job " ++ args2.getD 1 "" ++ " could not be found. \n") ∧
        cancel_cmd_fct s2 c args2 =
          some (s2, "  Job " ++ fmt_d (atoi (args2.getD 1 "")) ++ " could not be found. \n") ∧
        invoice_cmd_fct env2 s2 c args2 =
          some (s2, "  Job " ++ args2.getD 1 "" ++ " could not be found. \n") := by
    intro s2 cl2 hE2 hF2 hO2 hD2 hc2 env2 args2 hargs2 hid2
    have := removed_job_not_found hjs' hown.1 hc' hnot hE2 hF2 hO2 hD2 hc2
    rw [hown.2, ← hid2] at this
    exact job_not_found env2 hargs2 hc2 this
  refine ⟨s', reply, _, h, hc', hjm, hfil, ?_, hq', ?_, ?_⟩
  · intro k hk
    rw [hs']
    simp only
    rw [hcl1, List.getElem?_modify]
    simp [Ne.symm hk]
  · exact later s' _ (evolves_refl s') (indexfrom_refl s') hO' hD' hc'
  · intro ls2 s2 cl2 hv hrun2 hc2
    have hstep : run s' ls2 = some s2 := by
      rw [run_append, hrun] at hrun2
      simp only [Option.some_bind, run] at hrun2
      cases hs : step s (.command env c args) with
      | none => simp [hs] at hrun2
      | some sx =>
        simp only [hs] at hrun2
        have : sx = s' := by
          unfold step at hs
          simp only [hc] at hs
          split_ifs at hs
          rw [dispatch_invoice env s c args hv, h] at hs
          simpa using hs.symm
        rw [← this]; exact hrun2
    have hR2 : Reachable s2 := ⟨_, hrun2⟩
    obtain ⟨-, hD2, -⟩ := run_ids _ s2 hrun2
    have hE2 := run_evolves hI' hstep
    refine ⟨?_, later s2 cl2 hE2 (indexfrom_run hI' hstep) (reachable_owned hR2).1 hD2 hc2⟩
    intro p pr hp hm
    rcases hE2.queue_from p pr j hp hm with hlen | ⟨pr', hpr', hm'⟩
    · have := lookup_lt hjs'
      omega
    · exact hq' p pr' hpr' hm'

set_option maxRecDepth 100000 in
theorem invoice_removes_job_witness :
    run init finished_run = some (state_after finished_run) ∧
    find_job (state_after finished_run) [0] (atoi "1") = some 0 ∧
    ∃ s' reply client',
      invoice_cmd_fct env_up (state_after finished_run) 0 ["invoice", "1"] = some (s', reply) ∧
      s'.clients[0]? = some client' ∧ client'.jobs = [] ∧
      (∀ (p : Nat) (pr : printer_t), s'.printers[p]? = some pr → 0 ∉ pr.jobs) ∧
      status_cmd_fct s' 0 ["status", "1"] = some (s', "  Job 1 could not be found. \n") := by
  refine ⟨by decide, by decide, ?_⟩
  obtain ⟨s', reply, client', h1, h2, _, h4, _, h6, h7, _⟩ :=
    (invoice_removes_job env_up finished_run (state_after finished_run) 0 ["invoice", "1"]
      { jobs := [0], job_counter := 1, id := 1, quit := 0 } (by decide) (by decide)
      (by decide)).1 0 (by decide)
  exact ⟨s', reply, client', h1, h2, h4, h6, (h7 env_up ["status", "1"] rfl rfl).1⟩

/-! ### The command jobs -/

theorem jobs_line_eq {s : State} (hI : Inv s) (hO : Owned s) {c j : Nat} {cl : client_t}
    (hc : s.clients[c]? = some cl) (hj : j ∈ cl.jobs) (printer_id : Int) :
    jobs_line s printer_id j =
      if on_printer s printer_id j then some (listing_line s c j) else none := by
  obtain ⟨job, hjob, e⟩ := hO.owner c cl j hc hj
  unfold jobs_line on_printer listing_line
  simp only [hjob, hc]
  cases hp : job.printer with
  | none => simp
  | some p =>
    obtain ⟨pr, hpr⟩ := inv_printer_record hI hjob hp
    simp only [hpr, e, hc]
    by_cases hid : pr.id = printer_id
    · simp [hid]
    · simp [hid]

theorem index_lines {s : State} (hI : Inv s) (hO : Owned s) {c : Nat} {cl : client_t}
    (hc : s.clients[c]? = some cl) (printer_id : Int) :
    ∀ (l : List Nat), (∀ j ∈ l, j ∈ cl.jobs) →
      l.filterMap (jobs_line s printer_id) =
        ((l.map (fun j => (c, j))).filter (fun x => on_printer s printer_id x.2)).map
          (fun x => listing_line s x.1 x.2)
  | [], _ => rfl
  | j :: l, h => by
    have ih := index_lines hI hO hc printer_id l (fun x hx => h x (List.mem_cons_of_mem _ hx))
    have e := jobs_line_eq hI hO hc (h j (List.mem_cons_self _ _)) printer_id
    by_cases hp : on_printer s printer_id j = true
    · rw [if_pos hp] at e
      simp only [List.filterMap_cons, e, List.map_cons, List.filter_cons, hp, if_true, ih]
    · rw [if_neg hp] at e
      simp only [List.filterMap_cons, e, List.map_cons, List.filter_cons, hp, ih]
      simp

theorem registry_lines {s : State} (hI : Inv s) (hO : Owned s) (printer_id : Int) :
    ∀ (cs : List Nat),
      (cs.flatMap (fun c =>
        match s.clients[c]? with
        | none => []
        | some cl => cl.jobs)).filterMap (jobs_line s printer_id) =
      ((cs.flatMap (fun c =>
        match s.clients[c]? with
        | none => []
        | some cl => cl.jobs.map (fun j => (c, j)))).filter
          (fun x => on_printer s printer_id x.2)).map (fun x => listing_line s x.1 x.2)
  | [] => rfl
  | c :: cs => by
    have ih := registry_lines hI hO printer_id cs
    simp only [List.flatMap_cons, List.filterMap_append, List.filter_append, List.map_append, ih]
    congr 1
    cases hc : s.clients[c]? with
    | none => rfl
    | some cl => exact index_lines hI hO hc printer_id cl.jobs (fun _ h => h)

/-! ### The second unlink -/

theorem memory_ext {m1 m2 : dbllinklist.Memory} (h1 : ∀ b, m1.next b = m2.next b)
    (h2 : ∀ b, m1.prev b = m2.prev b) : m1 = m2 := by
  cases m1; cases m2
  simp only [dbllinklist.Memory.mk.injEq]
  exact ⟨funext h1, funext h2⟩

/-- On an entry that is linked to itself `list_del` changes no cell. -/
theorem list_del_detached {m : dbllinklist.Memory} {x : Nat} (hn : m.next x = x)
    (hp : m.prev x = x) : dbllinklist.list_del m x = m := by
  obtain ⟨fn, fp⟩ := list_del_fields m x
  apply memory_ext
  · intro b
    rw [fn, hn, hp]
    by_cases e : b = x
    · simp [e, hn]
    · simp [e]
  · intro b
    rw [fp, hn, hp]
    by_cases e : b = x
    · simp [e, hp]
    · simp [e]

/-- C21. `list_del(x)` leaves `x` linked to itself (`next = prev = x`), whatever `x` was
linked to; hence a second `list_del(x)` changes nothing, and `list_del` of an entry that
is already detached changes no cell: every well-formed list holds the entries it held, of
which `x` is none, as the removal of `x` from the list of entries computes.  In the
server: when `cancel_job`, or `invoice`, unlinks a job in CANCELED that is no longer in
the queue of its printer, every printer queue is what it was. -/
theorem list_del_idempotent (m : dbllinklist.Memory) (x : Nat) :
    ((dbllinklist.list_del m x).next x = x ∧ (dbllinklist.list_del m x).prev x = x) ∧
    dbllinklist.list_del (dbllinklist.list_del m x) x = dbllinklist.list_del m x ∧
    (m.next x = x → m.prev x = x →
      dbllinklist.list_del m x = m ∧
      ∀ (h : Nat) (s : List Nat), dbllinklist.is_list m h s = true →
        dbllinklist.is_list (dbllinklist.list_del m x) h s = true ∧
        dbllinklist.list_entries (dbllinklist.list_del m x) h (s.length + 1)
          ((dbllinklist.list_del m x).next h) = s ∧
        x ∉ s ∧ list_del x s = s) ∧
    (∀ (env : Env) (s : State) (job_id : Int) (c j p : Nat) (client : client_t) (job : job_t)
      (pr : printer_t), s.clients[c]? = some client → find_job s client.jobs job_id = some j →
      s.jobs[j]? = some job → job.status = .CANCELED → job.printer = some p →
      s.printers[p]? = some pr → j ∉ pr.jobs →
      (∃ s', cancel_job s job_id c = some (s', "  Job " ++ fmt_d job_id ++ " was cancelled.\n") ∧
        s'.printers = s.printers) ∧
      (∃ s1, invoice_settle env s j job = some s1 ∧ s1.printers = s.printers)) := by
  obtain ⟨fn, fp⟩ := list_del_fields m x
  have h1 : (dbllinklist.list_del m x).next x = x := by rw [fn, if_pos rfl]
  have h2 : (dbllinklist.list_del m x).prev x = x := by rw [fp, if_pos rfl]
  refine ⟨⟨h1, h2⟩, list_del_detached h1 h2, ?_, ?_⟩
  · intro hn hp
    have e := list_del_detached hn hp
    refine ⟨e, ?_⟩
    intro h s hl
    rw [e]
    obtain ⟨-, hnd, hlk⟩ := is_list_iff.mp hl
    have hx : x ∉ s := fun hm => (links_next_ne hlk hnd hm).1 hn
    refine ⟨hl, is_list_entries hl, hx, ?_⟩
    unfold list_del
    exact List.erase_of_not_mem hx
  · intro env s job_id c j p client job pr hc hf hj hst hp hpr hnot
    obtain ⟨_, job0, hj0, hid⟩ := find_job_some hf
    rw [hj] at hj0; cases hj0
    have hq : ({ pr with jobs := list_del j pr.jobs } : printer_t) = pr := by
      unfold list_del
      rw [List.erase_of_not_mem hnot]
    constructor
    · refine ⟨{ s with
          jobs := s.jobs.set j { job with status := .CANCELED, tid := pthread_cancel job.tid },
          printers := s.printers.set p { pr with jobs := list_del j pr.jobs } }, ?_, ?_⟩
      · unfold cancel_job
        simp only [hc, hf, hj, hp, hpr]
        have a1 : job.status ≠ .IN_PROGRESS := by rw [hst]; decide
        rw [if_neg a1, if_pos (Or.inr hst), hid]
      · simp only
        rw [hq]
        exact set_same hpr
    · refine ⟨{ s with
          jobs := s.jobs.set j { job with tid := pthread_cancel job.tid },
          printers := s.printers.set p { pr with jobs := list_del j pr.jobs } }, ?_, ?_⟩
      · unfold invoice_settle
        rw [if_pos (Or.inr hst)]
        simp only [hp, hpr]
      · simp only
        rw [hq]
        exact set_same hpr

set_option maxRecDepth 100000 in
theorem list_del_idempotent_witness :
    (state_after unlinked_run).jobs.map (fun job => (job.status, job.tid.pc, job.printer)) =
      [(status_e.CANCELED, pc_t.EXITED, some 0)] ∧
    (state_after unlinked_run).printers.map (fun pr => pr.jobs) = [[]] ∧
    (∃ s', cancel_job (state_after unlinked_run) 1 0 =
        some (s', "  Job " ++ fmt_d 1 ++ " was cancelled.\n") ∧
      s'.printers = (state_after unlinked_run).printers) ∧
    dbllinklist.is_list (dbllinklist.list_del (dbllinklist.list_add_tail detached_cells 2 1) 3)
      1 [2] = true := by
  have h := list_del_idempotent (dbllinklist.list_add_tail detached_cells 2 1) 3
  refine ⟨by decide, by decide, ?_, ?_⟩
  · exact (h.2.2.2 env_up (state_after unlinked_run) 1 0 0 0
      { jobs := [0], job_counter := 1, id := 1, quit := 0 }
      { printer := some 0, client := 0, filename := "a", fd := [], page_count := 1,
        tid := { pc := .EXITED, aborted := true, line_count := 1, line := ['\n'] },
        id := 1, status := .CANCELED }
      { id := 7, jobs := [], fd := ['x'], job_mutex := none, status := .WAITING }
      (by decide) (by decide) (by decide) (by decide) (by decide) (by decide) (by decide)).1
  · exact ((h.2.2.1 (by decide) (by decide)).2 1 [2] (by decide)).1

/-! ### The conversion of numerals -/

/-- The result of `atoi` is an `int`. -/
theorem atoi_range (s : String) : -2147483648 ≤ atoi s ∧ atoi s ≤ 2147483647 := by
  unfold atoi long_to_int
  omega

/-- A numeral in the range of `int` is converted to the number it denotes. -/
theorem atoi_numeral (s : String) (h1 : -2147483648 ≤ numeral s)
    (h2 : numeral s ≤ 2147483647) : atoi s = numeral s := by
  unfold atoi long_to_int strtol
  split_ifs
  all_goals omega

/-- Numerals outside the range of `int` are converted to the `int` with the same low 32
bits, numerals outside the range of `long` as `LONG_MAX` and `LONG_MIN` are. -/
theorem atoi_wraps :
    atoi "4294967303" = 7 ∧ atoi "4294967297" = 1 ∧ atoi "2147483648" = -2147483648 ∧
    atoi "-4294967289" = 7 ∧ atoi "9223372036854775808" = -1 ∧
    atoi "-9223372036854775809" = 0 ∧ atoi " +12x" = 12 ∧ atoi "x" = 0 := by
  decide

set_option maxRecDepth 100000 in
/-- The commands act on the `int` that `atoi` yields: `print 4294967303 a` prints on
device 7, `invoice 4294967297` finds job 1, and `jobs 4294967303` lists the jobs of
printer 7. -/
theorem wrapped_arguments :
    (print_cmd_fct env_up (state_after [.accept]) 0 ["print", "4294967303", "a"]).map
        (fun r => (r.1.jobs.map (fun job => (job.printer, job.status)),
          r.1.printers.map (fun pr => (pr.id, pr.jobs)), r.2)) =
      some ([(some 0, status_e.WAITING)], [(7, [0])], "  Created job no. 1\n") ∧
    find_job (state_after finished_run) [0] (atoi "4294967297") = some 0 ∧
    (invoice_cmd_fct env_up (state_after finished_run) 0 ["invoice", "4294967297"]).map
        (fun r => r.1.clients.map (fun cl => cl.jobs)) = some [[]] ∧
    jobs_cmd_fct (state_after printing_run) ["jobs", "4294967303"] =
      some (state_after printing_run, "  Client 1, job 1, file 'a', status 'printing'\n") := by
  decide

/-! ### The unknown printer -/

/-- C8, amended. In every reachable state, for a printer id for which `printer_exists`
returns false, `print_cmd_fct` with 2 arguments, when the worker thread is created
(`pthread_create` returns 0), replies `  Created job no. <n>` with the next job id of the
client, appends to the client's index a new job with status PRINTER_ERROR, page count 0
and no printer, and leaves the printer registry with all its queues as it is; in every
state reached later the status of that job is still PRINTER_ERROR and the job is in no
printer queue.  When `pthread_create` fails, the reply is the failure message, the index
of the client is what it was before the command, and the printer registry is unchanged. -/
theorem print_unknown_printer (env : Env) (s : State) (c : Nat) (args : List String)
    (client : client_t) (hR : Reachable s) (hargs : args.length = 3)
    (hc : s.clients[c]? = some client)
    (hex : env.printer_exists (atoi (args.getD 1 "")) = false) :
    (env.pthread_create = 0 →
      ∃ s' job client',
        print_cmd_fct env s c args =
          some (s', "  Created job no. " ++ fmt_d (client.job_counter + 1) ++ "\n") ∧
        s'.jobs = s.jobs ++ [job] ∧ job.id = client.job_counter + 1 ∧
        job.status = .PRINTER_ERROR ∧ job.page_count = 0 ∧ job.printer = none ∧
        s'.clients[c]? = some client' ∧ client'.jobs = client.jobs ++ [s.jobs.length] ∧
        s'.printers = s.printers ∧
        ∀ (ls : List Label) (s'' : State), run s' ls = some s'' →
          (∃ job'', s''.jobs[s.jobs.length]? = some job'' ∧ job''.status = .PRINTER_ERROR) ∧
          ∀ (q : Nat) (prq : printer_t), s''.printers[q]? = some prq →
            s.jobs.length ∉ prq.jobs) ∧
    (env.pthread_create ≠ 0 →
      ∃ s' client',
        print_cmd_fct env s c args =
          some (s', "  Failed to create job worker thread: " ++ env.strerror env.pthread_create
            ++ "\n") ∧
        s'.clients[c]? = some client' ∧ client'.jobs = client.jobs ∧
        s'.printers = s.printers) := by
  have hI := reachable_inv hR
  have hres : resolve_printer env s.printers (atoi (args.getD 1 "")) =
      (s.printers, none, .PRINTER_ERROR) := by
    unfold resolve_printer
    rw [hex]
    simp
  have hp := print_cmd_fct_eq env s c args client hargs hc
  rw [hres] at hp
  have hjob : (print_job env s c client args).printer = none ∧
      (print_job env s c client args).status = .PRINTER_ERROR := by
    unfold print_job
    rw [hres]
    exact ⟨rfl, rfl⟩
  constructor
  · intro hcr
    simp only [hcr, if_true, decide_True, print_link, list_add_tail] at hp
    refine ⟨_, print_job env s c client args, _, hp, rfl, rfl, hjob.2, rfl, hjob.1,
      lookup_set_self _ hc, rfl, rfl, ?_⟩
    intro ls s'' hrun
    have hI' : Inv _ := inv_print hI hp
    have hnew : (s.jobs ++ [print_job env s c client args])[s.jobs.length]? =
        some (print_job env s c client args) := by
      rw [List.getElem?_append_right (Nat.le_refl _)]
      simp
    obtain ⟨job'', hj'', hpr'', _, _⟩ := (run_evolves hI' hrun).jobs_kept _ _ hnew
    have hI'' := run_inv hI' hrun
    rw [hjob.1] at hpr''
    refine ⟨⟨job'', hj'', hI''.no_printer _ job'' hj'' hpr''⟩, ?_⟩
    intro q prq hq hm
    obtain ⟨jobx, hjx, hpx⟩ := hI''.queue_job q prq _ hq hm
    rw [hj''] at hjx; cases hjx
    rw [hpr''] at hpx; cases hpx
  · intro hcr
    have e0 : decide (env.pthread_create = 0) = false := by simp [hcr]
    rw [e0, if_neg hcr] at hp
    have hfc : s.jobs.length ∉ client.jobs := fun hm => by
      have := hI.index_valid c client _ hc hm
      omega
    rw [print_link_undone hfc] at hp
    exact ⟨_, _, hp, lookup_set_self _ hc, rfl, rfl⟩

set_option maxRecDepth 100000 in
theorem print_unknown_printer_witness :
    Reachable (state_after [.accept]) ∧
    env_up.printer_exists (atoi (["print", "9", "a"].getD 1 "")) = false ∧
    (∃ s' job client',
      print_cmd_fct env_up (state_after [.accept]) 0 ["print", "9", "a"] =
        some (s', "  Created job no. " ++ fmt_d ((0 : Int) + 1) ++ "\n") ∧
      s'.jobs = (state_after [.accept]).jobs ++ [job] ∧ job.id = (0 : Int) + 1 ∧
      job.status = .PRINTER_ERROR ∧ job.page_count = 0 ∧ job.printer = none ∧
      s'.clients[0]? = some client' ∧
      client'.jobs = [] ++ [(state_after [.accept]).jobs.length] ∧
      s'.printers = (state_after [.accept]).printers ∧
      ∀ (ls : List Label) (s'' : State), run s' ls = some s'' →
        (∃ job'', s''.jobs[(state_after [.accept]).jobs.length]? = some job'' ∧
          job''.status = .PRINTER_ERROR) ∧
        ∀ (q : Nat) (prq : printer_t), s''.printers[q]? = some prq →
          (state_after [.accept]).jobs.length ∉ prq.jobs) ∧
    (∃ s' client',
      print_cmd_fct env_no_thread (state_after [.accept]) 0 ["print", "9", "a"] =
        some (s', "  Failed to create job worker thread: "
          ++ env_no_thread.strerror env_no_thread.pthread_create ++ "\n") ∧
      s'.clients[0]? = some client' ∧ client'.jobs = [] ∧
      s'.printers = (state_after [.accept]).printers) :=
  ⟨⟨[.accept], by decide⟩, by decide,
   (print_unknown_printer env_up (state_after [.accept]) 0 ["print", "9", "a"]
     { jobs := [], job_counter := 0, id := 1, quit := 0 } ⟨[.accept], by decide⟩
     (by decide) (by decide) (by decide)).1 (by decide),
   (print_unknown_printer env_no_thread (state_after [.accept]) 0 ["print", "9", "a"]
     { jobs := [], job_counter := 0, id := 1, quit := 0 } ⟨[.accept], by decide⟩
     (by decide) (by decide) (by decide)).2 (by decide)⟩

/-! ### The sections of invoice -/

/-- The sections of lines 356-371 of `invoice_cmd_fct`, one after the other with no step
of another thread in between, are `invoice_settle`. -/
theorem invoice_settle_sections {env : Env} {s : State} {j : Nat} {job : job_t}
    (hj : s.jobs[j]? = some job) :
    invoice_settle env s j job =
      if job.status = .WAITING ∨ job.status = .CANCELED then invoice_kill s j
      else pthread_join env s j := by
  unfold invoice_settle invoice_kill
  simp only [hj]

/-- With no step of another thread between its sections, the command with its sections
apart is `invoice_cmd_fct`. -/
theorem invoice_interleaved_alone (env : Env) (s : State) (c : Nat) (args : List String) :
    invoice_interleaved env (fun t => t) s c args = invoice_cmd_fct env s c args := by
  unfold invoice_interleaved invoice_cmd_fct
  cases invalid_arg_count 1 (args.length : Int) with
  | some msg => rfl
  | none =>
    simp only
    cases s.clients[c]? with
    | none => rfl
    | some client =>
      simp only
      cases find_job s client.jobs (atoi (args.getD 1 "")) with
      | none => rfl
      | some j =>
        simp only
        cases hj : s.jobs[j]? with
        | none => rfl
        | some job =>
          simp only
          rw [invoice_settle_sections hj]

set_option maxRecDepth 100000 in
/-- C11. The command does not do what the claim and the comment of lines 330-334 say.
First run: the job is WAITING and its worker has not started when `invoice 1` is issued;
the command does not wait for the job but cancels the worker, unlinks the job from the
queue and reports the status `waiting`.  Second run: the worker stands between its status
test (line 668) and line 673 when `invoice 1` reads the status WAITING (line 357) and
releases the lock (line 359); the worker then sets IN_PROGRESS and the page count 1
(lines 673-677); the command cancels the worker (line 361) and reports the status
`printing`. -/
theorem invoice_reports_unfinished :
    ((state_after waiting_run).jobs.map (fun job => (job.status, job.tid.pc)) =
        [(status_e.WAITING, pc_t.START)] ∧
      (invoice_cmd_fct env_up (state_after waiting_run) 0 ["invoice", "1"]).map
          (fun r => (r.1.jobs.map (fun job => (job.status, job.tid.pc)),
            r.1.printers.map (fun pr => pr.jobs))) =
        some ([(status_e.WAITING, pc_t.EXITED)], [[]]) ∧
      (invoice_cmd_fct env_up (state_after waiting_run) 0 ["invoice", "1"]).map (fun r => r.2) =
        some ("  Job 1, printer 7: status 'waiting', printed 0 pages. "
          ++ fmt_2f (double_mul_int page_price 0) ++ " total.\n") ∧
      fmt_2f (double_mul_int page_price 0) = "0.00") ∧
    ((state_after checked_run).jobs.map (fun job => (job.status, job.tid.pc)) =
        [(status_e.WAITING, pc_t.SET)] ∧
      (job_worker env_up (state_after checked_run) 0).jobs.map
          (fun job => (job.status, job.tid.pc)) = [(status_e.IN_PROGRESS, pc_t.GETLINE)] ∧
      (invoice_interleaved env_up (fun t => job_worker env_up t 0) (state_after checked_run) 0
          ["invoice", "1"]).map
          (fun r => (r.1.jobs.map (fun job => (job.status, job.tid.pc)),
            r.1.printers.map (fun pr => pr.jobs))) =
        some ([(status_e.IN_PROGRESS, pc_t.EXITED)], [[]]) ∧
      (invoice_interleaved env_up (fun t => job_worker env_up t 0) (state_after checked_run) 0
          ["invoice", "1"]).map (fun r => r.2) =
        some ("  Job 1, printer 7: status 'printing', printed 1 pages. "
          ++ fmt_2f (double_mul_int page_price 1) ++ " total.\n") ∧
      fmt_2f (double_mul_int page_price 1) = "0.05") := by
  refine ⟨⟨by decide, by decide, rfl, ?_⟩, by decide, by decide, by decide, rfl, ?_⟩
  · rw [fmt_2f_page_price 0 (by norm_num) (by norm_num)]
    decide
  · rw [fmt_2f_page_price 1 (by norm_num) (by norm_num)]
    decide

/-! ### The empty file -/

/-- C15. In every reachable state, for a job whose worker has left the turn loop (it
stands before `fopen`, line 658) and that is not cancelled, whose file opens and holds 0
bytes: the job is WAITING with page count 0, and with no cancel request the worker returns
after six steps; the status is WAITING up to the third step, which sets IN_PROGRESS and
the page count 1, and IN_PROGRESS up to the sixth, which sets FINISHED; the page count
stays 1 and no character is handed to the device. -/
theorem print_empty_file (env : Env) (s : State) (j p : Nat) (job : job_t) (pr : printer_t)
    (hR : Reachable s) (hj : s.jobs[j]? = some job) (hp : job.printer = some p)
    (hpr : s.printers[p]? = some pr) (hpc : job.tid.pc = .OPEN)
    (hst : job.status ≠ .CANCELED) (hopen : env.fopen job.filename = some []) (k : Nat) :
    job.status = .WAITING ∧ job.page_count = 0 ∧
    ∃ job' pr', (run_worker env k s j).jobs[j]? = some job' ∧
      (run_worker env k s j).printers[p]? = some pr' ∧ pr'.fd = pr.fd ∧
      (k < 3 → job'.status = .WAITING ∧ job'.page_count = 0) ∧
      (3 ≤ k → k < 6 → job'.status = .IN_PROGRESS ∧ job'.page_count = 1) ∧
      (6 ≤ k → job'.status = .FINISHED ∧ job'.page_count = 1 ∧ job'.tid.pc = .EXITED) := by
  have hw : job.status = .WAITING := by
    rcases (reachable_inv hR).early j job hj (by rw [hp]; simp) (by rw [hpc]; rfl) with e | e
    · exact e
    · exact absurd e hst
  have h0 : job.page_count = 0 := (reachable_sound hR j job hj).early_pages (by rw [hpc]; rfl)
  refine ⟨hw, h0, ?_⟩
  rw [run_worker_eq env j p k s job pr hj hp hpr]
  refine ⟨_, _, lookup_set_self _ hj, lookup_set_self _ hpr, ?_⟩
  have h6 : worker_steps env j 6 (job, pr) =
      ({ job with
          fd := [], status := .FINISHED, page_count := 1,
          tid := { pc := .EXITED, aborted := false, line_count := 0, line := [] } },
       { pr with jobs := list_del j pr.jobs, job_mutex := none }) := by
    simp [worker_steps, job_worker_step, hpc, hw, hopen, getline]
  by_cases hk : 6 ≤ k
  · obtain ⟨d, rfl⟩ : ∃ d, k = 6 + d := ⟨k - 6, by omega⟩
    rw [worker_steps_add, h6, worker_steps_exited env j d _ _ rfl]
    refine ⟨rfl, fun h => absurd h (by omega), fun _ h => absurd h (by omega),
      fun _ => ⟨rfl, rfl, rfl⟩⟩
  · have hk' : k < 6 := by omega
    interval_cases k
    all_goals simp [worker_steps, job_worker_step, hpc, hw, h0, hopen, getline]

set_option maxRecDepth 100000 in
theorem print_empty_file_witness :
    Reachable (state_after empty_run) ∧
    status_e.WAITING = .WAITING ∧ (0 : Int) = 0 ∧
    ∃ job' pr', (run_worker env_up 6 (state_after empty_run) 0).jobs[0]? = some job' ∧
      (run_worker env_up 6 (state_after empty_run) 0).printers[0]? = some pr' ∧
      pr'.fd = [] ∧
      (6 < 3 → job'.status = .WAITING ∧ job'.page_count = 0) ∧
      (3 ≤ 6 → 6 < 6 → job'.status = .IN_PROGRESS ∧ job'.page_count = 1) ∧
      (6 ≤ 6 → job'.status = .FINISHED ∧ job'.page_count = 1 ∧ job'.tid.pc = .EXITED) :=
  ⟨⟨empty_run, by decide⟩,
   print_empty_file env_up (state_after empty_run) 0 0
    { printer := some 0, client := 0, filename := "empty", fd := [], page_count := 0,
      tid := { pc := .OPEN, aborted := false, line_count := 0, line := [] },
      id := 1, status := .WAITING }
    { id := 7, jobs := [0], fd := [], job_mutex := some 0, status := .WAITING }
    ⟨empty_run, by decide⟩ (by decide) (by decide) (by decide) (by decide) (by decide)
    (by decide) 6⟩

/-! ### The listing and its buffer -/

/-- When every line fits the buffer `extension` (at most 125 characters and the
terminator): in every reachable state `jobs_cmd_fct` with one argument returns the state
it was called in, and its reply is the concatenation of one line per job whose printer
record has the id `atoi` yields for the argument, over the clients in the order of the
registry and the jobs of each client in the order of its index; the line gives the id of
the client, the id of the job, the file name and the status; a job without printer record
is not listed; when no job is listed the reply is
`  Currently there are no jobs for printer <arg>.` -/
theorem jobs_listing (s : State) (args : List String) (hR : Reachable s)
    (hargs : args.length = 2)
    (hfit : ∀ x ∈ (registry_jobs s).filter (fun x => on_printer s (atoi (args.getD 1 "")) x.2),
      (listing_line s x.1 x.2).length + 1 ≤ 126) :
    jobs_cmd_fct s args =
      some (s,
        if (registry_jobs s).filter (fun x => on_printer s (atoi (args.getD 1 "")) x.2) = [] then
          "  Currently there are no jobs for printer " ++ args.getD 1 "" ++ ".\n"
        else
          String.join
            (((registry_jobs s).filter (fun x => on_printer s (atoi (args.getD 1 "")) x.2)).map
              (fun x => listing_line s x.1 x.2))) ∧
    ∀ x ∈ registry_jobs s, ∃ cl job, s.clients[x.1]? = some cl ∧ s.jobs[x.2]? = some job ∧
      job.client = x.1 ∧
      listing_line s x.1 x.2 =
        "  Client " ++ fmt_d cl.id ++ ", job " ++ fmt_d job.id ++ ", file '" ++ job.filename
          ++ "', status '" ++ get_status job.status ++ "'\n" ∧
      (job.printer = none → on_printer s (atoi (args.getD 1 "")) x.2 = false) ∧
      ∀ p, job.printer = some p → ∃ pr, s.printers[p]? = some pr ∧
        (on_printer s (atoi (args.getD 1 "")) x.2 = true ↔ pr.id = atoi (args.getD 1 "")) := by
  have hI := reachable_inv hR
  have hO := (reachable_owned hR).1
  constructor
  · have e : invalid_arg_count 1 (args.length : Int) = none := by
      rw [hargs]; decide
    have hl : jobs_lines s (atoi (args.getD 1 "")) =
        ((registry_jobs s).filter (fun x => on_printer s (atoi (args.getD 1 "")) x.2)).map
          (fun x => listing_line s x.1 x.2) :=
      registry_lines hI hO _ s.client_list
    have hany : (jobs_lines s (atoi (args.getD 1 ""))).any
        (fun l => decide (126 < l.length + 1)) = false := by
      rw [hl, List.any_eq_false]
      intro l hm
      obtain ⟨x, hx, rfl⟩ := List.mem_map.mp hm
      have := hfit x hx
      simp only [decide_eq_true_eq]
      omega
    unfold jobs_cmd_fct
    rw [e]
    simp only [hany, Bool.false_eq_true, if_false]
    simp only [hl, List.length_map]
    by_cases h0 : (registry_jobs s).filter
        (fun x => on_printer s (atoi (args.getD 1 "")) x.2) = []
    · rw [if_pos h0, h0]
      simp
    · rw [if_neg h0, if_neg (fun h => h0 (List.length_eq_zero.mp h))]
  · intro x hx
    unfold registry_jobs at hx
    rw [List.mem_flatMap] at hx
    obtain ⟨c, _, hx⟩ := hx
    cases hc : s.clients[c]? with
    | none => simp [hc] at hx
    | some cl =>
      simp only [hc, List.mem_map] at hx
      obtain ⟨j, hj, rfl⟩ := hx
      obtain ⟨job, hjob, e⟩ := hO.owner c cl j hc hj
      refine ⟨cl, job, hc, hjob, e, ?_, ?_, ?_⟩
      · simp only [listing_line, hc, hjob]
      · intro hp
        simp only [on_printer, hjob, hp]
      · intro p hp
        obtain ⟨pr, hpr⟩ := inv_printer_record hI hjob hp
        refine ⟨pr, hpr, ?_⟩
        simp only [on_printer, hjob, hp, hpr]
        simp

/-- In every reachable state, when a line to be listed does not fit the buffer
`extension`, `jobs_cmd_fct` writes past the buffer. -/
theorem jobs_overrun (s : State) (args : List String) (hR : Reachable s)
    (hargs : args.length = 2) (x : Nat × Nat) (hx : x ∈ registry_jobs s)
    (hon : on_printer s (atoi (args.getD 1 "")) x.2 = true)
    (hlong : 126 < (listing_line s x.1 x.2).length + 1) :
    jobs_cmd_fct s args = none := by
  have hI := reachable_inv hR
  have hO := (reachable_owned hR).1
  have e : invalid_arg_count 1 (args.length : Int) = none := by
    rw [hargs]; decide
  have hl : jobs_lines s (atoi (args.getD 1 "")) =
      ((registry_jobs s).filter (fun x => on_printer s (atoi (args.getD 1 "")) x.2)).map
        (fun x => listing_line s x.1 x.2) :=
    registry_lines hI hO _ s.client_list
  have hany : (jobs_lines s (atoi (args.getD 1 ""))).any
      (fun l => decide (126 < l.length + 1)) = true := by
    rw [hl, List.any_eq_true]
    refine ⟨listing_line s x.1 x.2, List.mem_map.mpr ⟨x, ?_, rfl⟩, by simpa using hlong⟩
    rw [List.mem_filter]
    exact ⟨hx, hon⟩
  unfold jobs_cmd_fct
  rw [e]
  simp only [hany, if_true]

set_option maxRecDepth 100000 in
/-- C17. The command overruns its line buffer.  A client has printed a file with a name
of 90 characters on device 7; the job has a printer record with the id 7, so that the
listing of printer 7 has a line for it, of 135 characters; `jobs 7` writes the line and
its terminator with `sprintf` to the buffer `extension` of 126 bytes (lines 473 and 487)
and gives no reply. -/
theorem jobs_overruns_buffer :
    Reachable (state_after long_name_run) ∧
    (state_after long_name_run).jobs.map (fun job => (job.printer, job.filename.length)) =
      [(some 0, 90)] ∧
    (state_after long_name_run).printers.map (fun pr => pr.id) = [7] ∧
    (registry_jobs (state_after long_name_run)).filter
        (fun x => on_printer (state_after long_name_run) (atoi "7") x.2) = [(0, 0)] ∧
    listing_line (state_after long_name_run) 0 0 =
      "  Client 1, job 1, file '" ++ long_name ++ "', status 'waiting'\n" ∧
    (listing_line (state_after long_name_run) 0 0).length = 135 ∧
    jobs_cmd_fct (state_after long_name_run) ["jobs", "7"] = none := by
  refine ⟨⟨long_name_run, by decide⟩, by decide, by decide, by decide, by decide, by decide,
    by decide⟩

set_option maxRecDepth 100000 in
theorem jobs_listing_instance :
    Reachable (state_after printing_run) ∧
    (registry_jobs (state_after printing_run)).filter
        (fun x => on_printer (state_after printing_run) (atoi "7") x.2) = [(0, 0)] ∧
    jobs_cmd_fct (state_after printing_run) ["jobs", "7"] =
      some (state_after printing_run,
        "  Client 1, job 1, file 'a', status 'printing'\n") := by
  refine ⟨⟨printing_run, by decide⟩, by decide, ?_⟩
  have h := (jobs_listing (state_after printing_run) ["jobs", "7"] ⟨printing_run, by decide⟩
    (by decide) (by decide)).1
  rw [h]
  decide

end PrintServer
